import Mathlib

/-!
# Bounded single-producer / single-consumer channel (`core/src/lib/channel.h`)

A shallow embedding of the channel of `lib/channel.h`: the shared `queue`, the
producer endpoint `in` (here `in_`, since `in` is reserved) and the consumer
endpoint `out`.

Modelling decisions.

* `std::vector<T>` is a `List T`; `emplace_back` appends at the tail.
* One value of `buffered_channel` holds the shared queue and the private state
  of both endpoints, because the endpoints share the queue through a
  `shared_ptr`.  Every operation is a function on that whole value.
* Each operation runs atomically (all reads and writes of the shared state
  happen under the queue's mutex).  A blocking call whose wait predicate is
  false in the current state does not return in that state; this is the result
  `lock_result.waits` of the queue and `none` of the endpoint operation.
* `shared.try_lock()` may fail because the mutex is held by the other thread;
  the outcome of that attempt is the Boolean argument `acquired`.
* Condition-variable notifications carry no state and are not modelled.
-/

namespace channel

/-- The queue's `struct internal`: the buffered values and the half-close flags. -/
structure internal (T : Type) where
  data : List T
  in_dead : Bool
  out_dead : Bool
deriving DecidableEq

/-- The shared `queue<T>`: the guarded `internal` and the capacity `max_size`. -/
structure queue (T : Type) where
  shared : internal T
  max_size : Nat
deriving DecidableEq

/-- Result of the blocking `read_lock` / `write_lock` (`std::optional<handle>`),
with `waits` for a call whose wait predicate does not hold. -/
inductive lock_result where
  | waits
  | nullopt
  | handle
deriving DecidableEq

/-- The `try_result` variant of `try_read_lock` / `try_write_lock`; the handle
alternative is `handle`. -/
inductive try_result where
  | handle
  | failed_to_acquire_lock
  | channel_closed
deriving DecidableEq

variable {T : Type}

/-- The constructor `queue(std::size_t max_size)`: the member `shared{}` is
value-initialised, so the buffer is empty and both flags are clear. -/
def queue.mk_empty (max_size : Nat) : queue T :=
  { shared := { data := [], in_dead := false, out_dead := false }, max_size := max_size }

/-- The function `queue::read_lock`. -/
def queue.read_lock (q : queue T) : lock_result × queue T :=
  if q.shared.out_dead then (lock_result.nullopt, q)
  else if !(decide (q.shared.data.length > 0) || q.shared.in_dead) then (lock_result.waits, q)
  else if q.shared.data.length == 0 then (lock_result.nullopt, q)
  else (lock_result.handle, q)

/-- The function `queue::write_lock`. -/
def queue.write_lock (q : queue T) : lock_result × queue T :=
  if !(decide (q.shared.data.length < q.max_size) || q.shared.out_dead) then (lock_result.waits, q)
  else if q.shared.in_dead then (lock_result.nullopt, q)
  else if q.shared.out_dead then (lock_result.nullopt, q)
  else (lock_result.handle, q)

/-- The function `queue::try_read_lock`; `acquired` is the outcome of `shared.try_lock()`. -/
def queue.try_read_lock (acquired : Bool) (q : queue T) : try_result × queue T :=
  if !acquired then (try_result.failed_to_acquire_lock, q)
  else if q.shared.out_dead then (try_result.channel_closed, q)
  else if q.shared.data.length == 0 then
    if q.shared.in_dead then (try_result.channel_closed, q)
    else (try_result.failed_to_acquire_lock, q)
  else (try_result.handle, q)

/-- The function `queue::try_write_lock`; `acquired` is the outcome of `shared.try_lock()`. -/
def queue.try_write_lock (acquired : Bool) (q : queue T) : try_result × queue T :=
  if !acquired then (try_result.failed_to_acquire_lock, q)
  else if q.shared.in_dead then (try_result.channel_closed, q)
  else if q.shared.out_dead then (try_result.channel_closed, q)
  else if q.shared.data.length >= q.max_size then (try_result.failed_to_acquire_lock, q)
  else (try_result.handle, q)

/-- The function `queue::close_in`. -/
def queue.close_in (q : queue T) : queue T :=
  { q with shared := { q.shared with in_dead := true } }

/-- The function `queue::close_out`. -/
def queue.close_out (q : queue T) : queue T :=
  { q with shared := { q.shared with out_dead := true } }

/-- Write access through a handle: `handle->data().emplace_back(v)`. -/
def queue.emplace_back (q : queue T) (v : T) : queue T :=
  { q with shared := { q.shared with data := q.shared.data ++ [v] } }

/-- Private state of the producer endpoint `in<T>`. -/
structure in_ where
  did_close : Bool
deriving DecidableEq

/-- Private state of the consumer endpoint `out<T>`. -/
structure out (T : Type) where
  cache : List T
  cache_iter : Nat
  did_close : Bool
deriving DecidableEq

/-- A channel: the shared queue with its two endpoints. -/
structure buffered_channel (T : Type) where
  shared : queue T
  producer : in_
  consumer : out T
deriving DecidableEq

/-- The function `CreateBufferedChannel(capacity)`. -/
def CreateBufferedChannel (capacity : Nat) : buffered_channel T :=
  { shared := queue.mk_empty capacity
    producer := { did_close := false }
    consumer := { cache := [], cache_iter := 0, did_close := false } }

/-- The function `in::close`. -/
def in_.close (c : buffered_channel T) : buffered_channel T :=
  if !c.producer.did_close then
    { c with shared := c.shared.close_in, producer := { did_close := true } }
  else c

/-- The function `in::closed`. -/
def in_.closed (c : buffered_channel T) : Bool := c.producer.did_close

/-- The function `in::emplace`; `none` when the call waits in `write_lock`. -/
def in_.emplace (c : buffered_channel T) (v : T) : Option (Bool × buffered_channel T) :=
  if c.producer.did_close then some (false, c)
  else
    match c.shared.write_lock with
    | (lock_result.waits, _) => none
    | (lock_result.handle, q) => some (true, { c with shared := q.emplace_back v })
    | (lock_result.nullopt, q) => some (false, in_.close { c with shared := q })

/-- The function `in::try_emplace`. -/
def in_.try_emplace (acquired : Bool) (c : buffered_channel T) (v : T) :
    Bool × buffered_channel T :=
  if c.producer.did_close then (false, c)
  else
    match c.shared.try_write_lock acquired with
    | (try_result.failed_to_acquire_lock, q) => (false, { c with shared := q })
    | (try_result.channel_closed, q) => (false, in_.close { c with shared := q })
    | (try_result.handle, q) => (true, { c with shared := q.emplace_back v })

/-- The function `out::close`. -/
def out.close (c : buffered_channel T) : buffered_channel T :=
  if !c.consumer.did_close then
    { c with
      shared := c.shared.close_out
      consumer := { cache := [], cache_iter := 0, did_close := true } }
  else c

/-- The function `out::closed`. -/
def out.closed (c : buffered_channel T) : Bool := c.consumer.did_close

/-- The function `out::do_update_cache` applied to the queue's buffer: the cache
is cleared, the cursor reset and the two vectors swapped. -/
def out.do_update_cache (c : buffered_channel T) : buffered_channel T :=
  { c with
    shared := { c.shared with shared := { c.shared.shared with data := [] } }
    consumer := { c.consumer with cache := c.shared.shared.data, cache_iter := 0 } }

/-- The function `out::update_cache`; `none` when the call waits in `read_lock`. -/
def out.update_cache (c : buffered_channel T) : Option (buffered_channel T) :=
  if c.consumer.cache_iter == c.consumer.cache.length then
    match c.shared.read_lock with
    | (lock_result.waits, _) => none
    | (lock_result.handle, q) => some (out.do_update_cache { c with shared := q })
    | (lock_result.nullopt, q) => some (out.close { c with shared := q })
  else some c

/-- The function `out::try_update_cache`. -/
def out.try_update_cache (acquired : Bool) (c : buffered_channel T) : buffered_channel T :=
  if c.consumer.cache_iter == c.consumer.cache.length then
    match c.shared.try_read_lock acquired with
    | (try_result.failed_to_acquire_lock, q) => { c with shared := q }
    | (try_result.channel_closed, q) => out.close { c with shared := q }
    | (try_result.handle, q) => out.do_update_cache { c with shared := q }
  else c

/-- The common tail of `get` and `try_get`: serve `cache[cache_iter++]` when the
cursor is inside the cache.  The slot that `std::move` leaves behind stays in
the list; the cursor never returns to it. -/
def out.take (c : buffered_channel T) : Option T × buffered_channel T :=
  if c.consumer.cache.length > c.consumer.cache_iter then
    (c.consumer.cache.get? c.consumer.cache_iter,
     { c with consumer := { c.consumer with cache_iter := c.consumer.cache_iter + 1 } })
  else (none, c)

/-- The function `out::get`; the outer `none` is a call that waits, the inner one is
`std::nullopt`. -/
def out.get (c : buffered_channel T) : Option (Option T × buffered_channel T) :=
  if c.consumer.did_close then some (none, c)
  else
    match out.update_cache c with
    | none => none
    | some c' => some (out.take c')

/-- The function `out::try_get`. -/
def out.try_get (acquired : Bool) (c : buffered_channel T) : Option T × buffered_channel T :=
  if c.consumer.did_close then (none, c)
  else out.take (out.try_update_cache acquired c)

/-- One endpoint operation of a sequential interleaving. -/
inductive op (T : Type) where
  | emplace (v : T)
  | try_emplace (acquired : Bool) (v : T)
  | in_close
  | get
  | try_get (acquired : Bool)
  | out_close
deriving DecidableEq

/-- A channel together with the observable history: the values whose
`emplace` / `try_emplace` returned `true`, and the values returned by
`get` / `try_get`, both in program order. -/
structure history (T : Type) where
  chan : buffered_channel T
  pushed : List T
  received : List T
deriving DecidableEq

/-- The history right after `CreateBufferedChannel(capacity)`. -/
def history.init (capacity : Nat) : history T :=
  { chan := CreateBufferedChannel capacity, pushed := [], received := [] }

/-- Record the result of a push. -/
def history.push (h : history T) (v : T) (r : Bool × buffered_channel T) : history T :=
  { chan := r.2, pushed := if r.1 then h.pushed ++ [v] else h.pushed, received := h.received }

/-- Record the result of a read. -/
def history.recv (h : history T) (r : Option T × buffered_channel T) : history T :=
  { chan := r.2, pushed := h.pushed,
    received := match r.1 with
      | some v => h.received ++ [v]
      | none => h.received }

/-- Execute one operation; `none` when the operation waits in this state. -/
def step (h : history T) : op T → Option (history T)
  | op.emplace v => (in_.emplace h.chan v).map (h.push v)
  | op.try_emplace a v => some (h.push v (in_.try_emplace a h.chan v))
  | op.in_close => some { h with chan := in_.close h.chan }
  | op.get => (out.get h.chan).map h.recv
  | op.try_get a => some (h.recv (out.try_get a h.chan))
  | op.out_close => some { h with chan := out.close h.chan }

/-- Execute a sequence of operations in order; `none` when one of them waits at
its turn, so that the sequence is not an interleaving of completed calls. -/
def run (h : history T) : List (op T) → Option (history T)
  | [] => some h
  | o :: os => (step h o).bind (fun h' => run h' os)


/-- Whether `read_lock` takes its first branch, the one that logs "tried to read
from channel that was closed from the read side". -/
def queue.read_lock_misuse (q : queue T) : Bool := q.shared.out_dead

/-- Whether `write_lock`, once its wait is over, takes the branch that logs
"tried to write to channel that was closed from the write side". -/
def queue.write_lock_misuse (q : queue T) : Bool :=
  (decide (q.shared.data.length < q.max_size) || q.shared.out_dead) && q.shared.in_dead

/-- Whether `try_read_lock` takes the logging branch: it needs the lock first. -/
def queue.try_read_lock_misuse (acquired : Bool) (q : queue T) : Bool :=
  acquired && q.shared.out_dead

/-- Whether `try_write_lock` takes the logging branch: it needs the lock first. -/
def queue.try_write_lock_misuse (acquired : Bool) (q : queue T) : Bool :=
  acquired && q.shared.in_dead

/-- Whether an endpoint operation, started on channel `c`, reaches a call of
the queue that takes one of the logging ("programmer error") branches.  The
endpoints call the queue only after their own `did_close` test, and the
consumer only when its cache is exhausted. -/
def op.misuse (c : buffered_channel T) : op T → Bool
  | op.emplace _ => !c.producer.did_close && c.shared.write_lock_misuse
  | op.try_emplace a _ => !c.producer.did_close && c.shared.try_write_lock_misuse a
  | op.in_close => false
  | op.get =>
    !c.consumer.did_close && (c.consumer.cache_iter == c.consumer.cache.length)
      && c.shared.read_lock_misuse
  | op.try_get a =>
    !c.consumer.did_close && (c.consumer.cache_iter == c.consumer.cache.length)
      && c.shared.try_read_lock_misuse a
  | op.out_close => false

/-- Both half-close flags survive from `q` to `q1`: a flag that is set in `q`
is set in `q1`. -/
def flags_kept (q q1 : queue T) : Prop :=
  (q.shared.in_dead = true → q1.shared.in_dead = true) ∧
    (q.shared.out_dead = true → q1.shared.out_dead = true)

/-- The results of `n` successive calls of `get`, in order, and the channel they
leave; `none` when one of the calls waits. -/
def out.get_n : Nat → buffered_channel T → Option (List (Option T) × buffered_channel T)
  | 0, c => some ([], c)
  | n + 1, c =>
    match out.get c with
    | none => none
    | some (r, c1) => (out.get_n n c1).map (fun p => (r :: p.1, p.2))

/-- The invariant kept by every operation of the two endpoints, for a channel
created with capacity `cap`. -/
structure wf (cap : Nat) (h : history T) : Prop where
  cap_eq : h.chan.shared.max_size = cap
  bound : h.chan.shared.shared.data.length ≤ h.chan.shared.max_size
  in_flag : h.chan.producer.did_close = h.chan.shared.shared.in_dead
  out_flag : h.chan.consumer.did_close = h.chan.shared.shared.out_dead
  cursor : h.chan.consumer.cache_iter ≤ h.chan.consumer.cache.length
  cache_bound : h.chan.consumer.cache.length ≤ h.chan.shared.max_size
  closed_cache : h.chan.consumer.did_close = true →
    h.chan.consumer.cache = [] ∧ h.chan.consumer.cache_iter = 0
  fifo : h.received <+: h.pushed
  pending : h.chan.consumer.did_close = false →
    h.received ++ h.chan.consumer.cache.drop h.chan.consumer.cache_iter
      ++ h.chan.shared.shared.data = h.pushed

end channel

/-!
# Performance reports (`core/src/lib/perf_report.cc`)

A shallow embedding of the report code of `lib/perf_report.cc`.

Modelling decisions.

* A `BlockIdentity const*` is the address of the object, a `Nat`; the text
  behind it is read through a function `c_str` from addresses to names, and
  `strlen` counts bytes.
* Time points and durations are integer nanosecond counts (`Int`).  The
  differences and sums of `as_of` and the product `time_spent * 100` of
  `PrintNode` are formed as 64-bit two's-complement values (`int64_t`); the
  other counters are exact integers, which is the value the code holds as long
  as it stays in the 64-bit range.
* An `std::unordered_map` keyed by block pointers is the list of its entries
  in iteration order (`umap`); `m[k] += v` creates the entry when it is
  missing.  The iteration order of the real map is unspecified, which the
  statements about sorted output take into account.
* `ASSERT` aborts the program: a function that contains one returns `none`
  when the assertion fails.
* The percentage printed by the reports is a `double` quotient; the model keeps
  its numerator and denominator instead of the rounded digits.
-/

namespace perf_report

/-- The address of a `BlockIdentity` object; the code handles blocks only
through `BlockIdentity const*`, compared and hashed by address. -/
abbrev BlockIdentity := Nat

/-- The function `std::strlen` on a name. -/
def strlen (s : String) : Nat := s.utf8ByteSize

/-- The `struct SplitDuration`: the six counts. -/
structure SplitDuration where
  h : Int
  m : Int
  s : Int
  ms : Int
  us : Int
  ns : Int
deriving DecidableEq

/-- The constructor `SplitDuration(Duration d)` for a nanosecond duration;
`duration_cast` truncates toward zero. -/
def SplitDuration.ctor (d : Int) : SplitDuration :=
  let h := d.tdiv 3600000000000
  let d1 := d - h * 3600000000000
  let m := d1.tdiv 60000000000
  let d2 := d1 - m * 60000000000
  let s := d2.tdiv 1000000000
  let d3 := d2 - s * 1000000000
  let ms := d3.tdiv 1000000
  let d4 := d3 - ms * 1000000
  let us := d4.tdiv 1000
  let d5 := d4 - us * 1000
  { h := h, m := m, s := s, ms := ms, us := us, ns := d5 }

/-- Formatted output of an `int64_t` under `std::setfill(fill)` and
`std::setw(width)`: the decimal text, padded on the left up to the width. -/
def put_int (fill : Char) (width : Nat) (n : Int) : List Char :=
  let text := if n < 0 then '-' :: Nat.toDigits 10 n.natAbs else Nat.toDigits 10 n.toNat
  List.replicate (width - text.length) fill ++ text

/-- The function `operator<<(std::ostream&, SplitDuration)`: the characters
written. -/
def SplitDuration.print (d : SplitDuration) : List Char :=
  put_int '0' 2 d.h ++ [':'] ++ put_int '0' 2 d.m ++ [':'] ++ put_int '0' 2 d.s ++ ['.']
    ++ put_int '0' 3 d.ms ++ ['-'] ++ put_int '0' 3 d.us

/-- Spec side: the `k` low decimal digits of `n`, most significant first. -/
def fixed_digits : Nat → Nat → List Char
  | 0, _ => []
  | k + 1, n => fixed_digits k (n / 10) ++ [Nat.digitChar (n % 10)]

/-- Spec side: the text `HH:MM:SS.mmm-uuu` of a duration of `d` nanoseconds,
computed from the whole microseconds `d / 1000` only; hours beyond 99 are
written in full. -/
def duration_text (d : Nat) : List Char :=
  let us := d / 1000
  let hh := us / 3600000000
  (if hh < 100 then fixed_digits 2 hh else Nat.toDigits 10 hh) ++ [':']
    ++ fixed_digits 2 (us / 60000000 % 60) ++ [':']
    ++ fixed_digits 2 (us / 1000000 % 60) ++ ['.']
    ++ fixed_digits 3 (us / 1000 % 1000) ++ ['-']
    ++ fixed_digits 3 (us % 1000)

/-- Arithmetic of `std::int64_t`, the `rep` of `std::chrono::nanoseconds`: the
value of a 64-bit two's-complement result whose exact value is `x`. -/
def int64_t (x : Int) : Int := (x + 2 ^ 63) % 2 ^ 64 - 2 ^ 63

/-- Spec side: `x` lies in the range of `std::int64_t`. -/
def in_int64 (x : Int) : Prop := -2 ^ 63 ≤ x ∧ x < 2 ^ 63

/-- An `std::unordered_map<BlockIdentity const*, nanoseconds>`: its entries in
iteration order. -/
structure umap where
  entries : List (BlockIdentity × Int)
deriving DecidableEq

/-- The empty map. -/
def umap.empty : umap := { entries := [] }

/-- Value stored under `k`, and 0 (the value `operator[]` would create) when
there is no entry. -/
def umap.at (m : umap) (k : BlockIdentity) : Int :=
  match m.entries.find? (fun p => p.1 == k) with
  | some p => p.2
  | none => 0

/-- Entries after `m[k] += v`. -/
def umap.add_entries : List (BlockIdentity × Int) → BlockIdentity → Int →
    List (BlockIdentity × Int)
  | [], k, v => [(k, 0 + v)]
  | (k1, x) :: rest, k, v =>
    if k1 = k then (k1, x + v) :: rest else (k1, x) :: umap.add_entries rest k v

/-- The statement `m[k] += v`. -/
def umap.add (m : umap) (k : BlockIdentity) (v : Int) : umap :=
  { entries := umap.add_entries m.entries k v }

/-- Entries after `m[k] += v` with the sum formed in 64-bit arithmetic. -/
def umap.add64_entries : List (BlockIdentity × Int) → BlockIdentity → Int →
    List (BlockIdentity × Int)
  | [], k, v => [(k, int64_t (0 + v))]
  | (k1, x) :: rest, k, v =>
    if k1 = k then (k1, int64_t (x + v)) :: rest else (k1, x) :: umap.add64_entries rest k v

/-- The statement `m[k] += v` on `nanoseconds` values, the sum formed in 64-bit
arithmetic. -/
def umap.add64 (m : umap) (k : BlockIdentity) (v : Int) : umap :=
  { entries := umap.add64_entries m.entries k v }

/-- Sum of all values of the map. -/
def umap.total (m : umap) : Int := (m.entries.map Prod.snd).sum

/-- The `event::OpenEvent`. -/
structure OpenEvent where
  source : BlockIdentity
  start : Int
deriving DecidableEq

/-- The `event::CloseEvent`; the field `end` is `end_` here. -/
structure CloseEvent where
  source : BlockIdentity
  end_ : Int
deriving DecidableEq

/-- State of a `ThreadOverviewReport`; the back of the `stack` vector is the
last element of the list. -/
structure ThreadOverviewReport where
  now : Int
  stack : List OpenEvent
  cul_time : umap
deriving DecidableEq

/-- A recorder with nothing recorded. -/
def ThreadOverviewReport.empty : ThreadOverviewReport :=
  { now := 0, stack := [], cul_time := umap.empty }

/-- The function `ThreadOverviewReport::begin_report`. -/
def ThreadOverviewReport.begin_report (r : ThreadOverviewReport) (current : Int) :
    ThreadOverviewReport :=
  { r with now := current }

/-- The function `ThreadOverviewReport::begin_event`. -/
def ThreadOverviewReport.begin_event (r : ThreadOverviewReport) (e : OpenEvent) :
    ThreadOverviewReport :=
  { r with stack := r.stack ++ [e] }

/-- The function `ThreadOverviewReport::end_event`; `none` when one of its two
assertions fails. -/
def ThreadOverviewReport.end_event (r : ThreadOverviewReport) (e : CloseEvent) :
    Option ThreadOverviewReport :=
  match r.stack.getLast? with
  | none => none
  | some back =>
    if back.source = e.source then
      some { r with
        cul_time := r.cul_time.add e.source (e.end_ - back.start)
        stack := r.stack.dropLast }
    else none

/-- The loop of `as_of` over the open events, front to back.  The difference
`tp - open.start` and the sum of `+=` are 64-bit values. -/
def ThreadOverviewReport.as_of_loop (tp : Int) : umap → List OpenEvent → umap
  | result, [] => result
  | result, open_ :: rest =>
    if open_.start > tp then ThreadOverviewReport.as_of_loop tp result rest
    else ThreadOverviewReport.as_of_loop tp
      (result.add64 open_.source (int64_t (tp - open_.start))) rest

/-- The function `ThreadOverviewReport::as_of`; it is `const`, so it only
returns the copied and extended map. -/
def ThreadOverviewReport.as_of (r : ThreadOverviewReport) (tp : Int) : umap :=
  ThreadOverviewReport.as_of_loop tp r.cul_time r.stack

/-- One event of a thread's stream. -/
inductive event where
  | begin_event (e : OpenEvent)
  | end_event (e : CloseEvent)
deriving DecidableEq

/-- Apply one event to the overview recorder. -/
def ThreadOverviewReport.apply (r : ThreadOverviewReport) : event → Option ThreadOverviewReport
  | event.begin_event e => some (r.begin_event e)
  | event.end_event e => r.end_event e

/-- Apply a stream of events in order; `none` when an assertion fails. -/
def ThreadOverviewReport.run (r : ThreadOverviewReport) :
    List event → Option ThreadOverviewReport
  | [] => some r
  | e :: es => (r.apply e).bind (fun r1 => ThreadOverviewReport.run r1 es)

/-- One use of a recorder: its thread applies an event to it, or a reporter
calls `as_of`. -/
inductive recorder_call where
  | apply (e : event)
  | as_of (tp : Int)
deriving DecidableEq

/-- A recorder together with the maps its `as_of` calls have returned so far,
oldest first; the callers hold these maps by value. -/
structure recorder_use where
  recorder : ThreadOverviewReport
  returned : List umap
deriving DecidableEq

/-- One call on a recorder in use.  An event goes through `begin_event` or
`end_event`; `as_of` is a `const` member that builds its local `result` and
returns it by value. -/
def recorder_use.step (s : recorder_use) : recorder_call → Option recorder_use
  | recorder_call.apply e => (s.recorder.apply e).map (fun r => { s with recorder := r })
  | recorder_call.as_of tp =>
    some { s with returned := s.returned ++ [s.recorder.as_of tp] }

/-- Calls made in order; `none` when an assertion fails. -/
def recorder_use.run (s : recorder_use) : List recorder_call → Option recorder_use
  | [] => some s
  | c :: cs => (s.step c).bind (fun s1 => recorder_use.run s1 cs)

/-- Spec side: the events among the calls, in order. -/
def applied_events : List recorder_call → List event
  | [] => []
  | recorder_call.apply e :: cs => e :: applied_events cs
  | recorder_call.as_of _ :: cs => applied_events cs

/-- Spec side: what the open events with source `b` and `start ≤ t` contribute
at time `t`. -/
def open_time (b : BlockIdentity) (t : Int) (stack : List OpenEvent) : Int :=
  ((stack.filter (fun o => o.source == b && decide (o.start ≤ t))).map
    (fun o => t - o.start)).sum

mutual
/-- Modelled from the spec: `ThreadCallstackReport::Node`, declared in
`lib/perf_report.h`, which is not among the sources.  The report code reads a
node through `depth()`, `time_spent()` and `children_view()` only. -/
inductive Node where
  | mk (depth : Nat) (time_spent : Int) (children : Children)
/-- Modelled from the spec: the child map of a node, as its entries (key and
owned child) in iteration order. -/
inductive Children where
  | nil
  | cons (id : BlockIdentity) (child : Node) (rest : Children)
end

/-- The accessor `Node::depth`. -/
def Node.depth : Node → Nat
  | Node.mk d _ _ => d

/-- The accessor `Node::time_spent`. -/
def Node.time_spent : Node → Int
  | Node.mk _ t _ => t

/-- The accessor `Node::children_view`. -/
def Node.children_view : Node → Children
  | Node.mk _ _ cs => cs

/-- The entries of a child map as a list. -/
def Children.toList : Children → List (BlockIdentity × Node)
  | Children.nil => []
  | Children.cons id child rest => (id, child) :: Children.toList rest

/-- Spec side: sum of the children's `time_spent`. -/
def Children.time_spent : Children → Int
  | Children.nil => 0
  | Children.cons _ child rest => child.time_spent + Children.time_spent rest

/-- Spec side: `time_spent(node) − Σ time_spent(children)`. -/
def Node.self_time (n : Node) : Int := n.time_spent - n.children_view.time_spent

mutual
/-- The function `PrintCollapsedNode`: the lines written (path and number) and
the value returned; `none` when the assertion fails. -/
def PrintCollapsedNode (c_str : BlockIdentity → String) (max_depth : Nat) (path : String) :
    Node → Option (List (String × Int) × Int)
  | Node.mk depth time_spent children =>
    if depth < max_depth then
      match PrintCollapsedLoop c_str max_depth path children with
      | none => none
      | some (lines, child_time) =>
        if child_time ≤ time_spent then
          some (lines ++ [(path, time_spent - child_time)], time_spent)
        else none
    else some ([(path, time_spent - 0)], time_spent)
/-- The `for` loop of `PrintCollapsedNode` over the children: the lines written
and the accumulated `child_time`. -/
def PrintCollapsedLoop (c_str : BlockIdentity → String) (max_depth : Nat) (path : String) :
    Children → Option (List (String × Int) × Int)
  | Children.nil => some ([], 0)
  | Children.cons id child rest =>
    match PrintCollapsedNode c_str max_depth (path ++ ";" ++ c_str id) child with
    | none => none
    | some (lines1, t1) =>
      match PrintCollapsedLoop c_str max_depth path rest with
      | none => none
      | some (lines2, t2) => some (lines1 ++ lines2, t1 + t2)
end

mutual
/-- Spec side: the lines of the folded print: a node at depth `max_depth` or
deeper gives one line with its full time, any other node gives the lines of
its children and then its own line with its time minus its children's. -/
def collapsed_lines (c_str : BlockIdentity → String) (max_depth : Nat) (path : String) :
    Node → List (String × Int)
  | Node.mk depth time_spent children =>
    if depth < max_depth then
      collapsed_children c_str max_depth path children
        ++ [(path, time_spent - children.time_spent)]
    else [(path, time_spent)]
/-- Spec side: the folded lines of all children. -/
def collapsed_children (c_str : BlockIdentity → String) (max_depth : Nat) (path : String) :
    Children → List (String × Int)
  | Children.nil => []
  | Children.cons id child rest =>
    collapsed_lines c_str max_depth (path ++ ";" ++ c_str id) child
      ++ collapsed_children c_str max_depth path rest
end

mutual
/-- Spec side: tree time conservation, `time_spent(node) ≥ Σ time_spent(children)`
at every node. -/
def Node.conserved : Node → Bool
  | Node.mk _ time_spent children =>
    decide (children.time_spent ≤ time_spent) && Children.conserved children
/-- Spec side: every child tree is conserved. -/
def Children.conserved : Children → Bool
  | Children.nil => true
  | Children.cons _ child rest => Node.conserved child && Children.conserved rest
end

mutual
/-- The function `CreateOverview`: the map after the call and the value
returned. -/
def CreateOverview (relative : Bool) (time_spent : umap) (node_id : BlockIdentity) :
    Node → umap × Int
  | Node.mk _ time_inside_node children =>
    let r := CreateOverviewLoop relative time_spent children
    let attributed_time := if relative then time_inside_node - r.2 else time_inside_node
    (r.1.add node_id attributed_time, time_inside_node)
/-- The `for` loop of `CreateOverview` over the children: the map and the
accumulated `child_time`. -/
def CreateOverviewLoop (relative : Bool) (time_spent : umap) : Children → umap × Int
  | Children.nil => (time_spent, 0)
  | Children.cons id child rest =>
    let r1 := CreateOverview relative time_spent id child
    let r2 := CreateOverviewLoop relative r1.1 rest
    (r2.1, r1.2 + r2.2)
end

mutual
/-- Spec side: all nodes of a tree with the key each one is stored under. -/
def keyed_nodes (node_id : BlockIdentity) : Node → List (BlockIdentity × Node)
  | Node.mk d t children => (node_id, Node.mk d t children) :: keyed_children children
/-- Spec side: the keyed nodes of all child trees. -/
def keyed_children : Children → List (BlockIdentity × Node)
  | Children.nil => []
  | Children.cons id child rest => keyed_nodes id child ++ keyed_children rest
end

/-- Spec side: sum of `f` over the nodes keyed by `b`. -/
def keyed_sum (f : Node → Int) (b : BlockIdentity) (l : List (BlockIdentity × Node)) : Int :=
  ((l.filter (fun p => p.1 == b)).map (fun p => f p.2)).sum

/-- The comparator of the three `std::sort` calls, on (block, time): more time
first, and on equal time the greater address first. -/
def sort_before (p1 p2 : BlockIdentity × Int) : Bool :=
  decide (p1.2 > p2.2) || (p1.2 == p2.2 && decide (p1.1 > p2.1))

/-- The call `std::sort(first, last, comp)` with `comp` the comparator above
applied to `key`: the elements rearranged so that no element is `comp`-before
an earlier one.  Insertion sort is one such rearrangement; for distinct blocks
it is the only one. -/
def std_sort {α : Type} (key : α → BlockIdentity × Int) (l : List α) : List α :=
  l.insertionSort (fun a b => sort_before (key b) (key a) = false)

/-- The sort and `resize` of `OverviewReport::str` and
`CallstackReport::overview_str` on the entries of a map. -/
def top_entries (NumToShow : Nat) (data : umap) : List (BlockIdentity × Int) :=
  let entries := std_sort id data.entries
  if NumToShow < entries.length then entries.take NumToShow else entries

/-- The entries that `OverviewReport::str` lists for one thread. -/
def OverviewReport.str (NumToShow : Nat) (now : Int) (reporter : ThreadOverviewReport) :
    List (BlockIdentity × Int) :=
  top_entries NumToShow (reporter.as_of now)

/-- The entries that `CallstackReport::overview_str` lists for one thread whose
snapshot is `node`; `top` is the address of the local block "Measured". -/
def CallstackReport.overview_str (show_top_n : Nat) (relative : Bool) (top : BlockIdentity)
    (node : Node) : List (BlockIdentity × Int) :=
  top_entries show_top_n (CreateOverview relative umap.empty top node).1

/-- Subtraction of `std::size_t` values. -/
def size_sub (a b : Nat) : Nat := (a + 2 ^ 64 - b % 2 ^ 64) % 2 ^ 64

/-- One line written by `PrintNode`: `indent` blanks, the name, the padding of
width `offset`, the duration, and the percentage as the quotient
`percent.1 / percent.2` when it is printed. -/
structure tree_line where
  indent : Nat
  name : String
  offset : Nat
  duration : SplitDuration
  percent : Option (Int × Int)
deriving DecidableEq

mutual
/-- The function `max_child_values`: the pair (`name_length`, `depth`). -/
def max_child_values (c_str : BlockIdentity → String) : Node → Nat × Nat
  | Node.mk depth _ children => max_child_loop c_str (0, depth) children
/-- The `for` loop of `max_child_values`. -/
def max_child_loop (c_str : BlockIdentity → String) (max : Nat × Nat) :
    Children → Nat × Nat
  | Children.nil => max
  | Children.cons source child rest =>
    let child_max := max_child_values c_str child
    let child_max_name := Nat.max (strlen (c_str source)) child_max.1
    max_child_loop c_str (Nat.max max.1 child_max_name, Nat.max max.2 child_max.2) rest
end

/-- The key the comparator of `PrintNode` reads from a child entry: the block
and the child's `time_spent`. -/
def child_key (p : BlockIdentity × Node) : BlockIdentity × Int := (p.1, p.2.time_spent)

/-- The percentage `PrintNode` writes for a node with `time_spent` equal to `t`:
the quotient `double(t * 100) / double(parentns)`, kept as numerator and
denominator, and nothing when `parentns` is zero.  The product `t * 100` is
formed in 64-bit arithmetic before the conversion. -/
def percent_of (t parentns : Int) : Option (Int × Int) :=
  if parentns ≠ 0 then some (int64_t (t * 100), parentns) else none

/-- The line `PrintNode` writes for a node with `time_spent` equal to `t`. -/
def node_line (max_name_length max_depth : Nat) (name : String) (depth : Nat) (parentns : Int)
    (t : Int) : tree_line :=
  { indent := depth
    name := name
    offset := (size_sub max_name_length (strlen name) + size_sub max_depth depth) % 2 ^ 64
    duration := SplitDuration.ctor t
    percent := percent_of t parentns }

mutual
/-- The function `PrintNode`: the lines written.  The source sorts the children
and then prints each of them; here each child is printed where it stands in
the map and the printed blocks are then put in the sorted order, which gives
the same lines in the same order. -/
def PrintNode (c_str : BlockIdentity → String) (relative : Bool)
    (max_name_length max_depth : Nat) (name : String) (depth : Nat) (parentns : Int) :
    Node → List tree_line
  | Node.mk _ time_spent children =>
    node_line max_name_length max_depth name depth parentns time_spent
    :: (if depth < max_depth then
          ((std_sort Prod.fst
            (PrintChildren c_str relative max_name_length max_depth (depth + 1)
              (if relative then time_spent else parentns) children)).map Prod.snd).flatten
        else [])
/-- The printed block of every child, with the key the sort looks at. -/
def PrintChildren (c_str : BlockIdentity → String) (relative : Bool)
    (max_name_length max_depth : Nat) (depth : Nat) (parentns : Int) :
    Children → List ((BlockIdentity × Int) × List tree_line)
  | Children.nil => []
  | Children.cons id child rest =>
    ((id, child.time_spent),
      PrintNode c_str relative max_name_length max_depth (c_str id) depth parentns child)
    :: PrintChildren c_str relative max_name_length max_depth depth parentns rest
end

/-- The lines that `CallstackReport::callstack_str` writes for one thread whose
snapshot is `node`; `start` is the report's start time. -/
def CallstackReport.callstack_str (c_str : BlockIdentity → String) (max_depth : Nat)
    (relative : Bool) (now start : Int) (node : Node) : List tree_line :=
  let max_values := max_child_values c_str node
  let max_print_depth := Nat.min max_depth max_values.2
  PrintNode c_str relative (Nat.max (strlen "Measured") max_values.1) max_print_depth
    "Measured" 0 (now - start) node

/-- Example names: block 1 is "A", block 2 is "B", any other block "X". -/
def example_names (id : BlockIdentity) : String :=
  if id = 1 then "A" else if id = 2 then "B" else "X"

/-- Example snapshot (scenario 3 of the specification): the root spent 15 ms,
all of it in block `A`, which spent 10 ms in block `B`. -/
def example_tree : Node :=
  Node.mk 0 15000000
    (Children.cons 1
      (Node.mk 1 15000000
        (Children.cons 2 (Node.mk 2 10000000 Children.nil) Children.nil))
      Children.nil)

/-- Spec side: `x` lies between 0 and `d`, whatever the sign of `d`; a value
of this kind is a 64-bit value when `d` is one. -/
def between_zero (d x : Int) : Prop := (0 ≤ d → 0 ≤ x ∧ x ≤ d) ∧ (d ≤ 0 → d ≤ x ∧ x ≤ 0)

mutual
/-- Spec side: the checks `child_time <= time_spent` that `PrintCollapsedNode`
makes, as pairs (`child_time`, `time_spent`): one at every visited node above
`max_depth`, with the children's `time_spent` added up as `child_time`. -/
def collapsed_checks (max_depth : Nat) : Node → List (Int × Int)
  | Node.mk depth time_spent children =>
    if depth < max_depth then
      children_checks max_depth children ++ [(children.time_spent, time_spent)]
    else []
/-- Spec side: the checks made in the child trees. -/
def children_checks (max_depth : Nat) : Children → List (Int × Int)
  | Children.nil => []
  | Children.cons _ child rest =>
    collapsed_checks max_depth child ++ children_checks max_depth rest
end

mutual
/-- Spec side: every node's `depth` is its distance from the root, the root of
this tree standing at distance `d`. -/
def Node.depths_from (d : Nat) : Node → Bool
  | Node.mk depth _ children => decide (depth = d) && Children.depths_from (d + 1) children
/-- Spec side: every child tree has its root at distance `d`. -/
def Children.depths_from (d : Nat) : Children → Bool
  | Children.nil => true
  | Children.cons _ child rest => Node.depths_from d child && Children.depths_from d rest
end

mutual
/-- Spec side: all nodes of a tree, each with the name it is printed under. -/
def named_nodes (c_str : BlockIdentity → String) (name : String) : Node → List (String × Node)
  | Node.mk d t children => (name, Node.mk d t children) :: named_children c_str children
/-- Spec side: the named nodes of all child trees. -/
def named_children (c_str : BlockIdentity → String) : Children → List (String × Node)
  | Children.nil => []
  | Children.cons id child rest =>
    named_nodes c_str (c_str id) child ++ named_children c_str rest
end

mutual
/-- Spec side: the depth of the deepest node of a tree. -/
def Node.deepest : Node → Nat
  | Node.mk depth _ children => Nat.max depth (Children.deepest children)
/-- Spec side: the depth of the deepest node of the child trees. -/
def Children.deepest : Children → Nat
  | Children.nil => 0
  | Children.cons _ child rest => Nat.max (Node.deepest child) (Children.deepest rest)
end

mutual
/-- Spec side: the length of the longest name below a node. -/
def Node.name_max (c_str : BlockIdentity → String) : Node → Nat
  | Node.mk _ _ children => Children.name_max c_str children
/-- Spec side: the length of the longest name in the child trees. -/
def Children.name_max (c_str : BlockIdentity → String) : Children → Nat
  | Children.nil => 0
  | Children.cons id child rest =>
    Nat.max (Nat.max (strlen (c_str id)) (Node.name_max c_str child))
      (Children.name_max c_str rest)
end

/-- Formatted output of a character string under `std::setfill(fill)` and
`std::setw(width)`: the bytes written, padded on the left up to the width. -/
def put_str (fill : UInt8) (width : Nat) (s : List UInt8) : List UInt8 :=
  List.replicate (width - s.length) fill ++ s

/-- The bytes `PrintNode` writes on a line before the duration:
`setw(depth) << ""`, the name, `": "`, and under `setw(offset)` and
`setfill('-')` one blank when `offset > 0` and nothing otherwise.  The widths
are used as they are; the conversion of `setw`'s argument to `int` is not
modelled. -/
def tree_line.lead (l : tree_line) : List UInt8 :=
  put_str 32 l.indent [] ++ l.name.toUTF8.data.toList ++ [58, 32]
    ++ put_str 45 l.offset (if l.offset > 0 then [32] else [])

/-- What identifies a printed line: indentation, name and duration. -/
def line_key (l : tree_line) : Nat × String × SplitDuration := (l.indent, l.name, l.duration)

/-- Spec side: the line expected for a named node: its depth, its name and its
`time_spent`. -/
def node_key (p : String × Node) : Nat × String × SplitDuration :=
  (p.2.depth, p.1, SplitDuration.ctor p.2.time_spent)

end perf_report

namespace channel

variable {T : Type}

theorem wf_init (cap : Nat) : wf cap (history.init cap : history T) := by
  constructor <;> simp [history.init, CreateBufferedChannel, queue.mk_empty]

theorem take_wf {cap : Nat} {h : history T} (hw : wf cap h) :
    wf cap (h.recv (out.take h.chan)) := by
  obtain ⟨⟨⟨⟨data, ind, outd⟩, ms⟩, ⟨pc⟩, ⟨cache, it, cc⟩⟩, pushed, received⟩ := h
  obtain ⟨h1, h2, h3, h4, h5, h6, h7, h8, h9⟩ := hw
  simp only at h1 h2 h3 h4 h5 h6 h7 h8 h9
  subst h3 h4
  simp only [out.take, history.recv]
  split_ifs with hlt
  · have hget : cache.get? it = some (cache.get ⟨it, hlt⟩) := List.get?_eq_get hlt
    have hdrop : cache.drop it = cache.get ⟨it, hlt⟩ :: cache.drop (it + 1) := by
      simp
    have hcc : cc = false := by
      cases cc
      · rfl
      · have := (h7 rfl).1; subst this; simp at hlt
    have h9' := h9 hcc
    rw [hdrop] at h9'
    simp only [hget]
    refine ⟨h1, h2, rfl, rfl, ?_, h6, ?_, ?_, ?_⟩
    · show it + 1 ≤ cache.length
      omega
    · intro hcl
      exact absurd hcl (by simp [hcc])
    · show received ++ [cache.get ⟨it, hlt⟩] <+: pushed
      exact ⟨cache.drop (it + 1) ++ data, by
        rw [← h9']; simp only [List.append_assoc, List.singleton_append, List.cons_append,
          List.nil_append]⟩
    · intro _
      show received ++ [cache.get ⟨it, hlt⟩] ++ cache.drop (it + 1) ++ data = pushed
      rw [← h9']
      simp
  · exact ⟨h1, h2, rfl, rfl, h5, h6, h7, h8, h9⟩

theorem update_cache_wf {cap : Nat} {h : history T} {c : buffered_channel T} (hw : wf cap h)
    (hu : out.update_cache h.chan = some c) : wf cap { h with chan := c } := by
  obtain ⟨⟨⟨⟨data, ind, outd⟩, ms⟩, ⟨pc⟩, ⟨cache, it, cc⟩⟩, pushed, received⟩ := h
  obtain ⟨h1, h2, h3, h4, h5, h6, h7, h8, h9⟩ := hw
  simp only at h1 h2 h3 h4 h5 h6 h7 h8 h9
  subst h3 h4
  simp only [out.update_cache, queue.read_lock, out.close, queue.close_out,
    out.do_update_cache] at hu
  split_ifs at hu <;> simp at hu <;> subst hu <;> constructor <;> simp_all

theorem try_update_cache_wf {cap : Nat} {h : history T} (a : Bool) (hw : wf cap h) :
    wf cap { h with chan := out.try_update_cache a h.chan } := by
  obtain ⟨⟨⟨⟨data, ind, outd⟩, ms⟩, ⟨pc⟩, ⟨cache, it, cc⟩⟩, pushed, received⟩ := h
  obtain ⟨h1, h2, h3, h4, h5, h6, h7, h8, h9⟩ := hw
  simp only at h1 h2 h3 h4 h5 h6 h7 h8 h9
  subst h3 h4
  simp only [out.try_update_cache, queue.try_read_lock, out.close, queue.close_out,
    out.do_update_cache]
  split_ifs <;> constructor <;> simp_all

theorem step_wf {cap : Nat} {h h' : history T} {o : op T} (hw : wf cap h)
    (hs : step h o = some h') : wf cap h' := by
  cases o with
  | get =>
    simp only [step, out.get] at hs
    split_ifs at hs with hc
    · simp [history.recv] at hs; subst hs; exact hw
    · cases hu : out.update_cache h.chan with
      | none => simp [hu] at hs
      | some c =>
        simp [hu] at hs
        subst hs
        exact take_wf (update_cache_wf hw hu)
  | try_get a =>
    simp only [step, out.try_get] at hs
    split_ifs at hs with hc
    · simp [history.recv] at hs; subst hs; exact hw
    · simp at hs
      subst hs
      exact take_wf (try_update_cache_wf a hw)
  | emplace v =>
    obtain ⟨⟨⟨⟨data, ind, outd⟩, ms⟩, ⟨pc⟩, ⟨cache, it, cc⟩⟩, pushed, received⟩ := h
    obtain ⟨h1, h2, h3, h4, h5, h6, h7, h8, h9⟩ := hw
    simp only at h1 h2 h3 h4 h5 h6 h7 h8 h9
    subst h3 h4
    simp only [step, in_.emplace, queue.write_lock, in_.close, queue.emplace_back,
      queue.close_in, history.push] at hs
    split_ifs at hs <;> simp [history.push] at hs <;> subst hs <;> constructor <;> simp_all
    · omega
    · exact h8.trans (List.prefix_append _ _)
    · rw [← h9]; simp
  | try_emplace a v =>
    obtain ⟨⟨⟨⟨data, ind, outd⟩, ms⟩, ⟨pc⟩, ⟨cache, it, cc⟩⟩, pushed, received⟩ := h
    obtain ⟨h1, h2, h3, h4, h5, h6, h7, h8, h9⟩ := hw
    simp only at h1 h2 h3 h4 h5 h6 h7 h8 h9
    subst h3 h4
    simp only [step, in_.try_emplace, queue.try_write_lock, in_.close, queue.emplace_back,
      queue.close_in, history.push] at hs
    split_ifs at hs <;> simp [history.push] at hs <;> subst hs <;> constructor <;> simp_all
    · omega
    · exact h8.trans (List.prefix_append _ _)
    · rw [← h9]; simp
  | in_close =>
    obtain ⟨⟨⟨⟨data, ind, outd⟩, ms⟩, ⟨pc⟩, ⟨cache, it, cc⟩⟩, pushed, received⟩ := h
    obtain ⟨h1, h2, h3, h4, h5, h6, h7, h8, h9⟩ := hw
    simp only at h1 h2 h3 h4 h5 h6 h7 h8 h9
    subst h3 h4
    simp only [step, in_.close, queue.close_in] at hs
    split_ifs at hs <;> simp at hs <;> subst hs <;> constructor <;> simp_all
  | out_close =>
    obtain ⟨⟨⟨⟨data, ind, outd⟩, ms⟩, ⟨pc⟩, ⟨cache, it, cc⟩⟩, pushed, received⟩ := h
    obtain ⟨h1, h2, h3, h4, h5, h6, h7, h8, h9⟩ := hw
    simp only at h1 h2 h3 h4 h5 h6 h7 h8 h9
    subst h3 h4
    simp only [step, out.close, queue.close_out] at hs
    split_ifs at hs <;> simp at hs <;> subst hs <;> constructor <;> simp_all

theorem run_wf {cap : Nat} (ops : List (op T)) {h h' : history T} (hw : wf cap h)
    (hr : run h ops = some h') : wf cap h' := by
  induction ops generalizing h with
  | nil => simp [run] at hr; subst hr; exact hw
  | cons o os ih =>
    simp only [run] at hr
    cases hs : step h o with
    | none => simp [hs] at hr
    | some h1 =>
      simp [hs] at hr
      exact ih (step_wf hw hs) hr

theorem flags_kept_refl (q : queue T) : flags_kept q q := ⟨id, id⟩

theorem flags_kept_trans {q1 q2 q3 : queue T} (h12 : flags_kept q1 q2) (h23 : flags_kept q2 q3) :
    flags_kept q1 q3 := ⟨fun h => h23.1 (h12.1 h), fun h => h23.2 (h12.2 h)⟩

theorem read_lock_snd (q : queue T) : q.read_lock.2 = q := by
  unfold queue.read_lock; split_ifs <;> rfl

theorem write_lock_snd (q : queue T) : q.write_lock.2 = q := by
  unfold queue.write_lock; split_ifs <;> rfl

theorem try_read_lock_snd (a : Bool) (q : queue T) : (q.try_read_lock a).2 = q := by
  unfold queue.try_read_lock; split_ifs <;> rfl

theorem try_write_lock_snd (a : Bool) (q : queue T) : (q.try_write_lock a).2 = q := by
  unfold queue.try_write_lock; split_ifs <;> rfl

theorem in_close_kept (c : buffered_channel T) : flags_kept c.shared (in_.close c).shared := by
  unfold in_.close flags_kept queue.close_in
  split_ifs <;> simp

theorem out_close_kept (c : buffered_channel T) : flags_kept c.shared (out.close c).shared := by
  unfold out.close flags_kept queue.close_out
  split_ifs <;> simp

theorem emplace_kept {c : buffered_channel T} {v : T} {r : Bool × buffered_channel T}
    (he : in_.emplace c v = some r) : flags_kept c.shared r.2.shared := by
  obtain ⟨⟨⟨data, ind, outd⟩, ms⟩, ⟨pc⟩, ⟨cache, it, cc⟩⟩ := c
  simp only [in_.emplace, queue.write_lock, in_.close, queue.emplace_back, queue.close_in] at he
  split_ifs at he <;> simp at he <;> subst he <;> simp [flags_kept]

theorem try_emplace_kept (a : Bool) (c : buffered_channel T) (v : T) :
    flags_kept c.shared (in_.try_emplace a c v).2.shared := by
  obtain ⟨⟨⟨data, ind, outd⟩, ms⟩, ⟨pc⟩, ⟨cache, it, cc⟩⟩ := c
  simp only [in_.try_emplace, queue.try_write_lock, in_.close, queue.emplace_back,
    queue.close_in]
  split_ifs <;> simp [flags_kept]

theorem take_shared (c : buffered_channel T) : (out.take c).2.shared = c.shared := by
  unfold out.take; split_ifs <;> rfl

theorem update_cache_kept {c c1 : buffered_channel T} (hu : out.update_cache c = some c1) :
    flags_kept c.shared c1.shared := by
  obtain ⟨⟨⟨data, ind, outd⟩, ms⟩, ⟨pc⟩, ⟨cache, it, cc⟩⟩ := c
  simp only [out.update_cache, queue.read_lock, out.close, queue.close_out,
    out.do_update_cache] at hu
  split_ifs at hu <;> simp at hu <;> subst hu <;> simp [flags_kept]

theorem try_update_cache_kept (a : Bool) (c : buffered_channel T) :
    flags_kept c.shared (out.try_update_cache a c).shared := by
  obtain ⟨⟨⟨data, ind, outd⟩, ms⟩, ⟨pc⟩, ⟨cache, it, cc⟩⟩ := c
  simp only [out.try_update_cache, queue.try_read_lock, out.close, queue.close_out,
    out.do_update_cache]
  split_ifs <;> simp [flags_kept]

theorem get_kept {c : buffered_channel T} {r : Option T × buffered_channel T}
    (hg : out.get c = some r) : flags_kept c.shared r.2.shared := by
  simp only [out.get] at hg
  split_ifs at hg with hc
  · simp at hg; subst hg; exact flags_kept_refl _
  · cases hu : out.update_cache c with
    | none => simp [hu] at hg
    | some c1 =>
      simp [hu] at hg
      subst hg
      rw [take_shared]
      exact update_cache_kept hu

theorem try_get_kept (a : Bool) (c : buffered_channel T) :
    flags_kept c.shared (out.try_get a c).2.shared := by
  simp only [out.try_get]
  split_ifs with hc
  · exact flags_kept_refl _
  · rw [take_shared]
    exact try_update_cache_kept a c

theorem step_kept {h h1 : history T} {o : op T} (hs : step h o = some h1) :
    flags_kept h.chan.shared h1.chan.shared := by
  cases o with
  | emplace v =>
    simp only [step, Option.map_eq_some'] at hs
    obtain ⟨r, hr, rfl⟩ := hs
    exact emplace_kept hr
  | try_emplace a v =>
    simp only [step, Option.some.injEq] at hs
    subst hs
    exact try_emplace_kept a _ v
  | in_close =>
    simp only [step, Option.some.injEq] at hs
    subst hs
    exact in_close_kept _
  | get =>
    simp only [step, Option.map_eq_some'] at hs
    obtain ⟨r, hr, rfl⟩ := hs
    exact get_kept hr
  | try_get a =>
    simp only [step, Option.some.injEq] at hs
    subst hs
    exact try_get_kept a _
  | out_close =>
    simp only [step, Option.some.injEq] at hs
    subst hs
    exact out_close_kept _

theorem run_kept (ops : List (op T)) {h h1 : history T} (hr : run h ops = some h1) :
    flags_kept h.chan.shared h1.chan.shared := by
  induction ops generalizing h with
  | nil => simp [run] at hr; subst hr; exact flags_kept_refl _
  | cons o os ih =>
    simp only [run] at hr
    cases hs : step h o with
    | none => simp [hs] at hr
    | some h2 =>
      simp [hs] at hr
      exact flags_kept_trans (step_kept hs) (ih hr)

theorem run_append (ops1 ops2 : List (op T)) (h : history T) :
    run h (ops1 ++ ops2) = (run h ops1).bind (fun h1 => run h1 ops2) := by
  induction ops1 generalizing h with
  | nil => simp [run]
  | cons o os ih =>
    simp only [List.cons_append, run]
    cases step h o with
    | none => simp
    | some h2 => simp [ih]

theorem step_closed_out {h h1 : history T} {o : op T}
    (hc : h.chan.consumer.did_close = true) (hs : step h o = some h1) :
    h1.chan.consumer.did_close = true ∧ h1.received = h.received := by
  obtain ⟨⟨⟨⟨data, ind, outd⟩, ms⟩, ⟨pc⟩, ⟨cache, it, cc⟩⟩, pushed, received⟩ := h
  simp only at hc
  subst hc
  cases o with
  | emplace v =>
    simp only [step, in_.emplace, queue.write_lock, in_.close, queue.emplace_back,
      queue.close_in] at hs
    split_ifs at hs <;> simp [history.push] at hs <;> subst hs <;> simp
  | try_emplace a v =>
    simp only [step, in_.try_emplace, queue.try_write_lock, in_.close, queue.emplace_back,
      queue.close_in] at hs
    split_ifs at hs <;> simp [history.push] at hs <;> subst hs <;> simp
  | in_close =>
    simp only [step, in_.close, queue.close_in] at hs
    split_ifs at hs <;> simp at hs <;> subst hs <;> simp
  | out_close =>
    simp [step, out.close] at hs
    subst hs
    simp
  | get =>
    simp [step, out.get, history.recv] at hs
    subst hs
    simp
  | try_get a =>
    simp [step, out.try_get, history.recv] at hs
    subst hs
    simp

theorem run_closed_out (ops : List (op T)) {h h1 : history T}
    (hc : h.chan.consumer.did_close = true) (hr : run h ops = some h1) :
    h1.chan.consumer.did_close = true ∧ h1.received = h.received := by
  induction ops generalizing h with
  | nil => simp [run] at hr; subst hr; exact ⟨hc, rfl⟩
  | cons o os ih =>
    simp only [run] at hr
    cases hs : step h o with
    | none => simp [hs] at hr
    | some h2 =>
      simp [hs] at hr
      have h12 := step_closed_out hc hs
      have h2f := ih h12.1 hr
      exact ⟨h2f.1, h2f.2.trans h12.2⟩

theorem step_delivered {cap : Nat} {h h1 : history T} {o : op T} (hw : wf cap h)
    (hj : h.chan.consumer.did_close = true → h.received = h.pushed)
    (ho : o ≠ op.out_close) (hs : step h o = some h1) :
    h1.chan.consumer.did_close = true → h1.received = h1.pushed := by
  obtain ⟨⟨⟨⟨data, ind, outd⟩, ms⟩, ⟨pc⟩, ⟨cache, it, cc⟩⟩, pushed, received⟩ := h
  obtain ⟨h1, h2, h3, h4, h5, h6, h7, h8, h9⟩ := hw
  simp only at h1 h2 h3 h4 h5 h6 h7 h8 h9 hj
  subst h3 h4
  cases o with
  | out_close => exact absurd rfl ho
  | emplace v =>
    simp only [step, in_.emplace, queue.write_lock, in_.close, queue.emplace_back,
      queue.close_in] at hs
    split_ifs at hs <;> simp [history.push] at hs <;> subst hs <;> simp_all
  | try_emplace a v =>
    simp only [step, in_.try_emplace, queue.try_write_lock, in_.close, queue.emplace_back,
      queue.close_in] at hs
    split_ifs at hs <;> simp [history.push] at hs <;> subst hs <;> simp_all
  | in_close =>
    simp only [step, in_.close, queue.close_in] at hs
    split_ifs at hs <;> simp at hs <;> subst hs <;> simp_all
  | get =>
    cases cc with
    | true =>
      simp [step, out.get, history.recv] at hs
      subst hs
      simpa using hj
    | false =>
      have h9' := h9 rfl
      by_cases hlt : it < cache.length
      · have hne : it ≠ cache.length := Nat.ne_of_lt hlt
        simp [step, out.get, out.update_cache, out.take, hne, hlt, history.recv] at hs
        subst hs
        simp
      · have hex : it = cache.length := Nat.le_antisymm h5 (Nat.le_of_not_lt hlt)
        subst hex
        cases data with
        | nil =>
          cases pc with
          | false => simp [step, out.get, out.update_cache, queue.read_lock] at hs
          | true =>
            simp [step, out.get, out.update_cache, queue.read_lock, out.close,
              queue.close_out, out.take, history.recv] at hs
            subst hs
            intro _
            simpa using h9'
        | cons d ds =>
          simp [step, out.get, out.update_cache, queue.read_lock, out.do_update_cache,
            out.take, history.recv] at hs
          subst hs
          simp
  | try_get a =>
    cases cc with
    | true =>
      simp [step, out.try_get, history.recv] at hs
      subst hs
      simpa using hj
    | false =>
      have h9' := h9 rfl
      by_cases hlt : it < cache.length
      · have hne : it ≠ cache.length := Nat.ne_of_lt hlt
        simp [step, out.try_get, out.try_update_cache, out.take, hne, hlt, history.recv] at hs
        subst hs
        simp
      · have hex : it = cache.length := Nat.le_antisymm h5 (Nat.le_of_not_lt hlt)
        subst hex
        cases a with
        | false =>
          simp [step, out.try_get, out.try_update_cache, queue.try_read_lock, out.take,
            history.recv] at hs
          subst hs
          simp
        | true =>
          cases data with
          | nil =>
            cases pc with
            | false =>
              simp [step, out.try_get, out.try_update_cache, queue.try_read_lock, out.take,
                history.recv] at hs
              subst hs
              simp
            | true =>
              simp [step, out.try_get, out.try_update_cache, queue.try_read_lock, out.close,
                queue.close_out, out.take, history.recv] at hs
              subst hs
              intro _
              simpa using h9'
          | cons d ds =>
            simp [step, out.try_get, out.try_update_cache, queue.try_read_lock,
              out.do_update_cache, out.take, history.recv] at hs
            subst hs
            simp

theorem run_delivered {cap : Nat} (ops : List (op T)) {h h1 : history T} (hw : wf cap h)
    (hj : h.chan.consumer.did_close = true → h.received = h.pushed)
    (ho : ∀ o ∈ ops, o ≠ op.out_close) (hr : run h ops = some h1) :
    h1.chan.consumer.did_close = true → h1.received = h1.pushed := by
  induction ops generalizing h with
  | nil => simp [run] at hr; subst hr; exact hj
  | cons o os ih =>
    simp only [run] at hr
    cases hs : step h o with
    | none => simp [hs] at hr
    | some h2 =>
      simp [hs] at hr
      exact ih (step_wf hw hs)
        (step_delivered hw hj (ho o (List.mem_cons_self o os)) hs)
        (fun o1 ho1 => ho o1 (List.mem_cons_of_mem o ho1)) hr

theorem run_in_dead {cap : Nat} (ops : List (op T)) {h h1 : history T} (hw : wf cap h)
    (hm : op.in_close ∈ ops) (hr : run h ops = some h1) :
    h1.chan.shared.shared.in_dead = true := by
  obtain ⟨pre, post, rfl⟩ := List.append_of_mem hm
  rw [run_append] at hr
  cases hp : run h pre with
  | none => simp [hp] at hr
  | some h2 =>
    simp [hp, run, step] at hr
    have hw2 := run_wf pre hw hp
    have hw3 : wf cap { h2 with chan := in_.close h2.chan } :=
      step_wf (o := op.in_close) hw2 rfl
    have hc : (in_.close h2.chan).producer.did_close = true := by
      unfold in_.close
      split_ifs with hc
      · rfl
      · simpa using hc
    have hd : (in_.close h2.chan).shared.shared.in_dead = true := by
      rw [← hw3.in_flag]; exact hc
    exact (run_kept post hr).1 hd

theorem get_n_drain (n : Nat) (c : buffered_channel T)
    (hopen : c.consumer.did_close = false) (hout : c.shared.shared.out_dead = false)
    (hin : c.shared.shared.in_dead = true)
    (hcur : c.consumer.cache_iter ≤ c.consumer.cache.length)
    (hn : n = (c.consumer.cache.length - c.consumer.cache_iter) + c.shared.shared.data.length) :
    ∃ c1 : buffered_channel T,
      out.get_n n c
        = some ((c.consumer.cache.drop c.consumer.cache_iter ++ c.shared.shared.data).map some,
            c1) ∧
      c1.consumer.did_close = false ∧ c1.shared.shared.out_dead = false ∧
      c1.shared.shared.in_dead = true ∧
      c1.consumer.cache_iter = c1.consumer.cache.length ∧ c1.shared.shared.data = [] := by
  induction n generalizing c with
  | zero =>
    obtain ⟨⟨⟨data, ind, outd⟩, ms⟩, ⟨pc⟩, ⟨cache, it, cc⟩⟩ := c
    simp only at hopen hout hin hcur hn
    have hd : data = [] := List.eq_nil_of_length_eq_zero (by omega)
    have hi : it = cache.length := by omega
    subst hd hi hopen hout hin
    refine ⟨{ shared := { shared := { data := [], in_dead := true, out_dead := false },
                          max_size := ms }
              producer := { did_close := pc }
              consumer := { cache := cache, cache_iter := cache.length, did_close := false } },
      ?_, rfl, rfl, rfl, rfl, rfl⟩
    simp [out.get_n]
  | succ n ih =>
    obtain ⟨⟨⟨data, ind, outd⟩, ms⟩, ⟨pc⟩, ⟨cache, it, cc⟩⟩ := c
    simp only at hopen hout hin hcur hn
    subst hopen hout hin
    by_cases hlt : it < cache.length
    · have hne : it ≠ cache.length := Nat.ne_of_lt hlt
      obtain ⟨c1, hc1, hrest⟩ := ih
        { shared := { shared := { data := data, in_dead := true, out_dead := false },
                      max_size := ms }
          producer := { did_close := pc }
          consumer := { cache := cache, cache_iter := it + 1, did_close := false } }
        rfl rfl rfl (by simpa using hlt) (by simp only; omega)
      refine ⟨c1, ?_, hrest⟩
      simp only at hc1
      have hdrop : cache.drop it = cache.get ⟨it, hlt⟩ :: cache.drop (it + 1) := by
        simp
      have hget : out.get
          { shared := { shared := { data := data, in_dead := true, out_dead := false },
                        max_size := ms }
            producer := { did_close := pc }
            consumer := { cache := cache, cache_iter := it, did_close := false } }
          = some (some (cache.get ⟨it, hlt⟩),
            { shared := { shared := { data := data, in_dead := true, out_dead := false },
                          max_size := ms }
              producer := { did_close := pc }
              consumer := { cache := cache, cache_iter := it + 1, did_close := false } }) := by
        simp [out.get, out.update_cache, out.take, hne, hlt, List.getElem?_eq_getElem]
      simp only [out.get_n, hget, hc1, Option.map_some', hdrop, List.map_cons,
        List.cons_append]
    · have hex : it = cache.length := Nat.le_antisymm hcur (Nat.le_of_not_lt hlt)
      subst hex
      cases data with
      | nil => simp at hn
      | cons d ds =>
        obtain ⟨c1, hc1, hrest⟩ := ih
          { shared := { shared := { data := [], in_dead := true, out_dead := false },
                        max_size := ms }
            producer := { did_close := pc }
            consumer := { cache := d :: ds, cache_iter := 1, did_close := false } }
          rfl rfl rfl (by simp) (by simp at hn ⊢; omega)
        refine ⟨c1, ?_, hrest⟩
        simp only [List.drop_one, List.tail_cons, List.append_nil] at hc1
        have hget : out.get
            { shared := { shared := { data := d :: ds, in_dead := true, out_dead := false },
                          max_size := ms }
              producer := { did_close := pc }
              consumer := { cache := cache, cache_iter := cache.length, did_close := false } }
            = some (some d,
              { shared := { shared := { data := [], in_dead := true, out_dead := false },
                            max_size := ms }
                producer := { did_close := pc }
                consumer := { cache := d :: ds, cache_iter := 1, did_close := false } }) := by
          simp [out.get, out.update_cache, queue.read_lock, out.do_update_cache, out.take]
        simp only [out.get_n, hget, hc1, Option.map_some', List.drop_length, List.nil_append,
          List.map_cons]

theorem get_terminal (c : buffered_channel T)
    (hopen : c.consumer.did_close = false) (hout : c.shared.shared.out_dead = false)
    (hin : c.shared.shared.in_dead = true)
    (hex : c.consumer.cache_iter = c.consumer.cache.length)
    (hd : c.shared.shared.data = []) :
    ∃ c1 : buffered_channel T, out.get c = some (none, c1) ∧ out.closed c1 = true := by
  obtain ⟨⟨⟨data, ind, outd⟩, ms⟩, ⟨pc⟩, ⟨cache, it, cc⟩⟩ := c
  simp only at hopen hout hin hex hd
  subst hopen hout hin hex hd
  refine ⟨{ shared := { shared := { data := [], in_dead := true, out_dead := true },
                        max_size := ms }
            producer := { did_close := pc }
            consumer := { cache := [], cache_iter := 0, did_close := true } }, ?_, rfl⟩
  simp [out.get, out.update_cache, queue.read_lock, out.close, queue.close_out, out.take]

theorem emplace_zero {c : buffered_channel T} {v : T} {r : Bool × buffered_channel T}
    (hz : c.shared.max_size = 0) (he : in_.emplace c v = some r) : r.1 = false := by
  obtain ⟨⟨⟨data, ind, outd⟩, ms⟩, ⟨pc⟩, ⟨cache, it, cc⟩⟩ := c
  simp only at hz
  subst hz
  simp only [in_.emplace, queue.write_lock, in_.close, queue.emplace_back, queue.close_in] at he
  split_ifs at he <;> simp at he <;> subst he <;> simp_all

theorem try_emplace_zero (a : Bool) (c : buffered_channel T) (v : T)
    (hz : c.shared.max_size = 0) : (in_.try_emplace a c v).1 = false := by
  obtain ⟨⟨⟨data, ind, outd⟩, ms⟩, ⟨pc⟩, ⟨cache, it, cc⟩⟩ := c
  simp only at hz
  subst hz
  simp only [in_.try_emplace, queue.try_write_lock, in_.close, queue.emplace_back,
    queue.close_in]
  split_ifs <;> simp_all

theorem step_pushed_zero {h h1 : history T} {o : op T} (hz : h.chan.shared.max_size = 0)
    (hs : step h o = some h1) : h1.pushed = h.pushed := by
  cases o with
  | emplace v =>
    simp only [step, Option.map_eq_some'] at hs
    obtain ⟨r, hr, rfl⟩ := hs
    simp [history.push, emplace_zero hz hr]
  | try_emplace a v =>
    simp only [step, Option.some.injEq] at hs
    subst hs
    simp [history.push, try_emplace_zero a h.chan v hz]
  | in_close =>
    simp only [step, Option.some.injEq] at hs
    subst hs
    rfl
  | get =>
    simp only [step, Option.map_eq_some'] at hs
    obtain ⟨r, hr, rfl⟩ := hs
    rfl
  | try_get a =>
    simp only [step, Option.some.injEq] at hs
    subst hs
    rfl
  | out_close =>
    simp only [step, Option.some.injEq] at hs
    subst hs
    rfl

theorem run_pushed_zero (ops : List (op T)) {h h1 : history T} (hw : wf 0 h)
    (hr : run h ops = some h1) : h1.pushed = h.pushed := by
  induction ops generalizing h with
  | nil => simp [run] at hr; subst hr; rfl
  | cons o os ih =>
    simp only [run] at hr
    cases hs : step h o with
    | none => simp [hs] at hr
    | some h2 =>
      simp [hs] at hr
      exact (ih (step_wf hw hs) hr).trans (step_pushed_zero hw.cap_eq hs)

/-! ## Claims about the channel -/

/-- C1 (FIFO). For every capacity and every sequence of endpoint operations
executed from `CreateBufferedChannel(capacity)` (pushes and reads, also with
`close` calls among them), the values returned by `get` / `try_get` are, in
order, a prefix of the values whose `emplace` / `try_emplace` returned true. -/
theorem fifo_order (capacity : Nat) (ops : List (op T)) (h : history T)
    (hr : run (history.init capacity) ops = some h) : h.received <+: h.pushed :=
  (run_wf ops (wf_init capacity) hr).fifo

/-- Capacity 2, pushes 1, 2, 3 interleaved with three reads: the reads return
1, 2, 3 (the last value is served from the refilled cache `[3]`). -/
theorem fifo_order_witness :
    run (history.init 2)
        [op.emplace 1, op.emplace 2, op.get, op.emplace 3, op.get, op.get]
      = some
        { chan :=
            { shared := { shared := { data := [], in_dead := false, out_dead := false },
                          max_size := 2 }
              producer := { did_close := false }
              consumer := { cache := [3], cache_iter := 1, did_close := false } }
          pushed := [1, 2, 3]
          received := [1, 2, 3] } ∧
      ([1, 2, 3] : List Nat) <+: [1, 2, 3] :=
  ⟨by decide, fifo_order 2 [op.emplace 1, op.emplace 2, op.get, op.emplace 3, op.get, op.get]
    { chan :=
        { shared := { shared := { data := [], in_dead := false, out_dead := false },
                      max_size := 2 }
          producer := { did_close := false }
          consumer := { cache := [3], cache_iter := 1, did_close := false } }
      pushed := [1, 2, 3]
      received := [1, 2, 3] } (by decide)⟩

/-- C2 (no loss on graceful close). Take any sequence of endpoint operations
executed from `CreateBufferedChannel(capacity)` in which the producer calls
`close()` and the consumer never calls `close()`, and let `n` be the number of
values pushed successfully.  Then the consumer, having already received a
prefix of them, obtains exactly the remaining ones, in order, from the next
`n - received` calls of `get()`, none of which waits; the `get()` after those
returns empty and the consumer's `closed()` is then true.  Moreover, in every
reachable state, `get()` returns empty only if the consumer is already closed,
or the cache is exhausted, the shared queue is empty and `in_dead` is set. -/
theorem graceful_close_no_loss :
    (∀ (capacity : Nat) (ops : List (op T)) (h : history T),
      run (history.init capacity) ops = some h →
      op.in_close ∈ ops → (∀ o ∈ ops, o ≠ op.out_close) →
      ∃ c1 c2 : buffered_channel T,
        out.get_n (h.pushed.length - h.received.length) h.chan
          = some ((h.pushed.drop h.received.length).map some, c1) ∧
        h.received ++ h.pushed.drop h.received.length = h.pushed ∧
        out.get c1 = some (none, c2) ∧ out.closed c2 = true) ∧
    (∀ (capacity : Nat) (ops : List (op T)) (h : history T) (c : buffered_channel T),
      run (history.init capacity) ops = some h →
      out.get h.chan = some (none, c) →
      h.chan.consumer.did_close = true ∨
        (h.chan.consumer.cache_iter = h.chan.consumer.cache.length ∧
          h.chan.shared.shared.data = [] ∧ h.chan.shared.shared.in_dead = true)) := by
  refine ⟨?_, ?_⟩
  · intro capacity ops h hr hin hno
    have hw := run_wf ops (wf_init capacity) hr
    have hdead := run_in_dead ops (wf_init capacity) hin hr
    have hj := run_delivered ops (wf_init capacity) (by simp [history.init, CreateBufferedChannel])
      hno hr
    cases hcc : h.chan.consumer.did_close with
    | true =>
      have heq := hj hcc
      refine ⟨h.chan, h.chan, ?_, ?_, ?_, hcc⟩
      · simp [heq, out.get_n]
      · simp [heq]
      · simp [out.get, hcc]
    | false =>
      have hp := hw.pending hcc
      have hlen : h.pushed.length - h.received.length
          = (h.chan.consumer.cache.length - h.chan.consumer.cache_iter)
            + h.chan.shared.shared.data.length := by
        rw [← hp]
        simp
      have hdrop : h.pushed.drop h.received.length
          = h.chan.consumer.cache.drop h.chan.consumer.cache_iter ++ h.chan.shared.shared.data := by
        rw [← hp, List.append_assoc, List.drop_left]
      have hout : h.chan.shared.shared.out_dead = false := by
        rw [← hw.out_flag]; exact hcc
      obtain ⟨c1, hc1, ho1, hod1, hid1, hex1, hd1⟩ :=
        get_n_drain _ h.chan hcc hout hdead hw.cursor hlen
      obtain ⟨c2, hc2, hcl⟩ := get_terminal c1 ho1 hod1 hid1 hex1 hd1
      refine ⟨c1, c2, ?_, ?_, hc2, hcl⟩
      · rw [hdrop]; exact hc1
      · rw [hdrop, ← List.append_assoc]; exact hp
  · intro capacity ops h c hr hg
    have hw := run_wf ops (wf_init capacity) hr
    obtain ⟨⟨⟨⟨data, ind, outd⟩, ms⟩, ⟨pc⟩, ⟨cache, it, cc⟩⟩, pushed, received⟩ := h
    obtain ⟨h1, h2, h3, h4, h5, h6, h7, h8, h9⟩ := hw
    simp only at h1 h2 h3 h4 h5 h6 h7 h8 h9 hg ⊢
    subst h3 h4
    cases cc with
    | true => exact Or.inl rfl
    | false =>
      right
      by_cases hlt : it < cache.length
      · have hne : it ≠ cache.length := Nat.ne_of_lt hlt
        simp [out.get, out.update_cache, out.take, hne, hlt, List.getElem?_eq_getElem] at hg
      · have hex : it = cache.length := Nat.le_antisymm h5 (Nat.le_of_not_lt hlt)
        subst hex
        cases data with
        | nil =>
          cases pc with
          | false => simp [out.get, out.update_cache, queue.read_lock] at hg
          | true => exact ⟨rfl, rfl, rfl⟩
        | cons d ds =>
          simp [out.get, out.update_cache, queue.read_lock, out.do_update_cache,
            out.take] at hg

/-- Capacity 2: the producer pushes 1 and 2, the consumer reads 1, the producer
pushes 3 and closes.  Value 2 is then in the cache and value 3 in the shared
queue; the next two `get()` calls return 2 and 3, and the one after returns
empty and closes the consumer. -/
theorem graceful_close_no_loss_witness :
    ∃ c1 c2 : buffered_channel Nat,
      out.get_n (3 - 1)
          { shared := { shared := { data := [3], in_dead := true, out_dead := false },
                        max_size := 2 }
            producer := { did_close := true }
            consumer := { cache := [1, 2], cache_iter := 1, did_close := false } }
        = some ((([1, 2, 3] : List Nat).drop 1).map some, c1) ∧
      [1] ++ ([1, 2, 3] : List Nat).drop 1 = [1, 2, 3] ∧
      out.get c1 = some (none, c2) ∧ out.closed c2 = true :=
  graceful_close_no_loss.1 2
    [op.emplace 1, op.emplace 2, op.get, op.emplace 3, op.in_close]
    { chan :=
        { shared := { shared := { data := [3], in_dead := true, out_dead := false },
                      max_size := 2 }
          producer := { did_close := true }
          consumer := { cache := [1, 2], cache_iter := 1, did_close := false } }
      pushed := [1, 2, 3]
      received := [1] } (by decide) (by decide) (by decide)

/-- C3 (capacity bound). In every state reached from
`CreateBufferedChannel(capacity)` through `emplace`, `try_emplace`, `get`,
`try_get` and the two `close` operations, `max_size` is the capacity and the
shared queue holds at most `max_size` values. -/
theorem capacity_bound (capacity : Nat) (ops : List (op T)) (h : history T)
    (hr : run (history.init capacity) ops = some h) :
    h.chan.shared.max_size = capacity ∧
      h.chan.shared.shared.data.length ≤ h.chan.shared.max_size :=
  ⟨(run_wf ops (wf_init capacity) hr).cap_eq, (run_wf ops (wf_init capacity) hr).bound⟩

/-- Capacity 2: after two pushes the queue is full, a third `try_emplace` is
refused, and the queue holds exactly two values. -/
theorem capacity_bound_witness :
    run (history.init 2) [op.emplace 1, op.try_emplace true 2, op.try_emplace true 3]
      = some
        { chan :=
            { shared := { shared := { data := [1, 2], in_dead := false, out_dead := false },
                          max_size := 2 }
              producer := { did_close := false }
              consumer := { cache := [], cache_iter := 0, did_close := false } }
          pushed := [1, 2]
          received := [] } ∧
      (2 = 2 ∧ ([1, 2] : List Nat).length ≤ 2) :=
  ⟨by decide, capacity_bound 2 [op.emplace 1, op.try_emplace true 2, op.try_emplace true 3]
    { chan :=
        { shared := { shared := { data := [1, 2], in_dead := false, out_dead := false },
                      max_size := 2 }
          producer := { did_close := false }
          consumer := { cache := [], cache_iter := 0, did_close := false } }
      pushed := [1, 2]
      received := [] } (by decide)⟩

/-- C4 (`emplace`). In every state reached from `CreateBufferedChannel`
through the endpoint operations: on a producer that has not self-closed, if
`out_dead` is false and the queue is not full, `emplace` returns true and only
appends the value at the tail of the queue; if `out_dead` is true it returns
false, leaves the queue contents (and `out_dead`, the capacity and the
consumer) unchanged, sets `in_dead` and makes `closed()` true.  On a producer
that has already self-closed it returns false and changes nothing. -/
theorem emplace_contract (capacity : Nat) (ops : List (op T)) (h : history T) (v : T)
    (hr : run (history.init capacity) ops = some h) :
    (h.chan.producer.did_close = false → h.chan.shared.shared.out_dead = false →
      h.chan.shared.shared.data.length < h.chan.shared.max_size →
      in_.emplace h.chan v = some (true,
        { h.chan with
          shared := { h.chan.shared with
            shared := { h.chan.shared.shared with
              data := h.chan.shared.shared.data ++ [v] } } })) ∧
    (h.chan.producer.did_close = false → h.chan.shared.shared.out_dead = true →
      ∃ c : buffered_channel T, in_.emplace h.chan v = some (false, c) ∧
        c.shared.shared.data = h.chan.shared.shared.data ∧
        c.shared.shared.out_dead = true ∧
        c.shared.shared.in_dead = true ∧
        c.shared.max_size = h.chan.shared.max_size ∧
        c.consumer = h.chan.consumer ∧
        in_.closed c = true) ∧
    (h.chan.producer.did_close = true → in_.emplace h.chan v = some (false, h.chan)) := by
  have hw := run_wf ops (wf_init capacity) hr
  obtain ⟨⟨⟨⟨data, ind, outd⟩, ms⟩, ⟨pc⟩, ⟨cache, it, cc⟩⟩, pushed, received⟩ := h
  obtain ⟨h1, h2, h3, h4, h5, h6, h7, h8, h9⟩ := hw
  simp only at h1 h2 h3 h4 h5 h6 h7 h8 h9
  subst h3 h4
  refine ⟨?_, ?_, ?_⟩
  · intro hp ho hlt
    simp only at hp ho hlt
    subst hp ho
    simp [in_.emplace, queue.write_lock, queue.emplace_back, hlt]
  · intro hp ho
    simp only at hp ho
    subst hp ho
    simp [in_.emplace, queue.write_lock, in_.close, queue.close_in, in_.closed]
  · intro hp
    simp only at hp
    subst hp
    simp [in_.emplace]

/-- Capacity 1, the producer pushes 1, the consumer closes without reading: the
next `emplace` returns false, keeps the queue `[1]` and closes the producer. -/
theorem emplace_contract_witness :
    ∃ c : buffered_channel Nat,
      in_.emplace
          { shared := { shared := { data := [1], in_dead := false, out_dead := true },
                        max_size := 1 }
            producer := { did_close := false }
            consumer := { cache := [], cache_iter := 0, did_close := true } } 2
        = some (false, c) ∧
      c.shared.shared.data = [1] ∧
      c.shared.shared.out_dead = true ∧
      c.shared.shared.in_dead = true ∧
      c.shared.max_size = 1 ∧
      c.consumer = { cache := [], cache_iter := 0, did_close := true } ∧
      in_.closed c = true :=
  (emplace_contract 1 [op.emplace 1, op.out_close]
    { chan :=
        { shared := { shared := { data := [1], in_dead := false, out_dead := true },
                      max_size := 1 }
          producer := { did_close := false }
          consumer := { cache := [], cache_iter := 0, did_close := true } }
      pushed := [1]
      received := [] } 2 (by decide)).2.1 (by decide) (by decide)

/-- C5, as stated, fails: capacity 1, the producer pushes 1 and the consumer
closes, so `out_dead` is true and the producer has not self-closed.  A
`try_emplace` that does not get the lock returns false and changes nothing:
the producer's `closed()` stays false although `out_dead` is true. -/
theorem try_emplace_out_dead_counterexample :
    run (history.init 1) [op.emplace 1, op.out_close]
      = some
        { chan :=
            { shared := { shared := { data := [1], in_dead := false, out_dead := true },
                          max_size := 1 }
              producer := { did_close := false }
              consumer := { cache := [], cache_iter := 0, did_close := true } }
          pushed := [1]
          received := [] } ∧
    in_.try_emplace false
        { shared := { shared := { data := [1], in_dead := false, out_dead := true },
                      max_size := 1 }
          producer := { did_close := false }
          consumer := { cache := [], cache_iter := 0, did_close := true } } (2 : Nat)
      = (false,
        { shared := { shared := { data := [1], in_dead := false, out_dead := true },
                      max_size := 1 }
          producer := { did_close := false }
          consumer := { cache := [], cache_iter := 0, did_close := true } }) ∧
    ¬ (in_.closed (in_.try_emplace false
        { shared := { shared := { data := [1], in_dead := false, out_dead := true },
                      max_size := 1 }
          producer := { did_close := false }
          consumer := { cache := [], cache_iter := 0, did_close := true } } (2 : Nat)).2
        = true) := by
  decide

/-- C5 (`try_emplace`, amended). In every state reached from
`CreateBufferedChannel` through the endpoint operations, on a producer that
has not self-closed: `try_emplace` returns true exactly when the lock is
acquired, `out_dead` is false and the queue is not full, and then it only
appends the value at the tail of the queue; when the lock is not acquired, or
the queue is full and `out_dead` is false, it returns false and changes
nothing; when the lock is acquired and `out_dead` is true it returns false,
leaves the queue contents unchanged and the producer's `closed()` becomes
true. -/
theorem try_emplace_contract (capacity : Nat) (ops : List (op T)) (h : history T)
    (acquired : Bool) (v : T)
    (hr : run (history.init capacity) ops = some h)
    (hopen : h.chan.producer.did_close = false) :
    ((in_.try_emplace acquired h.chan v).1 = true ↔
      (acquired = true ∧ h.chan.shared.shared.out_dead = false ∧
        h.chan.shared.shared.data.length < h.chan.shared.max_size)) ∧
    ((in_.try_emplace acquired h.chan v).1 = true →
      (in_.try_emplace acquired h.chan v).2 =
        { h.chan with
          shared := { h.chan.shared with
            shared := { h.chan.shared.shared with
              data := h.chan.shared.shared.data ++ [v] } } }) ∧
    ((acquired = false ∨
        (h.chan.shared.max_size ≤ h.chan.shared.shared.data.length ∧
          h.chan.shared.shared.out_dead = false)) →
      in_.try_emplace acquired h.chan v = (false, h.chan)) ∧
    (acquired = true → h.chan.shared.shared.out_dead = true →
      (in_.try_emplace acquired h.chan v).1 = false ∧
      (in_.try_emplace acquired h.chan v).2.shared.shared.data = h.chan.shared.shared.data ∧
      in_.closed (in_.try_emplace acquired h.chan v).2 = true) := by
  have hw := run_wf ops (wf_init capacity) hr
  obtain ⟨⟨⟨⟨data, ind, outd⟩, ms⟩, ⟨pc⟩, ⟨cache, it, cc⟩⟩, pushed, received⟩ := h
  obtain ⟨h1, h2, h3, h4, h5, h6, h7, h8, h9⟩ := hw
  simp only at h1 h2 h3 h4 h5 h6 h7 h8 h9 hopen
  subst h3 h4 hopen
  refine ⟨?_, ?_, ?_, ?_⟩
  · simp only [in_.try_emplace, queue.try_write_lock, in_.close, queue.close_in,
      queue.emplace_back]
    cases acquired <;> cases cc <;> by_cases hlt : data.length < ms <;>
      simp [hlt, Nat.not_le.mpr, Nat.le_of_not_lt]
  · simp only [in_.try_emplace, queue.try_write_lock, in_.close, queue.close_in,
      queue.emplace_back]
    cases acquired <;> cases cc <;> by_cases hlt : data.length < ms <;>
      simp [hlt, Nat.not_le.mpr, Nat.le_of_not_lt]
  · simp only [in_.try_emplace, queue.try_write_lock, in_.close, queue.close_in,
      queue.emplace_back]
    rintro (ha | ⟨hfull, ho⟩)
    · subst ha; simp
    · subst ho
      cases acquired <;> simp [hfull]
  · intro ha ho
    simp only at ho
    subst ha ho
    simp [in_.try_emplace, queue.try_write_lock, in_.close, queue.close_in, in_.closed]

/-- Capacity 1, the producer pushes 1, the consumer closes: a `try_emplace`
that gets the lock returns false, keeps the queue `[1]` and closes the
producer. -/
theorem try_emplace_contract_witness :
    (in_.try_emplace true
        { shared := { shared := { data := [1], in_dead := false, out_dead := true },
                      max_size := 1 }
          producer := { did_close := false }
          consumer := { cache := [], cache_iter := 0, did_close := true } } (2 : Nat)).1
      = false ∧
    (in_.try_emplace true
        { shared := { shared := { data := [1], in_dead := false, out_dead := true },
                      max_size := 1 }
          producer := { did_close := false }
          consumer := { cache := [], cache_iter := 0, did_close := true } }
        (2 : Nat)).2.shared.shared.data
      = [1] ∧
    in_.closed (in_.try_emplace true
        { shared := { shared := { data := [1], in_dead := false, out_dead := true },
                      max_size := 1 }
          producer := { did_close := false }
          consumer := { cache := [], cache_iter := 0, did_close := true } } (2 : Nat)).2
      = true :=
  (try_emplace_contract 1 [op.emplace 1, op.out_close]
    { chan :=
        { shared := { shared := { data := [1], in_dead := false, out_dead := true },
                      max_size := 1 }
          producer := { did_close := false }
          consumer := { cache := [], cache_iter := 0, did_close := true } }
      pushed := [1]
      received := [] } true 2 (by decide) (by decide)).2.2.2 rfl (by decide)

/-- C6, as stated, fails on a consumer that has closed: capacity 1, the producer
pushes 1, the consumer closes without reading.  The cache is exhausted (empty,
cursor 0), the shared queue is non-empty (`[1]`) and the lock is acquired, yet
`try_get` returns empty and not the oldest queued value 1. -/
theorem try_get_closed_counterexample :
    run (history.init 1) [op.emplace 1, op.out_close]
      = some
        { chan :=
            { shared := { shared := { data := [1], in_dead := false, out_dead := true },
                          max_size := 1 }
              producer := { did_close := false }
              consumer := { cache := [], cache_iter := 0, did_close := true } }
          pushed := [1]
          received := [] } ∧
    out.try_get true
        ({ shared := { shared := { data := [1], in_dead := false, out_dead := true },
                       max_size := 1 }
           producer := { did_close := false }
           consumer := { cache := [], cache_iter := 0, did_close := true } } :
          buffered_channel Nat)
      = (none,
        { shared := { shared := { data := [1], in_dead := false, out_dead := true },
                      max_size := 1 }
          producer := { did_close := false }
          consumer := { cache := [], cache_iter := 0, did_close := true } }) ∧
    ¬ ((out.try_get true
        ({ shared := { shared := { data := [1], in_dead := false, out_dead := true },
                       max_size := 1 }
           producer := { did_close := false }
           consumer := { cache := [], cache_iter := 0, did_close := true } } :
          buffered_channel Nat)).1 = some 1) := by
  decide

/-- C6 (`try_get`, amended). In every state reached from `CreateBufferedChannel`
through the endpoint operations, on a consumer that has not closed and with
the drain cache exhausted: with the lock acquired, if the shared queue is empty
and `in_dead` is false, `try_get` returns empty and changes nothing (so
`closed()` stays false); if the shared queue is empty and `in_dead` is true it
returns empty and `closed()` becomes true; if the shared queue is non-empty it
returns the oldest queued value.  When the lock is not acquired it returns
empty and changes nothing. -/
theorem try_get_contract (capacity : Nat) (ops : List (op T)) (h : history T)
    (hr : run (history.init capacity) ops = some h)
    (hopen : h.chan.consumer.did_close = false)
    (hex : h.chan.consumer.cache_iter = h.chan.consumer.cache.length) :
    (h.chan.shared.shared.data = [] → h.chan.shared.shared.in_dead = false →
      out.try_get true h.chan = (none, h.chan) ∧
        out.closed (out.try_get true h.chan).2 = false) ∧
    (h.chan.shared.shared.data = [] → h.chan.shared.shared.in_dead = true →
      (out.try_get true h.chan).1 = none ∧
        out.closed (out.try_get true h.chan).2 = true) ∧
    (∀ (d : T) (ds : List T), h.chan.shared.shared.data = d :: ds →
      out.try_get true h.chan = (some d,
        { h.chan with
          shared := { h.chan.shared with
            shared := { h.chan.shared.shared with data := [] } }
          consumer := { cache := d :: ds, cache_iter := 1, did_close := false } })) ∧
    (out.try_get false h.chan = (none, h.chan) ∧
      out.closed (out.try_get false h.chan).2 = false) := by
  have hw := run_wf ops (wf_init capacity) hr
  obtain ⟨⟨⟨⟨data, ind, outd⟩, ms⟩, ⟨pc⟩, ⟨cache, it, cc⟩⟩, pushed, received⟩ := h
  obtain ⟨h1, h2, h3, h4, h5, h6, h7, h8, h9⟩ := hw
  simp only at h1 h2 h3 h4 h5 h6 h7 h8 h9 hopen hex
  subst h3 h4 hopen hex
  refine ⟨?_, ?_, ?_, ?_⟩
  · intro hd hi
    simp only at hd hi
    subst hd hi
    simp [out.try_get, out.try_update_cache, queue.try_read_lock, out.take, out.closed]
  · intro hd hi
    simp only at hd hi
    subst hd hi
    simp [out.try_get, out.try_update_cache, queue.try_read_lock, out.take, out.closed,
      out.close, queue.close_out]
  · intro d ds hd
    simp only at hd
    subst hd
    simp [out.try_get, out.try_update_cache, queue.try_read_lock, out.take,
      out.do_update_cache]
  · simp [out.try_get, out.try_update_cache, queue.try_read_lock, out.take, out.closed]

/-- Capacity 2: the producer pushes 1 and 2 and closes, the consumer has read
nothing.  A `try_get` that gets the lock returns the oldest value 1 and takes
the whole buffer into the cache. -/
theorem try_get_contract_witness :
    out.try_get true
        ({ shared := { shared := { data := [1, 2], in_dead := true, out_dead := false },
                       max_size := 2 }
           producer := { did_close := true }
           consumer := { cache := [], cache_iter := 0, did_close := false } } :
          buffered_channel Nat)
      = (some 1,
        { shared := { shared := { data := [], in_dead := true, out_dead := false },
                      max_size := 2 }
          producer := { did_close := true }
          consumer := { cache := [1, 2], cache_iter := 1, did_close := false } }) :=
  (try_get_contract 2 [op.emplace 1, op.emplace 2, op.in_close]
    { chan :=
        { shared := { shared := { data := [1, 2], in_dead := true, out_dead := false },
                      max_size := 2 }
          producer := { did_close := true }
          consumer := { cache := [], cache_iter := 0, did_close := false } }
      pushed := [1, 2]
      received := [] } (by decide) (by decide) (by decide)).2.2.1 1 [2] rfl

/-- C7 (consumer `close`). In every state reached from `CreateBufferedChannel`
through the endpoint operations, after the consumer's `close()` the flag
`out_dead` is set, the drain cache is empty with cursor 0 and `closed()` is
true; and after any further operations of either endpoint, `get()` and
`try_get()` return empty and change nothing, and no further value has been
delivered, whatever was left in the cache or in the shared queue. -/
theorem consumer_close_contract (capacity : Nat) (ops : List (op T)) (h : history T)
    (hr : run (history.init capacity) ops = some h) :
    (out.close h.chan).shared.shared.out_dead = true ∧
    (out.close h.chan).consumer.cache = [] ∧
    (out.close h.chan).consumer.cache_iter = 0 ∧
    out.closed (out.close h.chan) = true ∧
    ∀ (later : List (op T)) (h1 : history T),
      run { h with chan := out.close h.chan } later = some h1 →
        out.get h1.chan = some (none, h1.chan) ∧
        (∀ acquired : Bool, out.try_get acquired h1.chan = (none, h1.chan)) ∧
        h1.received = h.received := by
  have hw := run_wf ops (wf_init capacity) hr
  have hclosed : (out.close h.chan).consumer.did_close = true := by
    unfold out.close
    split_ifs with hc
    · rfl
    · simpa using hc
  have hw1 : wf capacity { h with chan := out.close h.chan } :=
    step_wf (o := op.out_close) hw rfl
  refine ⟨?_, ?_, ?_, hclosed, ?_⟩
  · rw [← hw1.out_flag]; exact hclosed
  · exact (hw1.closed_cache hclosed).1
  · exact (hw1.closed_cache hclosed).2
  · intro later h1 hl
    have hc1 := run_closed_out later (h := { h with chan := out.close h.chan }) hclosed hl
    refine ⟨?_, ?_, hc1.2⟩
    · simp [out.get, hc1.1]
    · intro a
      simp [out.try_get, hc1.1]

/-- Capacity 2: after pushes 1 and 2 and one read, value 2 waits in the cache;
the producer pushes 3 into the queue.  The consumer closes; the producer then
tries another push, and a later `get` returns empty with the value 3 still in
the shared queue. -/
theorem consumer_close_contract_witness :
    out.get
        ({ shared := { shared := { data := [3], in_dead := true, out_dead := true },
                       max_size := 2 }
           producer := { did_close := true }
           consumer := { cache := [], cache_iter := 0, did_close := true } } :
          buffered_channel Nat)
      = some (none,
        { shared := { shared := { data := [3], in_dead := true, out_dead := true },
                      max_size := 2 }
          producer := { did_close := true }
          consumer := { cache := [], cache_iter := 0, did_close := true } }) :=
  ((consumer_close_contract 2 [op.emplace 1, op.emplace 2, op.get, op.emplace 3]
    { chan :=
        { shared := { shared := { data := [3], in_dead := false, out_dead := false },
                      max_size := 2 }
          producer := { did_close := false }
          consumer := { cache := [1, 2], cache_iter := 1, did_close := false } }
      pushed := [1, 2, 3]
      received := [1] } (by decide)).2.2.2.2 [op.emplace 4]
    { chan :=
        { shared := { shared := { data := [3], in_dead := true, out_dead := true },
                      max_size := 2 }
          producer := { did_close := true }
          consumer := { cache := [], cache_iter := 0, did_close := true } }
      pushed := [1, 2, 3]
      received := [1] } (by decide)).1

/-- C8, as stated, fails in two reachable states whose cache is exhausted while
the shared queue is non-empty.  Capacity 1, the producer pushes 1 and the
consumer closes: `get` returns empty, nothing is moved into the cache and the
queue keeps `[1]`.  Capacity 1, the producer pushes 1: a `try_get` that does not
get the lock returns empty, and again nothing is moved. -/
theorem drain_refill_counterexample :
    run (history.init 1) [op.emplace 1, op.out_close]
      = some
        { chan :=
            { shared := { shared := { data := [1], in_dead := false, out_dead := true },
                          max_size := 1 }
              producer := { did_close := false }
              consumer := { cache := [], cache_iter := 0, did_close := true } }
          pushed := [1]
          received := [] } ∧
    out.get
        ({ shared := { shared := { data := [1], in_dead := false, out_dead := true },
                       max_size := 1 }
           producer := { did_close := false }
           consumer := { cache := [], cache_iter := 0, did_close := true } } :
          buffered_channel Nat)
      = some (none,
        { shared := { shared := { data := [1], in_dead := false, out_dead := true },
                      max_size := 1 }
          producer := { did_close := false }
          consumer := { cache := [], cache_iter := 0, did_close := true } }) ∧
    run (history.init 1) [op.emplace 1]
      = some
        { chan :=
            { shared := { shared := { data := [1], in_dead := false, out_dead := false },
                          max_size := 1 }
              producer := { did_close := false }
              consumer := { cache := [], cache_iter := 0, did_close := false } }
          pushed := [1]
          received := [] } ∧
    out.try_get false
        ({ shared := { shared := { data := [1], in_dead := false, out_dead := false },
                       max_size := 1 }
           producer := { did_close := false }
           consumer := { cache := [], cache_iter := 0, did_close := false } } :
          buffered_channel Nat)
      = (none,
        { shared := { shared := { data := [1], in_dead := false, out_dead := false },
                      max_size := 1 }
          producer := { did_close := false }
          consumer := { cache := [], cache_iter := 0, did_close := false } }) := by
  decide

/-- C8 (drain buffer, amended). In every state reached from
`CreateBufferedChannel` through the endpoint operations: when
`cache_iter < cache.size()`, `get()` and `try_get()` return `cache[cache_iter]`,
advance the cursor by one and change nothing else (the shared queue keeps its
data and flags).  When the consumer has not closed, the cache is exhausted and
the shared queue is non-empty, the refill done by `get()`, and by `try_get()`
when it acquires the lock, moves the whole buffer into the cache (the cache is
the old queue contents, the shared queue is empty, the cursor is 0), and the
call then returns the first of those values with the cursor at 1. -/
theorem drain_buffer_contract (capacity : Nat) (ops : List (op T)) (h : history T)
    (hr : run (history.init capacity) ops = some h) :
    (h.chan.consumer.cache_iter < h.chan.consumer.cache.length →
      ∃ x : T, h.chan.consumer.cache.get? h.chan.consumer.cache_iter = some x ∧
        out.get h.chan = some (some x,
          { h.chan with
            consumer := { h.chan.consumer with
              cache_iter := h.chan.consumer.cache_iter + 1 } }) ∧
        ∀ acquired : Bool, out.try_get acquired h.chan = (some x,
          { h.chan with
            consumer := { h.chan.consumer with
              cache_iter := h.chan.consumer.cache_iter + 1 } })) ∧
    (h.chan.consumer.did_close = false →
      h.chan.consumer.cache_iter = h.chan.consumer.cache.length →
      ∀ (d : T) (ds : List T), h.chan.shared.shared.data = d :: ds →
        out.update_cache h.chan = some
          { h.chan with
            shared := { h.chan.shared with
              shared := { h.chan.shared.shared with data := [] } }
            consumer := { cache := d :: ds, cache_iter := 0, did_close := false } } ∧
        out.try_update_cache true h.chan =
          { h.chan with
            shared := { h.chan.shared with
              shared := { h.chan.shared.shared with data := [] } }
            consumer := { cache := d :: ds, cache_iter := 0, did_close := false } } ∧
        out.get h.chan = some (some d,
          { h.chan with
            shared := { h.chan.shared with
              shared := { h.chan.shared.shared with data := [] } }
            consumer := { cache := d :: ds, cache_iter := 1, did_close := false } }) ∧
        out.try_get true h.chan = (some d,
          { h.chan with
            shared := { h.chan.shared with
              shared := { h.chan.shared.shared with data := [] } }
            consumer := { cache := d :: ds, cache_iter := 1, did_close := false } })) := by
  have hw := run_wf ops (wf_init capacity) hr
  obtain ⟨⟨⟨⟨data, ind, outd⟩, ms⟩, ⟨pc⟩, ⟨cache, it, cc⟩⟩, pushed, received⟩ := h
  obtain ⟨h1, h2, h3, h4, h5, h6, h7, h8, h9⟩ := hw
  simp only at h1 h2 h3 h4 h5 h6 h7 h8 h9
  subst h3 h4
  refine ⟨?_, ?_⟩
  · intro hlt
    simp only at hlt
    have hcc : cc = false := by
      cases cc
      · rfl
      · have := (h7 rfl).1; subst this; simp at hlt
    subst hcc
    have hne : it ≠ cache.length := Nat.ne_of_lt hlt
    refine ⟨cache.get ⟨it, hlt⟩, List.get?_eq_get hlt, ?_, ?_⟩
    · simp [out.get, out.update_cache, out.take, hne, hlt, List.getElem?_eq_getElem]
    · intro a
      simp [out.try_get, out.try_update_cache, out.take, hne, hlt, List.getElem?_eq_getElem]
  · intro hopen hex d ds hd
    simp only at hopen hex hd
    subst hopen hex hd
    refine ⟨?_, ?_, ?_, ?_⟩
    · simp [out.update_cache, queue.read_lock, out.do_update_cache]
    · simp [out.try_update_cache, queue.try_read_lock, out.do_update_cache]
    · simp [out.get, out.update_cache, queue.read_lock, out.do_update_cache, out.take]
    · simp [out.try_get, out.try_update_cache, queue.try_read_lock, out.do_update_cache,
        out.take]

/-- Capacity 2 after pushes 1 and 2 and one read: the cache is `[1, 2]` with the
cursor at 1, so the next `get` serves 2 from the cache and leaves the shared
queue (here holding a third value) untouched. -/
theorem drain_buffer_contract_witness :
    ∃ x : Nat, ([1, 2] : List Nat).get? 1 = some x ∧
      out.get
          ({ shared := { shared := { data := [3], in_dead := false, out_dead := false },
                         max_size := 2 }
             producer := { did_close := false }
             consumer := { cache := [1, 2], cache_iter := 1, did_close := false } } :
            buffered_channel Nat)
        = some (some x,
          { shared := { shared := { data := [3], in_dead := false, out_dead := false },
                        max_size := 2 }
            producer := { did_close := false }
            consumer := { cache := [1, 2], cache_iter := 2, did_close := false } }) ∧
      ∀ acquired : Bool, out.try_get acquired
          ({ shared := { shared := { data := [3], in_dead := false, out_dead := false },
                         max_size := 2 }
             producer := { did_close := false }
             consumer := { cache := [1, 2], cache_iter := 1, did_close := false } } :
            buffered_channel Nat)
        = (some x,
          { shared := { shared := { data := [3], in_dead := false, out_dead := false },
                        max_size := 2 }
            producer := { did_close := false }
            consumer := { cache := [1, 2], cache_iter := 2, did_close := false } }) :=
  (drain_buffer_contract 2 [op.emplace 1, op.emplace 2, op.get, op.emplace 3]
    { chan :=
        { shared := { shared := { data := [3], in_dead := false, out_dead := false },
                      max_size := 2 }
          producer := { did_close := false }
          consumer := { cache := [1, 2], cache_iter := 1, did_close := false } }
      pushed := [1, 2, 3]
      received := [1] } (by decide)).1 (by decide)

/-- C9 (`close` is idempotent). For every channel state, calling the producer's
`close()` twice gives the same state as calling it once, and likewise for the
consumer's `close()`; the producer's `close()` never alters the queue data,
`out_dead`, the capacity or the consumer, it sets `in_dead` whenever the
producer had not closed yet, and in every state reached from
`CreateBufferedChannel` through the endpoint operations `in_dead` is set after
it. -/
theorem close_idempotent :
    (∀ c : buffered_channel T, in_.close (in_.close c) = in_.close c) ∧
    (∀ c : buffered_channel T, out.close (out.close c) = out.close c) ∧
    (∀ c : buffered_channel T,
      (in_.close c).shared.shared.data = c.shared.shared.data ∧
      (in_.close c).shared.shared.out_dead = c.shared.shared.out_dead ∧
      (in_.close c).shared.max_size = c.shared.max_size ∧
      (in_.close c).consumer = c.consumer ∧
      in_.closed (in_.close c) = true ∧
      (c.producer.did_close = false → (in_.close c).shared.shared.in_dead = true)) ∧
    (∀ (capacity : Nat) (ops : List (op T)) (h : history T),
      run (history.init capacity) ops = some h →
        (in_.close h.chan).shared.shared.in_dead = true) := by
  refine ⟨?_, ?_, ?_, ?_⟩
  · rintro ⟨⟨⟨data, ind, outd⟩, ms⟩, ⟨pc⟩, ⟨cache, it, cc⟩⟩
    cases pc <;> simp [in_.close, queue.close_in]
  · rintro ⟨⟨⟨data, ind, outd⟩, ms⟩, ⟨pc⟩, ⟨cache, it, cc⟩⟩
    cases cc <;> simp [out.close, queue.close_out]
  · rintro ⟨⟨⟨data, ind, outd⟩, ms⟩, ⟨pc⟩, ⟨cache, it, cc⟩⟩
    cases pc <;> simp [in_.close, queue.close_in, in_.closed]
  · intro capacity ops h hr
    have hw : wf capacity { h with chan := in_.close h.chan } :=
      step_wf (o := op.in_close) (run_wf ops (wf_init capacity) hr) rfl
    rw [← hw.in_flag]
    have hc := (show ∀ c : buffered_channel T, (in_.close c).producer.did_close = true by
      rintro ⟨⟨⟨data, ind, outd⟩, ms⟩, ⟨pc⟩, ⟨cache, it, cc⟩⟩
      cases pc <;> simp [in_.close]) h.chan
    exact hc

/-- Capacity 2 after one push: the producer's `close()` sets `in_dead` and keeps
the queue `[1]`; a second `close()` changes nothing. -/
theorem close_idempotent_witness :
    in_.close
        ({ shared := { shared := { data := [1], in_dead := false, out_dead := false },
                       max_size := 2 }
           producer := { did_close := false }
           consumer := { cache := [], cache_iter := 0, did_close := false } } :
          buffered_channel Nat)
      = { shared := { shared := { data := [1], in_dead := true, out_dead := false },
                      max_size := 2 }
          producer := { did_close := true }
          consumer := { cache := [], cache_iter := 0, did_close := false } } ∧
    (in_.close
        ({ shared := { shared := { data := [1], in_dead := false, out_dead := false },
                       max_size := 2 }
           producer := { did_close := false }
           consumer := { cache := [], cache_iter := 0, did_close := false } } :
          buffered_channel Nat)).shared.shared.in_dead = true :=
  ⟨by decide,
   close_idempotent.2.2.2 2 [op.emplace 1]
    { chan :=
        { shared := { shared := { data := [1], in_dead := false, out_dead := false },
                      max_size := 2 }
          producer := { did_close := false }
          consumer := { cache := [], cache_iter := 0, did_close := false } }
      pushed := [1]
      received := [] } (by decide)⟩

/-- C10 (sticky flags). No operation of the queue or of an endpoint clears a
half-close flag: after `read_lock`, `write_lock`, `try_read_lock`,
`try_write_lock`, `close_in`, `close_out`, `emplace`, `try_emplace`, `get`,
`try_get` and either `close`, from any state whatever, a flag that was set is
still set; the same holds along every sequence of endpoint operations. -/
theorem flags_sticky :
    (∀ q : queue T, flags_kept q q.read_lock.2) ∧
    (∀ q : queue T, flags_kept q q.write_lock.2) ∧
    (∀ (acquired : Bool) (q : queue T), flags_kept q (q.try_read_lock acquired).2) ∧
    (∀ (acquired : Bool) (q : queue T), flags_kept q (q.try_write_lock acquired).2) ∧
    (∀ q : queue T, flags_kept q q.close_in) ∧
    (∀ q : queue T, flags_kept q q.close_out) ∧
    (∀ (c : buffered_channel T) (v : T) (r : Bool × buffered_channel T),
      in_.emplace c v = some r → flags_kept c.shared r.2.shared) ∧
    (∀ (acquired : Bool) (c : buffered_channel T) (v : T),
      flags_kept c.shared (in_.try_emplace acquired c v).2.shared) ∧
    (∀ (c : buffered_channel T) (r : Option T × buffered_channel T),
      out.get c = some r → flags_kept c.shared r.2.shared) ∧
    (∀ (acquired : Bool) (c : buffered_channel T),
      flags_kept c.shared (out.try_get acquired c).2.shared) ∧
    (∀ c : buffered_channel T, flags_kept c.shared (in_.close c).shared) ∧
    (∀ c : buffered_channel T, flags_kept c.shared (out.close c).shared) ∧
    (∀ (ops : List (op T)) (h h1 : history T),
      run h ops = some h1 → flags_kept h.chan.shared h1.chan.shared) := by
  refine ⟨?_, ?_, ?_, ?_, ?_, ?_, ?_, ?_, ?_, ?_, ?_, ?_, ?_⟩
  · intro q; rw [read_lock_snd]; exact flags_kept_refl q
  · intro q; rw [write_lock_snd]; exact flags_kept_refl q
  · intro a q; rw [try_read_lock_snd]; exact flags_kept_refl q
  · intro a q; rw [try_write_lock_snd]; exact flags_kept_refl q
  · intro q; simp [flags_kept, queue.close_in]
  · intro q; simp [flags_kept, queue.close_out]
  · intro c v r he; exact emplace_kept he
  · intro a c v; exact try_emplace_kept a c v
  · intro c r hg; exact get_kept hg
  · intro a c; exact try_get_kept a c
  · exact in_close_kept
  · exact out_close_kept
  · intro ops h h1 hr; exact run_kept ops hr

/-- Capacity 1 with `out_dead` set and a value left in the queue: an `emplace`
on the open producer returns false and sets `in_dead`; `out_dead` is still
set. -/
theorem flags_sticky_witness :
    flags_kept
      ({ shared := { data := [1], in_dead := false, out_dead := true }, max_size := 1 } :
        queue Nat)
      ({ shared := { data := [1], in_dead := true, out_dead := true }, max_size := 1 } :
        queue Nat) :=
  flags_sticky.2.2.2.2.2.2.1
    { shared := { shared := { data := [1], in_dead := false, out_dead := true }, max_size := 1 }
      producer := { did_close := false }
      consumer := { cache := [], cache_iter := 0, did_close := true } }
    2
    (false,
      { shared := { shared := { data := [1], in_dead := true, out_dead := true }, max_size := 1 }
        producer := { did_close := true }
        consumer := { cache := [], cache_iter := 0, did_close := true } })
    (by decide)

/-- C11 (the wrappers prevent the programmer-error cases). In every state
reached from `CreateBufferedChannel` through `emplace`, `try_emplace`, `get`,
`try_get` and the two `close` operations, the producer's `did_close` equals
`in_dead` and the consumer's `did_close` equals `out_dead`; hence no endpoint
operation started in such a state reaches a queue call that takes a logging
branch ("read with `out_dead` set" in `read_lock` / `try_read_lock`, "write
with `in_dead` set" in `write_lock` / `try_write_lock`). -/
theorem wrappers_prevent_misuse (capacity : Nat) (ops : List (op T)) (h : history T)
    (hr : run (history.init capacity) ops = some h) :
    h.chan.producer.did_close = h.chan.shared.shared.in_dead ∧
    h.chan.consumer.did_close = h.chan.shared.shared.out_dead ∧
    ∀ o : op T, op.misuse h.chan o = false := by
  have hw := run_wf ops (wf_init capacity) hr
  refine ⟨hw.in_flag, hw.out_flag, ?_⟩
  have hi := hw.in_flag
  have ho := hw.out_flag
  intro o
  cases o with
  | emplace v =>
    simp only [op.misuse, queue.write_lock_misuse, ← hi]
    cases h.chan.producer.did_close <;> simp
  | try_emplace a v =>
    simp only [op.misuse, queue.try_write_lock_misuse, ← hi]
    cases h.chan.producer.did_close <;> simp
  | in_close => rfl
  | get =>
    simp only [op.misuse, queue.read_lock_misuse, ← ho]
    cases h.chan.consumer.did_close <;> simp
  | try_get a =>
    simp only [op.misuse, queue.try_read_lock_misuse, ← ho]
    cases h.chan.consumer.did_close <;> simp
  | out_close => rfl

/-- Capacity 1, the producer pushes 1 and the consumer closes: the flags agree
with the endpoints, and the producer's next `emplace` reaches `write_lock`
without taking the logging branch. -/
theorem wrappers_prevent_misuse_witness :
    (false = false ∧ true = true ∧
      ∀ o : op Nat, op.misuse
        { shared := { shared := { data := [1], in_dead := false, out_dead := true },
                      max_size := 1 }
          producer := { did_close := false }
          consumer := { cache := [], cache_iter := 0, did_close := true } } o = false) :=
  wrappers_prevent_misuse 1 [op.emplace 1, op.out_close]
    { chan :=
        { shared := { shared := { data := [1], in_dead := false, out_dead := true },
                      max_size := 1 }
          producer := { did_close := false }
          consumer := { cache := [], cache_iter := 0, did_close := true } }
      pushed := [1]
      received := [] } (by decide)

/-- C12, as stated, fails in two queue states.  With `out_dead` set, a
`try_read_lock` whose `try_lock` fails returns `failed_to_acquire_lock`, not
`channel_closed` (and likewise `try_write_lock` with `in_dead` set).  With
`in_dead` set, the queue full and `out_dead` clear, `write_lock` does not
return: its wait predicate is false, and the `in_dead` test comes after the
wait. -/
theorem raw_misuse_counterexample :
    queue.try_read_lock false
        ({ shared := { data := [1], in_dead := false, out_dead := true }, max_size := 1 } :
          queue Nat)
      = (try_result.failed_to_acquire_lock,
        { shared := { data := [1], in_dead := false, out_dead := true }, max_size := 1 }) ∧
    queue.try_write_lock false
        ({ shared := { data := [], in_dead := true, out_dead := false }, max_size := 1 } :
          queue Nat)
      = (try_result.failed_to_acquire_lock,
        { shared := { data := [], in_dead := true, out_dead := false }, max_size := 1 }) ∧
    queue.write_lock
        ({ shared := { data := [1], in_dead := true, out_dead := false }, max_size := 1 } :
          queue Nat)
      = (lock_result.waits,
        { shared := { data := [1], in_dead := true, out_dead := false }, max_size := 1 }) := by
  decide

/-- C12 (raw-queue misuse, amended). For every queue state with `out_dead` set,
`read_lock` returns `nullopt` and `try_read_lock`, when it acquires the lock,
returns `channel_closed`.  For every queue state with `in_dead` set,
`write_lock` returns `nullopt` when the queue is not full or `out_dead` is
set, it never returns a handle, and `try_write_lock`, when it acquires the
lock, returns `channel_closed`, whatever the queue length and `out_dead`.  In
each case the queue data and flags are unchanged, and the call is the one
marked by the logging branch. -/
theorem raw_misuse_closed (q : queue T) :
    (q.shared.out_dead = true →
      q.read_lock = (lock_result.nullopt, q) ∧
      q.try_read_lock true = (try_result.channel_closed, q) ∧
      q.read_lock_misuse = true ∧ q.try_read_lock_misuse true = true) ∧
    (q.shared.in_dead = true →
      ((q.shared.data.length < q.max_size ∨ q.shared.out_dead = true) →
        q.write_lock = (lock_result.nullopt, q) ∧ q.write_lock_misuse = true) ∧
      q.write_lock.1 ≠ lock_result.handle ∧
      q.write_lock.2 = q ∧
      q.try_write_lock true = (try_result.channel_closed, q) ∧
      q.try_write_lock_misuse true = true) := by
  obtain ⟨⟨data, ind, outd⟩, ms⟩ := q
  refine ⟨?_, ?_⟩
  · intro ho
    simp only at ho
    subst ho
    simp [queue.read_lock, queue.try_read_lock, queue.read_lock_misuse,
      queue.try_read_lock_misuse]
  · intro hi
    simp only at hi
    subst hi
    refine ⟨?_, ?_, ?_, ?_, ?_⟩
    · rintro (hlt | ho)
      · simp only at hlt
        simp [queue.write_lock, queue.write_lock_misuse, hlt]
      · simp only at ho
        subst ho
        simp [queue.write_lock, queue.write_lock_misuse]
    · simp only [queue.write_lock]
      split_ifs <;> simp
    · simp only [queue.write_lock]
      split_ifs <;> rfl
    · simp [queue.try_write_lock]
    · simp [queue.try_write_lock_misuse]

/-- A producer-closed queue with room left: `write_lock` returns `nullopt` and
changes nothing. -/
theorem raw_misuse_closed_witness :
    queue.write_lock
        ({ shared := { data := [1], in_dead := true, out_dead := false }, max_size := 2 } :
          queue Nat)
      = (lock_result.nullopt,
        { shared := { data := [1], in_dead := true, out_dead := false }, max_size := 2 }) ∧
    queue.write_lock_misuse
        ({ shared := { data := [1], in_dead := true, out_dead := false }, max_size := 2 } :
          queue Nat) = true :=
  ((raw_misuse_closed
    ({ shared := { data := [1], in_dead := true, out_dead := false }, max_size := 2 } :
      queue Nat)).2 rfl).1 (Or.inl (by decide))

/-- C13, as stated, fails: `CreateBufferedChannel(0)` makes no check.  It
returns a pair over a queue with `max_size` 0, and the endpoints work on it: a
`try_emplace` is refused, the producer closes, the consumer's `get()` then
returns empty and closes the consumer. -/
theorem capacity_zero_counterexample :
    (CreateBufferedChannel 0 : buffered_channel Nat)
      = { shared := { shared := { data := [], in_dead := false, out_dead := false },
                      max_size := 0 }
          producer := { did_close := false }
          consumer := { cache := [], cache_iter := 0, did_close := false } } ∧
    run (history.init 0) [op.try_emplace true 1, op.in_close, op.get]
      = some
        { chan :=
            { shared := { shared := { data := [], in_dead := true, out_dead := true },
                          max_size := 0 }
              producer := { did_close := true }
              consumer := { cache := [], cache_iter := 0, did_close := true } }
          pushed := ([] : List Nat)
          received := [] } := by
  decide

/-- C13 (capacity 0, amended). `CreateBufferedChannel(0)` returns a pair over a
queue with `max_size` 0, and in every state reached from it through the
endpoint operations the shared queue is empty, no value has been pushed and
none received: `try_emplace` always returns false, `emplace` waits as long as
the producer is open and `out_dead` is clear, and returns false whenever it
returns. -/
theorem capacity_zero_contract (ops : List (op T)) (h : history T)
    (hr : run (history.init 0) ops = some h) :
    h.chan.shared.max_size = 0 ∧
    h.chan.shared.shared.data = [] ∧
    h.pushed = [] ∧ h.received = [] ∧
    (∀ (acquired : Bool) (v : T), (in_.try_emplace acquired h.chan v).1 = false) ∧
    (∀ v : T, h.chan.producer.did_close = false → h.chan.shared.shared.out_dead = false →
      in_.emplace h.chan v = none) ∧
    (∀ (v : T) (r : Bool × buffered_channel T), in_.emplace h.chan v = some r → r.1 = false) := by
  have hw := run_wf ops (wf_init 0) hr
  have hp : h.pushed = [] := run_pushed_zero ops (wf_init 0) hr
  have hd : h.chan.shared.shared.data = [] :=
    List.eq_nil_of_length_eq_zero (Nat.le_zero.mp (hw.cap_eq ▸ hw.bound))
  refine ⟨hw.cap_eq, hd, hp, ?_, ?_, ?_, ?_⟩
  · have := hw.fifo
    rw [hp] at this
    exact List.prefix_nil.mp this
  · intro a v
    exact try_emplace_zero a h.chan v hw.cap_eq
  · intro v hopen hout
    have hz := hw.cap_eq
    obtain ⟨⟨⟨⟨data, ind, outd⟩, ms⟩, ⟨pc⟩, ⟨cache, it, cc⟩⟩, pushed, received⟩ := h
    simp only at hopen hout hz
    subst hopen hout hz
    simp [in_.emplace, queue.write_lock]
  · intro v r he
    exact emplace_zero hw.cap_eq he

/-- Capacity 0 after a refused `try_emplace`: the producer is open and
`out_dead` is clear, so an `emplace` waits. -/
theorem capacity_zero_contract_witness :
    in_.emplace
        { shared := { shared := { data := [], in_dead := false, out_dead := false },
                      max_size := 0 }
          producer := { did_close := false }
          consumer := { cache := [], cache_iter := 0, did_close := false } } (5 : Nat)
      = none :=
  (capacity_zero_contract [op.try_emplace true 1]
    { chan :=
        { shared := { shared := { data := [], in_dead := false, out_dead := false },
                      max_size := 0 }
          producer := { did_close := false }
          consumer := { cache := [], cache_iter := 0, did_close := false } }
      pushed := ([] : List Nat)
      received := [] } (by decide)).2.2.2.2.2.1 5 rfl rfl

/-! ## Values buffered in the channel -/

theorem step_cursor_pos {cap : Nat} {h h1 : history T} {o : op T} (hw : wf cap h)
    (hj : h.chan.consumer.cache = [] ∨ 1 ≤ h.chan.consumer.cache_iter)
    (hs : step h o = some h1) :
    h1.chan.consumer.cache = [] ∨ 1 ≤ h1.chan.consumer.cache_iter := by
  obtain ⟨⟨⟨⟨data, ind, outd⟩, ms⟩, ⟨pc⟩, ⟨cache, it, cc⟩⟩, pushed, received⟩ := h
  obtain ⟨h1, h2, h3, h4, h5, h6, h7, h8, h9⟩ := hw
  simp only at h1 h2 h3 h4 h5 h6 h7 h8 h9 hj
  subst h3 h4
  cases o with
  | emplace v =>
    simp only [step, in_.emplace, queue.write_lock, in_.close, queue.emplace_back,
      queue.close_in] at hs
    split_ifs at hs <;> simp [history.push] at hs <;> subst hs <;> exact hj
  | try_emplace a v =>
    simp only [step, in_.try_emplace, queue.try_write_lock, in_.close, queue.emplace_back,
      queue.close_in] at hs
    split_ifs at hs <;> simp [history.push] at hs <;> subst hs <;> exact hj
  | in_close =>
    simp only [step, in_.close, queue.close_in] at hs
    split_ifs at hs <;> simp at hs <;> subst hs <;> exact hj
  | out_close =>
    simp only [step, out.close, queue.close_out] at hs
    split_ifs at hs <;> simp at hs <;> subst hs
    · exact Or.inl rfl
    · exact hj
  | get =>
    cases cc with
    | true =>
      simp [step, out.get, history.recv] at hs
      subst hs
      exact hj
    | false =>
      by_cases hlt : it < cache.length
      · have hne : it ≠ cache.length := Nat.ne_of_lt hlt
        simp [step, out.get, out.update_cache, out.take, hne, hlt, history.recv] at hs
        subst hs
        exact Or.inr (Nat.succ_le_succ (Nat.zero_le it))
      · have hex : it = cache.length := Nat.le_antisymm h5 (Nat.le_of_not_lt hlt)
        subst hex
        cases data with
        | nil =>
          cases pc with
          | false => simp [step, out.get, out.update_cache, queue.read_lock] at hs
          | true =>
            simp [step, out.get, out.update_cache, queue.read_lock, out.close,
              queue.close_out, out.take, history.recv] at hs
            subst hs
            exact Or.inl rfl
        | cons d ds =>
          simp [step, out.get, out.update_cache, queue.read_lock, out.do_update_cache,
            out.take, history.recv] at hs
          subst hs
          exact Or.inr (Nat.le_refl 1)
  | try_get a =>
    cases cc with
    | true =>
      simp [step, out.try_get, history.recv] at hs
      subst hs
      exact hj
    | false =>
      by_cases hlt : it < cache.length
      · have hne : it ≠ cache.length := Nat.ne_of_lt hlt
        simp [step, out.try_get, out.try_update_cache, out.take, hne, hlt, history.recv] at hs
        subst hs
        exact Or.inr (Nat.succ_le_succ (Nat.zero_le it))
      · have hex : it = cache.length := Nat.le_antisymm h5 (Nat.le_of_not_lt hlt)
        subst hex
        cases a with
        | false =>
          simp [step, out.try_get, out.try_update_cache, queue.try_read_lock, out.take,
            history.recv] at hs
          subst hs
          exact hj
        | true =>
          cases data with
          | nil =>
            cases pc with
            | false =>
              simp [step, out.try_get, out.try_update_cache, queue.try_read_lock, out.take,
                history.recv] at hs
              subst hs
              exact hj
            | true =>
              simp [step, out.try_get, out.try_update_cache, queue.try_read_lock, out.close,
                queue.close_out, out.take, history.recv] at hs
              subst hs
              exact Or.inl rfl
          | cons d ds =>
            simp [step, out.try_get, out.try_update_cache, queue.try_read_lock,
              out.do_update_cache, out.take, history.recv] at hs
            subst hs
            exact Or.inr (Nat.le_refl 1)

theorem run_cursor_pos {cap : Nat} (ops : List (op T)) {h h1 : history T} (hw : wf cap h)
    (hj : h.chan.consumer.cache = [] ∨ 1 ≤ h.chan.consumer.cache_iter)
    (hr : run h ops = some h1) :
    h1.chan.consumer.cache = [] ∨ 1 ≤ h1.chan.consumer.cache_iter := by
  induction ops generalizing h with
  | nil => simp [run] at hr; subst hr; exact hj
  | cons o os ih =>
    simp only [run] at hr
    cases hs : step h o with
    | none => simp [hs] at hr
    | some h2 =>
      simp [hs] at hr
      exact ih (step_wf hw hs) (step_cursor_pos hw hj hs) hr

theorem run_emplace_n (v : T) (n ms : Nat) (pushed received : List T) (out_ : out T) :
    ∀ data : List T, data.length + n ≤ ms →
      run
          { chan :=
              { shared := { shared := { data := data, in_dead := false, out_dead := false },
                            max_size := ms }
                producer := { did_close := false }
                consumer := out_ }
            pushed := pushed
            received := received }
          (List.replicate n (op.emplace v))
        = some
          { chan :=
              { shared := { shared := { data := data ++ List.replicate n v,
                                        in_dead := false, out_dead := false },
                            max_size := ms }
                producer := { did_close := false }
                consumer := out_ }
            pushed := pushed ++ List.replicate n v
            received := received } := by
  induction n generalizing pushed with
  | zero => intro data _; simp [run]
  | succ n ih =>
    intro data hlen
    have hlt : data.length < ms := by omega
    have hstep : step
        { chan :=
            { shared := { shared := { data := data, in_dead := false, out_dead := false },
                          max_size := ms }
              producer := { did_close := false }
              consumer := out_ }
          pushed := pushed
          received := received } (op.emplace v)
        = some
          { chan :=
              { shared := { shared := { data := data ++ [v], in_dead := false,
                                        out_dead := false },
                            max_size := ms }
                producer := { did_close := false }
                consumer := out_ }
            pushed := pushed ++ [v]
            received := received } := by
      simp [step, in_.emplace, queue.write_lock, queue.emplace_back, history.push, hlt]
    have hnext := ih (pushed ++ [v]) (data ++ [v]) (by simp; omega)
    simp only [List.replicate_succ, run, hstep, Option.some_bind, hnext]
    simp [List.append_assoc]

theorem bound_attained (v : T) (c : Nat) (hc : 1 ≤ c) :
    run (history.init c)
        (List.replicate c (op.emplace v) ++ op.get :: List.replicate c (op.emplace v))
      = some
        { chan :=
            { shared := { shared := { data := List.replicate c v, in_dead := false,
                                      out_dead := false },
                          max_size := c }
              producer := { did_close := false }
              consumer := { cache := List.replicate c v, cache_iter := 1,
                            did_close := false } }
          pushed := List.replicate c v ++ List.replicate c v
          received := [v] } := by
  obtain ⟨k, rfl⟩ : ∃ k, c = k + 1 := ⟨c - 1, by omega⟩
  have h1 := run_emplace_n v (k + 1) (k + 1) [] []
    { cache := [], cache_iter := 0, did_close := false } [] (by simp)
  have h2 := run_emplace_n v (k + 1) (k + 1) (List.replicate (k + 1) v) [v]
    { cache := List.replicate (k + 1) v, cache_iter := 1, did_close := false } [] (by simp)
  simp only [List.nil_append] at h1 h2
  rw [run_append]
  have hinit : (history.init (k + 1) : history T)
      = { chan :=
            { shared := { shared := { data := [], in_dead := false, out_dead := false },
                          max_size := k + 1 }
              producer := { did_close := false }
              consumer := { cache := [], cache_iter := 0, did_close := false } }
          pushed := []
          received := [] } := rfl
  rw [hinit, h1]
  simp only [Option.some_bind, run]
  have hget : step
      { chan :=
          { shared := { shared := { data := List.replicate (k + 1) v, in_dead := false,
                                    out_dead := false },
                        max_size := k + 1 }
            producer := { did_close := false }
            consumer := { cache := [], cache_iter := 0, did_close := false } }
        pushed := List.replicate (k + 1) v
        received := [] } (op.get : op T)
      = some
        { chan :=
            { shared := { shared := { data := [], in_dead := false, out_dead := false },
                          max_size := k + 1 }
              producer := { did_close := false }
              consumer := { cache := List.replicate (k + 1) v, cache_iter := 1,
                            did_close := false } }
          pushed := List.replicate (k + 1) v
          received := [v] } := by
    simp [step, out.get, out.update_cache, queue.read_lock, out.do_update_cache, out.take,
      history.recv, List.replicate_succ]
  rw [hget]
  simp only [Option.some_bind]
  exact h2

/-- C23 (buffered values). In every state reached from
`CreateBufferedChannel(capacity)` through the endpoint operations,
`cache_iter ≤ cache.size() ≤ max_size`, and the number of pushed but
undelivered values, `cache.size() − cache_iter` plus the length of the shared
queue, is at most `2·max_size − 1` (for capacity 0 it is 0).  For every
capacity `c ≥ 1` the bound is attained: after `c` pushes, one read and `c` more
pushes, `2c − 1` values are buffered, which is more than `c` as soon as
`c ≥ 2`. -/
theorem buffered_bound :
    (∀ (capacity : Nat) (ops : List (op T)) (h : history T),
      run (history.init capacity) ops = some h →
        h.chan.consumer.cache_iter ≤ h.chan.consumer.cache.length ∧
        h.chan.consumer.cache.length ≤ h.chan.shared.max_size ∧
        (h.chan.consumer.cache.length - h.chan.consumer.cache_iter)
            + h.chan.shared.shared.data.length ≤ 2 * h.chan.shared.max_size - 1 ∧
        (1 ≤ capacity →
          (h.chan.consumer.cache.length - h.chan.consumer.cache_iter)
            + h.chan.shared.shared.data.length + 1 ≤ 2 * h.chan.shared.max_size) ∧
        (capacity = 0 →
          (h.chan.consumer.cache.length - h.chan.consumer.cache_iter)
            + h.chan.shared.shared.data.length = 0)) ∧
    (∀ (v : T) (c : Nat), 1 ≤ c →
      ∃ h : history T,
        run (history.init c)
            (List.replicate c (op.emplace v) ++ op.get :: List.replicate c (op.emplace v))
          = some h ∧
        (h.chan.consumer.cache.length - h.chan.consumer.cache_iter)
          + h.chan.shared.shared.data.length = 2 * c - 1 ∧
        (2 ≤ c →
          c < (h.chan.consumer.cache.length - h.chan.consumer.cache_iter)
            + h.chan.shared.shared.data.length)) := by
  refine ⟨?_, ?_⟩
  · intro capacity ops h hr
    have hw := run_wf ops (wf_init capacity) hr
    have hj := run_cursor_pos ops (wf_init capacity)
      (Or.inl (by simp [history.init, CreateBufferedChannel])) hr
    have h1 := hw.cursor
    have h2 := hw.cache_bound
    have h3 := hw.bound
    have h4 := hw.cap_eq
    have hlen : h.chan.consumer.cache.length = 0 ∨ 1 ≤ h.chan.consumer.cache_iter := by
      rcases hj with hj | hj
      · exact Or.inl (by rw [hj]; rfl)
      · exact Or.inr hj
    refine ⟨h1, h2, ?_, ?_, ?_⟩
    · omega
    · intro hc; omega
    · intro hc; omega
  · intro v c hc
    refine ⟨_, bound_attained v c hc, ?_, ?_⟩
    · simp only [List.length_replicate]; omega
    · intro h2
      simp only [List.length_replicate]; omega

/-- Capacity 2: after two pushes, one read and two more pushes, value 2 waits in
the cache and values 3 and 4 in the shared queue, three undelivered values in
a channel of capacity 2. -/
theorem buffered_bound_witness :
    run (history.init 2)
        [op.emplace 1, op.emplace 2, op.get, op.emplace 3, op.emplace 4]
      = some
        { chan :=
            { shared := { shared := { data := [3, 4], in_dead := false, out_dead := false },
                          max_size := 2 }
              producer := { did_close := false }
              consumer := { cache := [1, 2], cache_iter := 1, did_close := false } }
          pushed := [1, 2, 3, 4]
          received := [1] } ∧
    (1 ≤ 2 ∧ ([1, 2] : List Nat).length ≤ 2 ∧
      (([1, 2] : List Nat).length - 1) + ([3, 4] : List Nat).length ≤ 2 * 2 - 1 ∧
      (1 ≤ 2 → (([1, 2] : List Nat).length - 1) + ([3, 4] : List Nat).length + 1 ≤ 2 * 2) ∧
      (2 = 0 → (([1, 2] : List Nat).length - 1) + ([3, 4] : List Nat).length = 0)) :=
  ⟨by decide,
    buffered_bound.1 2 [op.emplace 1, op.emplace 2, op.get, op.emplace 3, op.emplace 4]
      { chan :=
          { shared := { shared := { data := [3, 4], in_dead := false, out_dead := false },
                        max_size := 2 }
            producer := { did_close := false }
            consumer := { cache := [1, 2], cache_iter := 1, did_close := false } }
        pushed := [1, 2, 3, 4]
        received := [1] } (by decide)⟩

end channel

namespace perf_report

/-! ## 64-bit values -/

theorem int64_t_of_in (x : Int) (h : in_int64 x) : int64_t x = x := by
  unfold in_int64 at h
  unfold int64_t
  omega

theorem int64_t_in (x : Int) : in_int64 (int64_t x) := by
  unfold in_int64 int64_t
  omega

theorem int64_t_add_left (x y : Int) : int64_t (int64_t x + y) = int64_t (x + y) := by
  unfold int64_t
  omega

theorem int64_t_add_right (x y : Int) : int64_t (x + int64_t y) = int64_t (x + y) := by
  unfold int64_t
  omega

/-! ## Duration text -/

theorem toDigitsCore_length_pos (fuel n : Nat) (ds : List Char) (hf : 0 < fuel) :
    ds.length + 1 ≤ (Nat.toDigitsCore 10 fuel n ds).length := by
  induction fuel generalizing n ds with
  | zero => exact absurd hf (Nat.lt_irrefl 0)
  | succ f ih =>
    simp only [Nat.toDigitsCore]
    split_ifs with h0
    · simp
    · have hf0 : 0 < f ∨ f = 0 := by omega
      rcases hf0 with hpos | hzero
      · have := ih (n / 10) (Nat.digitChar (n % 10) :: ds) hpos
        simp only [List.length_cons] at this
        omega
      · subst hzero
        simp [Nat.toDigitsCore]

theorem toDigits_one (n : Nat) (h : n < 10) : Nat.toDigits 10 n = [Nat.digitChar n] := by
  have h0 : n / 10 = 0 := Nat.div_eq_of_lt h
  have h1 : n % 10 = n := Nat.mod_eq_of_lt h
  simp [Nat.toDigits, Nat.toDigitsCore, h0, h1]

theorem toDigits_two (n : Nat) (hlo : 10 ≤ n) (hhi : n < 100) :
    Nat.toDigits 10 n = [Nat.digitChar (n / 10), Nat.digitChar (n % 10)] := by
  obtain ⟨k, rfl⟩ : ∃ k, n = k + 1 := ⟨n - 1, by omega⟩
  have h0 : (k + 1) / 10 ≠ 0 := by omega
  have h1 : (k + 1) / 10 / 10 = 0 := by omega
  have h2 : (k + 1) / 10 % 10 = (k + 1) / 10 := by omega
  simp [Nat.toDigits, Nat.toDigitsCore, h0, h1, h2]

theorem toDigits_three (n : Nat) (hlo : 100 ≤ n) (hhi : n < 1000) :
    Nat.toDigits 10 n
      = [Nat.digitChar (n / 100), Nat.digitChar (n / 10 % 10), Nat.digitChar (n % 10)] := by
  obtain ⟨k, rfl⟩ : ∃ k, n = k + 2 := ⟨n - 2, by omega⟩
  have h0 : (k + 2) / 10 ≠ 0 := by omega
  have h1 : (k + 2) / 10 / 10 ≠ 0 := by omega
  have h2 : (k + 2) / 10 / 10 / 10 = 0 := by omega
  have h3 : (k + 2) / 10 / 10 % 10 = (k + 2) / 100 := by omega
  simp [Nat.toDigits, Nat.toDigitsCore, h0, h1, h2, h3]

theorem toDigits_length_two (n : Nat) (hlo : 10 ≤ n) : 2 ≤ (Nat.toDigits 10 n).length := by
  obtain ⟨k, rfl⟩ : ∃ k, n = k + 1 := ⟨n - 1, by omega⟩
  have h0 : (k + 1) / 10 ≠ 0 := by omega
  simp only [Nat.toDigits, Nat.toDigitsCore, h0, if_false]
  have := toDigitsCore_length_pos (k + 1) ((k + 1) / 10) [Nat.digitChar ((k + 1) % 10)]
    (Nat.succ_pos k)
  simpa using this

theorem put_int_two (n : Nat) (h : n < 100) : put_int '0' 2 (n : Int) = fixed_digits 2 n := by
  have hneg : ¬ ((n : Int) < 0) := by omega
  simp only [put_int, hneg, if_false, Int.toNat_ofNat, fixed_digits, List.nil_append,
    List.singleton_append]
  by_cases h10 : n < 10
  · have h0 : n / 10 % 10 = 0 := by omega
    have h1 : n % 10 = n := by omega
    rw [toDigits_one n h10, h0, h1]
    rfl
  · have h0 : n / 10 % 10 = n / 10 := by omega
    rw [toDigits_two n (by omega) h, h0]
    rfl

theorem put_int_three (n : Nat) (h : n < 1000) :
    put_int '0' 3 (n : Int) = fixed_digits 3 n := by
  have hneg : ¬ ((n : Int) < 0) := by omega
  simp only [put_int, hneg, if_false, Int.toNat_ofNat, fixed_digits, List.nil_append,
    List.singleton_append, List.cons_append]
  by_cases h10 : n < 10
  · have h0 : n / 10 / 10 % 10 = 0 := by omega
    have h1 : n / 10 % 10 = 0 := by omega
    have h2 : n % 10 = n := by omega
    rw [toDigits_one n h10, h0, h1, h2]
    rfl
  · by_cases h100 : n < 100
    · have h0 : n / 10 / 10 % 10 = 0 := by omega
      have h1 : n / 10 % 10 = n / 10 := by omega
      rw [toDigits_two n (by omega) h100, h0, h1]
      rfl
    · have h0 : n / 10 / 10 % 10 = n / 100 := by omega
      rw [toDigits_three n (by omega) h, h0]
      rfl

theorem put_int_wide (n : Nat) (h : 10 ≤ n) : put_int '0' 2 (n : Int) = Nat.toDigits 10 n := by
  have hneg : ¬ ((n : Int) < 0) := by omega
  have hl := toDigits_length_two n h
  simp only [put_int, hneg, if_false, Int.toNat_ofNat]
  have : 2 - (Nat.toDigits 10 n).length = 0 := by omega
  rw [this]
  rfl

theorem ctor_ofNat (n : Nat) :
    SplitDuration.ctor (n : Int)
      = { h := ((n / 3600000000000 : Nat) : Int)
          m := ((n / 60000000000 % 60 : Nat) : Int)
          s := ((n / 1000000000 % 60 : Nat) : Int)
          ms := ((n / 1000000 % 1000 : Nat) : Int)
          us := ((n / 1000 % 1000 : Nat) : Int)
          ns := ((n % 1000 : Nat) : Int) } := by
  have e1 : (n : Int).tdiv 3600000000000 = ((n / 3600000000000 : Nat) : Int) :=
    (Int.ofNat_tdiv n 3600000000000).symm
  have d1 : (n : Int) - ((n / 3600000000000 : Nat) : Int) * 3600000000000
      = ((n % 3600000000000 : Nat) : Int) := by omega
  have e2 : ((n % 3600000000000 : Nat) : Int).tdiv 60000000000
      = ((n / 60000000000 % 60 : Nat) : Int) := by
    have h := (Int.ofNat_tdiv (n % 3600000000000) 60000000000).symm
    have hn : n % 3600000000000 / 60000000000 = n / 60000000000 % 60 := by omega
    rw [hn] at h
    exact h
  have d2 : ((n % 3600000000000 : Nat) : Int) - ((n / 60000000000 % 60 : Nat) : Int) * 60000000000
      = ((n % 60000000000 : Nat) : Int) := by omega
  have e3 : ((n % 60000000000 : Nat) : Int).tdiv 1000000000
      = ((n / 1000000000 % 60 : Nat) : Int) := by
    have h := (Int.ofNat_tdiv (n % 60000000000) 1000000000).symm
    have hn : n % 60000000000 / 1000000000 = n / 1000000000 % 60 := by omega
    rw [hn] at h
    exact h
  have d3 : ((n % 60000000000 : Nat) : Int) - ((n / 1000000000 % 60 : Nat) : Int) * 1000000000
      = ((n % 1000000000 : Nat) : Int) := by omega
  have e4 : ((n % 1000000000 : Nat) : Int).tdiv 1000000
      = ((n / 1000000 % 1000 : Nat) : Int) := by
    have h := (Int.ofNat_tdiv (n % 1000000000) 1000000).symm
    have hn : n % 1000000000 / 1000000 = n / 1000000 % 1000 := by omega
    rw [hn] at h
    exact h
  have d4 : ((n % 1000000000 : Nat) : Int) - ((n / 1000000 % 1000 : Nat) : Int) * 1000000
      = ((n % 1000000 : Nat) : Int) := by omega
  have e5 : ((n % 1000000 : Nat) : Int).tdiv 1000
      = ((n / 1000 % 1000 : Nat) : Int) := by
    have h := (Int.ofNat_tdiv (n % 1000000) 1000).symm
    have hn : n % 1000000 / 1000 = n / 1000 % 1000 := by omega
    rw [hn] at h
    exact h
  have d5 : ((n % 1000000 : Nat) : Int) - ((n / 1000 % 1000 : Nat) : Int) * 1000
      = ((n % 1000 : Nat) : Int) := by omega
  simp only [SplitDuration.ctor, e1, d1, e2, d2, e3, d3, e4, d4, e5, d5]

theorem print_ofNat (n : Nat) :
    (SplitDuration.ctor (n : Int)).print = duration_text n := by
  rw [ctor_ofNat]
  simp only [SplitDuration.print, duration_text]
  have hm : n / 60000000000 % 60 < 100 := by omega
  have hs : n / 1000000000 % 60 < 100 := by omega
  have hms : n / 1000000 % 1000 < 1000 := by omega
  have hus : n / 1000 % 1000 < 1000 := by omega
  have em : n / 1000 / 60000000 % 60 = n / 60000000000 % 60 := by omega
  have es : n / 1000 / 1000000 % 60 = n / 1000000000 % 60 := by omega
  have ems : n / 1000 / 1000 % 1000 = n / 1000000 % 1000 := by omega
  have eh : n / 1000 / 3600000000 = n / 3600000000000 := by omega
  rw [put_int_two _ hm, put_int_two _ hs, put_int_three _ hms, put_int_three _ hus, em, es,
    ems, eh]
  by_cases hh : n / 3600000000000 < 100
  · rw [put_int_two _ hh, if_pos hh]
  · rw [put_int_wide _ (by omega), if_neg hh]

theorem fixed_digits_length (k n : Nat) : (fixed_digits k n).length = k := by
  induction k generalizing n with
  | zero => rfl
  | succ k ih => simp [fixed_digits, ih]

/-- C14, as stated, fails at its own example: 3 723 456 789 ns is 3.723 456 789
seconds, and the text written for it is `00:00:03.723-456`, not
`01:02:03.456-789`. -/
theorem duration_example_counterexample :
    String.mk (SplitDuration.ctor 3723456789).print = "00:00:03.723-456" ∧
    ¬ (String.mk (SplitDuration.ctor 3723456789).print = "01:02:03.456-789") := by
  decide

/-- C14 (duration text, amended). For every non-negative duration of `d` nanoseconds the
text written for `SplitDuration(d)` is the hours padded with zeros to two
digits (all their digits from 100 hours on), `:`, two digits of minutes, `:`,
two digits of seconds, `.`, three digits of milliseconds, `-` and three digits
of microseconds; below 100 hours it has 16 characters.  The text depends on
the whole microseconds only: durations with the same `d / 1000` print the
same. -/
theorem duration_format (d : Int) (hd : 0 ≤ d) :
    (SplitDuration.ctor d).print = duration_text d.toNat ∧
    (SplitDuration.ctor d).print
      = (if d.toNat / 3600000000000 < 100 then fixed_digits 2 (d.toNat / 3600000000000)
          else Nat.toDigits 10 (d.toNat / 3600000000000))
        ++ [':'] ++ fixed_digits 2 (d.toNat / 60000000000 % 60)
        ++ [':'] ++ fixed_digits 2 (d.toNat / 1000000000 % 60)
        ++ ['.'] ++ fixed_digits 3 (d.toNat / 1000000 % 1000)
        ++ ['-'] ++ fixed_digits 3 (d.toNat / 1000 % 1000) ∧
    (d < 360000000000000 → (SplitDuration.ctor d).print.length = 16) ∧
    (∀ d1 : Int, 0 ≤ d1 → d1 / 1000 = d / 1000 →
      (SplitDuration.ctor d1).print = (SplitDuration.ctor d).print) := by
  obtain ⟨n, rfl⟩ := Int.eq_ofNat_of_zero_le hd
  have hp := print_ofNat n
  refine ⟨by simpa using hp, ?_, ?_, ?_⟩
  · rw [hp]
    simp only [duration_text, Int.toNat_ofNat]
    have em : n / 1000 / 60000000 % 60 = n / 60000000000 % 60 := by omega
    have es : n / 1000 / 1000000 % 60 = n / 1000000000 % 60 := by omega
    have ems : n / 1000 / 1000 % 1000 = n / 1000000 % 1000 := by omega
    have eh : n / 1000 / 3600000000 = n / 3600000000000 := by omega
    rw [em, es, ems, eh]
  · intro hlt
    have hh : n / 1000 / 3600000000 < 100 := by omega
    rw [hp]
    simp [duration_text, hh, fixed_digits_length]
  · intro d1 hd1 heq
    obtain ⟨n1, rfl⟩ := Int.eq_ofNat_of_zero_le hd1
    have hn : n1 / 1000 = n / 1000 := by omega
    rw [hp, print_ofNat n1]
    simp only [duration_text, hn]

/-- The duration 3 723 456 789 000 ns (one hour, two minutes, 3.456 789 seconds)
prints `01:02:03.456-789`, and so does the same duration with its last three
digits changed. -/
theorem duration_format_witness :
    String.mk (SplitDuration.ctor 3723456789000).print = "01:02:03.456-789" ∧
    String.mk (duration_text 3723456789000) = "01:02:03.456-789" ∧
    String.mk (SplitDuration.ctor 3723456789999).print = "01:02:03.456-789" :=
  ⟨by decide, by decide,
    congrArg String.mk (((duration_format 3723456789000 (by decide)).2.2.2 3723456789999
      (by decide) (by decide)).trans (by decide))⟩

/-! ## Overview recorder -/

theorem at_nil (b : BlockIdentity) : umap.at { entries := [] } b = 0 := rfl

theorem at_cons (k1 : BlockIdentity) (x : Int) (rest : List (BlockIdentity × Int))
    (b : BlockIdentity) :
    umap.at { entries := (k1, x) :: rest } b
      = if k1 = b then x else umap.at { entries := rest } b := by
  by_cases h : k1 = b
  · simp [umap.at, List.find?_cons, h]
  · simp [umap.at, List.find?_cons, h]

theorem at_add_entries (l : List (BlockIdentity × Int)) (k b : BlockIdentity) (v : Int) :
    umap.at { entries := umap.add_entries l k v } b
      = umap.at { entries := l } b + (if b = k then v else 0) := by
  induction l with
  | nil =>
    simp only [umap.add_entries, at_cons, at_nil]
    by_cases hb : b = k
    · subst hb; simp
    · have hk : ¬ k = b := fun h => hb h.symm
      simp [hb, hk]
  | cons p rest ih =>
    obtain ⟨k1, x⟩ := p
    simp only [umap.add_entries]
    by_cases h1 : k1 = k
    · subst h1
      simp only [if_true, at_cons]
      by_cases hb : k1 = b
      · subst hb; simp
      · have hk : ¬ b = k1 := fun h => hb h.symm
        simp [hb, hk]
    · simp only [h1, if_false, at_cons, ih]
      by_cases hb : k1 = b
      · subst hb
        simp [h1]
      · simp [hb]

theorem umap.at_add (m : umap) (k b : BlockIdentity) (v : Int) :
    (m.add k v).at b = m.at b + (if b = k then v else 0) := by
  obtain ⟨l⟩ := m
  exact at_add_entries l k b v

theorem umap.total_add (m : umap) (k : BlockIdentity) (v : Int) :
    (m.add k v).total = m.total + v := by
  obtain ⟨l⟩ := m
  simp only [umap.add, umap.total]
  induction l with
  | nil => simp [umap.add_entries]
  | cons p rest ih =>
    obtain ⟨k1, x⟩ := p
    simp only [umap.add_entries]
    split_ifs with h1
    · simp; ring
    · simp only [List.map_cons, List.sum_cons, ih]; ring

theorem open_time_cons (b : BlockIdentity) (t : Int) (o : OpenEvent) (rest : List OpenEvent) :
    open_time b t (o :: rest)
      = (if o.source = b ∧ o.start ≤ t then t - o.start else 0) + open_time b t rest := by
  by_cases h : o.source = b ∧ o.start ≤ t
  · simp [open_time, List.filter_cons, h.1, h.2]
  · rw [if_neg h]
    rw [not_and_or] at h
    rcases h with h | h
    · simp [open_time, List.filter_cons, h]
    · simp [open_time, List.filter_cons, h]

theorem open_time_nonneg (b : BlockIdentity) (t : Int) :
    ∀ stack : List OpenEvent, 0 ≤ open_time b t stack
  | [] => by simp [open_time]
  | o :: rest => by
    rw [open_time_cons]
    have ih := open_time_nonneg b t rest
    split_ifs with h
    · have := h.2; omega
    · omega

theorem open_time_mono (b : BlockIdentity) (t1 t2 : Int) (h12 : t1 ≤ t2) :
    ∀ stack : List OpenEvent, open_time b t1 stack ≤ open_time b t2 stack
  | [] => by simp [open_time]
  | o :: rest => by
    rw [open_time_cons, open_time_cons]
    have ih := open_time_mono b t1 t2 h12 rest
    by_cases h1 : o.source = b ∧ o.start ≤ t1
    · have h2 : o.source = b ∧ o.start ≤ t2 := ⟨h1.1, le_trans h1.2 h12⟩
      rw [if_pos h1, if_pos h2]
      omega
    · rw [if_neg h1]
      split_ifs with h2
      · have := h2.2; omega
      · omega

theorem at_add64_entries (l : List (BlockIdentity × Int)) (k b : BlockIdentity) (v : Int) :
    umap.at { entries := umap.add64_entries l k v } b
      = if b = k then int64_t (umap.at { entries := l } b + v)
        else umap.at { entries := l } b := by
  induction l with
  | nil =>
    simp only [umap.add64_entries, at_cons, at_nil]
    by_cases hb : b = k
    · subst hb; simp
    · have hk : ¬ k = b := fun h => hb h.symm
      simp [hb, hk]
  | cons p rest ih =>
    obtain ⟨k1, x⟩ := p
    simp only [umap.add64_entries]
    by_cases h1 : k1 = k
    · subst h1
      simp only [if_true, at_cons]
      by_cases hb : k1 = b
      · subst hb; simp
      · have hk : ¬ b = k1 := fun h => hb h.symm
        simp [hb, hk]
    · simp only [h1, if_false, at_cons, ih]
      by_cases hb : k1 = b
      · subst hb
        have hk : ¬ k1 = k := h1
        simp [hk]
      · simp [hb]

theorem umap.at_add64 (m : umap) (k b : BlockIdentity) (v : Int) :
    (m.add64 k v).at b = if b = k then int64_t (m.at b + v) else m.at b := by
  obtain ⟨l⟩ := m
  exact at_add64_entries l k b v

/-- The value `as_of` leaves at a block is the exact sum reduced to 64 bits. -/
theorem as_of_loop_int64 (t : Int) (b : BlockIdentity) :
    ∀ (stack : List OpenEvent) (m : umap),
      int64_t ((ThreadOverviewReport.as_of_loop t m stack).at b)
        = int64_t (m.at b + open_time b t stack)
  | [], m => by simp [ThreadOverviewReport.as_of_loop, open_time]
  | o :: rest, m => by
    simp only [ThreadOverviewReport.as_of_loop, open_time_cons]
    by_cases hgt : o.start > t
    · have hle : ¬ o.start ≤ t := not_le.mpr hgt
      rw [if_pos hgt, as_of_loop_int64 t b rest m]
      simp [hle]
    · have hle : o.start ≤ t := not_lt.mp hgt
      rw [if_neg hgt, as_of_loop_int64 t b rest _, umap.at_add64]
      by_cases hb : b = o.source
      · subst hb
        simp only [if_true, true_and, hle]
        unfold int64_t
        omega
      · have hk : ¬ o.source = b := fun h => hb h.symm
        simp [hb, hk]

/-- A 64-bit value stays one. -/
theorem as_of_loop_in (t : Int) (b : BlockIdentity) :
    ∀ (stack : List OpenEvent) (m : umap), in_int64 (m.at b) →
      in_int64 ((ThreadOverviewReport.as_of_loop t m stack).at b)
  | [], m => by
    intro h
    simpa [ThreadOverviewReport.as_of_loop] using h
  | o :: rest, m => by
    intro h
    simp only [ThreadOverviewReport.as_of_loop]
    by_cases hgt : o.start > t
    · rw [if_pos hgt]
      exact as_of_loop_in t b rest m h
    · rw [if_neg hgt]
      apply as_of_loop_in t b rest
      rw [umap.at_add64]
      split_ifs
      · exact int64_t_in _
      · exact h

/-- Blocks without a contributing open event keep the value of the map. -/
theorem as_of_loop_untouched (t : Int) (b : BlockIdentity) :
    ∀ (stack : List OpenEvent) (m : umap),
      (∀ o ∈ stack, o.source = b → t < o.start) →
      (ThreadOverviewReport.as_of_loop t m stack).at b = m.at b
  | [], m => by
    intro _
    simp [ThreadOverviewReport.as_of_loop]
  | o :: rest, m => by
    intro h
    simp only [ThreadOverviewReport.as_of_loop]
    have hrest : ∀ o1 ∈ rest, o1.source = b → t < o1.start :=
      fun o1 ho1 => h o1 (List.mem_cons_of_mem _ ho1)
    by_cases hgt : o.start > t
    · rw [if_pos hgt]
      exact as_of_loop_untouched t b rest m hrest
    · rw [if_neg hgt, as_of_loop_untouched t b rest _ hrest, umap.at_add64]
      have hb : ¬ b = o.source := by
        intro hb
        exact hgt (h o (List.mem_cons_self _ _) hb.symm)
      simp [hb]

theorem as_of_exact (r : ThreadOverviewReport) (t : Int) (b : BlockIdentity)
    (hcul : in_int64 (r.cul_time.at b))
    (hfit : in_int64 (r.cul_time.at b + open_time b t r.stack)) :
    (r.as_of t).at b = r.cul_time.at b + open_time b t r.stack := by
  have h1 := as_of_loop_int64 t b r.stack r.cul_time
  have h2 := as_of_loop_in t b r.stack r.cul_time hcul
  rw [int64_t_of_in _ h2, int64_t_of_in _ hfit] at h1
  exact h1

theorem run_applied (s : recorder_use) :
    ∀ (cs : List recorder_call) (s1 : recorder_use), recorder_use.run s cs = some s1 →
      s.recorder.run (applied_events cs) = some s1.recorder ∧
      s.returned <+: s1.returned := by
  intro cs
  induction cs generalizing s with
  | nil =>
    intro s1 h
    simp only [recorder_use.run, Option.some.injEq] at h
    subst h
    exact ⟨rfl, List.prefix_refl _⟩
  | cons c cs ih =>
    intro s1 h
    cases c with
    | apply e =>
      simp only [recorder_use.run, recorder_use.step] at h
      cases hr : s.recorder.apply e with
      | none => simp [hr] at h
      | some r1 =>
        simp only [hr, Option.map_some', Option.some_bind] at h
        have h2 := ih _ s1 h
        simp only [applied_events, ThreadOverviewReport.run, hr, Option.some_bind]
        exact h2
    | as_of tp =>
      simp only [recorder_use.run, recorder_use.step, Option.some_bind] at h
      have h2 := ih _ s1 h
      simp only [applied_events]
      exact ⟨h2.1, (List.prefix_append _ _).trans h2.2⟩

/-- C16, as stated, fails where the sum leaves the 64-bit range.  With block 7
open since the least 64-bit time point (the state after that one
`begin_event`) and nothing accumulated, `as_of(1)`
holds -9223372036854775807 at block 7, while `cul_time[7]` plus `t - start` is
0 + (1 + 9223372036854775808) = 9223372036854775809. -/
theorem snapshot_value_counterexample :
    ThreadOverviewReport.empty.run
        [event.begin_event { source := 7, start := -9223372036854775808 }]
      = some { now := 0, stack := [{ source := 7, start := -9223372036854775808 }],
               cul_time := umap.empty } ∧
    (ThreadOverviewReport.as_of
        { now := 0, stack := [{ source := 7, start := -9223372036854775808 }],
          cul_time := umap.empty } 1).at 7 = -9223372036854775807 ∧
    umap.empty.at 7 + open_time 7 1 [{ source := 7, start := -9223372036854775808 }]
      = 9223372036854775809 := by
  decide

/-- C16 (overview snapshot, amended). For every recorder state, time point `t`
and block `b`, the value of the map returned by `as_of(t)` at `b` is
`cul_time[b]` plus the sum of `t − start` over the open events on the stack
with source `b` and `start ≤ t`, formed in 64-bit arithmetic: the two agree as
64-bit values, the returned value is a 64-bit value when `cul_time[b]` is one,
and it is the exact sum whenever that sum is a 64-bit value too.  A block none
of whose open events started by `t` keeps `cul_time[b]`, and an open event that
starts after `t` contributes nothing to the sum.  The call returns, leaves the
recorder as it is and hands out the map by value; whatever calls follow, the
recorder is the one the events alone produce and the maps returned before are
still the first ones held, unchanged. -/
theorem overview_snapshot (r : ThreadOverviewReport) (t : Int) (b : BlockIdentity) :
    int64_t ((r.as_of t).at b) = int64_t (r.cul_time.at b + open_time b t r.stack) ∧
    (in_int64 (r.cul_time.at b) → in_int64 ((r.as_of t).at b)) ∧
    (in_int64 (r.cul_time.at b) → in_int64 (r.cul_time.at b + open_time b t r.stack) →
      (r.as_of t).at b = r.cul_time.at b + open_time b t r.stack) ∧
    ((∀ o ∈ r.stack, o.source = b → t < o.start) → (r.as_of t).at b = r.cul_time.at b) ∧
    (∀ o ∈ r.stack, t < o.start →
      open_time b t r.stack = open_time b t (r.stack.filter (fun x => x != o))) ∧
    (∀ returned : List umap,
      recorder_use.step { recorder := r, returned := returned } (recorder_call.as_of t)
        = some { recorder := r, returned := returned ++ [r.as_of t] }) ∧
    (∀ (returned : List umap) (cs : List recorder_call) (s1 : recorder_use),
      recorder_use.run { recorder := r, returned := returned ++ [r.as_of t] } cs = some s1 →
        r.run (applied_events cs) = some s1.recorder ∧
        returned ++ [r.as_of t] <+: s1.returned) := by
  refine ⟨as_of_loop_int64 t b r.stack r.cul_time, as_of_loop_in t b r.stack r.cul_time,
    as_of_exact r t b, as_of_loop_untouched t b r.stack r.cul_time, ?_, ?_, ?_⟩
  · intro o ho hlt
    have hnle : ¬ o.start ≤ t := not_le.mpr hlt
    simp only [open_time, List.filter_filter]
    congr 2
    apply List.filter_congr
    intro x _
    by_cases hx : x = o
    · subst hx; simp [hnle]
    · simp [hx]
  · intro returned
    rfl
  · intro returned cs s1 h
    exact run_applied _ cs s1 h

/-- Block 7 opened at 0: the snapshot at 7 ms shows 7 ms.  After the block is
closed at 12 ms a new snapshot shows 12 ms, and the first snapshot still shows
7 ms. -/
theorem overview_snapshot_witness :
    recorder_use.run
        { recorder := { now := 0, stack := [{ source := 7, start := 0 }],
                        cul_time := umap.empty },
          returned := [] }
        [recorder_call.as_of 7000000,
         recorder_call.apply (event.end_event { source := 7, end_ := 12000000 }),
         recorder_call.as_of 12000000]
      = some
        { recorder := { now := 0, stack := [], cul_time := { entries := [(7, 12000000)] } },
          returned := [{ entries := [(7, 7000000)] }, { entries := [(7, 12000000)] }] } ∧
    (in_int64 (umap.empty.at 7) ∧
      in_int64 (umap.empty.at 7 + open_time 7 7000000 [{ source := 7, start := 0 }])) ∧
    (ThreadOverviewReport.as_of
        { now := 0, stack := [{ source := 7, start := 0 }], cul_time := umap.empty }
        7000000).at 7
      = umap.empty.at 7 + open_time 7 7000000 [{ source := 7, start := 0 }] ∧
    umap.empty.at 7 + open_time 7 7000000 [{ source := 7, start := 0 }] = 7000000 :=
  ⟨by decide, ⟨by unfold in_int64; decide, by unfold in_int64; decide⟩,
    (overview_snapshot
      { now := 0, stack := [{ source := 7, start := 0 }], cul_time := umap.empty }
      7000000 7).2.2.1 (by unfold in_int64; decide) (by unfold in_int64; decide),
    by decide⟩

/-! ## Folded print -/

mutual
theorem collapsed_lines_sum (c_str : BlockIdentity → String) (max_depth : Nat) :
    ∀ (path : String) (node : Node),
      ((collapsed_lines c_str max_depth path node).map Prod.snd).sum = node.time_spent
  | path, Node.mk depth t cs => by
    simp only [collapsed_lines, Node.time_spent]
    split_ifs with hd
    · simp only [List.map_append, List.sum_append, List.map_cons, List.map_nil,
        List.sum_cons, List.sum_nil, collapsed_children_sum c_str max_depth path cs]
      ring
    · simp
theorem collapsed_children_sum (c_str : BlockIdentity → String) (max_depth : Nat) :
    ∀ (path : String) (cs : Children),
      ((collapsed_children c_str max_depth path cs).map Prod.snd).sum = cs.time_spent
  | _, Children.nil => by simp [collapsed_children, Children.time_spent]
  | path, Children.cons id child rest => by
    simp only [collapsed_children, Children.time_spent, List.map_append, List.sum_append,
      collapsed_lines_sum c_str max_depth (path ++ ";" ++ c_str id) child,
      collapsed_children_sum c_str max_depth path rest]
end

mutual
theorem PrintCollapsedNode_spec (c_str : BlockIdentity → String) (max_depth : Nat) :
    ∀ (path : String) (node : Node) (lines : List (String × Int)) (r : Int),
      PrintCollapsedNode c_str max_depth path node = some (lines, r) →
        lines = collapsed_lines c_str max_depth path node ∧ r = node.time_spent
  | path, Node.mk depth t cs, lines, r => by
    intro h
    simp only [PrintCollapsedNode] at h
    simp only [collapsed_lines, Node.time_spent]
    split_ifs at h ⊢ with hd
    · cases hl : PrintCollapsedLoop c_str max_depth path cs with
      | none => simp [hl] at h
      | some p =>
        obtain ⟨l1, t1⟩ := p
        have hs := PrintCollapsedLoop_spec c_str max_depth path cs l1 t1 hl
        simp only [hl] at h
        split_ifs at h with hle
        simp only [Option.some.injEq, Prod.mk.injEq] at h
        rw [← h.1, ← h.2, hs.1, hs.2]
        exact ⟨rfl, rfl⟩
    · simp only [Option.some.injEq, Prod.mk.injEq, sub_zero] at h
      exact ⟨h.1.symm, h.2.symm⟩
theorem PrintCollapsedLoop_spec (c_str : BlockIdentity → String) (max_depth : Nat) :
    ∀ (path : String) (cs : Children) (lines : List (String × Int)) (r : Int),
      PrintCollapsedLoop c_str max_depth path cs = some (lines, r) →
        lines = collapsed_children c_str max_depth path cs ∧ r = cs.time_spent
  | _, Children.nil, lines, r => by
    intro h
    simp only [PrintCollapsedLoop, Option.some.injEq, Prod.mk.injEq] at h
    simp [collapsed_children, Children.time_spent, h.1.symm, h.2.symm]
  | path, Children.cons id child rest, lines, r => by
    intro h
    simp only [PrintCollapsedLoop] at h
    cases h1 : PrintCollapsedNode c_str max_depth (path ++ ";" ++ c_str id) child with
    | none => simp [h1] at h
    | some p1 =>
      obtain ⟨l1, t1⟩ := p1
      cases h2 : PrintCollapsedLoop c_str max_depth path rest with
      | none => simp [h1, h2] at h
      | some p2 =>
        obtain ⟨l2, t2⟩ := p2
        have hs1 := PrintCollapsedNode_spec c_str max_depth _ child l1 t1 h1
        have hs2 := PrintCollapsedLoop_spec c_str max_depth path rest l2 t2 h2
        simp only [h1, h2, Option.some.injEq, Prod.mk.injEq] at h
        rw [← h.1, ← h.2, hs1.1, hs1.2, hs2.1, hs2.2]
        simp [collapsed_children, Children.time_spent]
end

mutual
theorem PrintCollapsedNode_conserved (c_str : BlockIdentity → String) (max_depth : Nat) :
    ∀ (path : String) (node : Node), node.conserved = true →
      PrintCollapsedNode c_str max_depth path node
        = some (collapsed_lines c_str max_depth path node, node.time_spent)
  | path, Node.mk depth t cs => by
    intro hc
    simp only [Node.conserved, Bool.and_eq_true, decide_eq_true_eq] at hc
    simp only [PrintCollapsedNode, collapsed_lines, Node.time_spent]
    split_ifs with hd
    · rw [PrintCollapsedLoop_conserved c_str max_depth path cs hc.2]
      simp [hc.1]
    · simp
theorem PrintCollapsedLoop_conserved (c_str : BlockIdentity → String) (max_depth : Nat) :
    ∀ (path : String) (cs : Children), cs.conserved = true →
      PrintCollapsedLoop c_str max_depth path cs
        = some (collapsed_children c_str max_depth path cs, cs.time_spent)
  | _, Children.nil => by
    intro _
    simp [PrintCollapsedLoop, collapsed_children, Children.time_spent]
  | path, Children.cons id child rest => by
    intro hc
    simp only [Children.conserved, Bool.and_eq_true] at hc
    simp only [PrintCollapsedLoop, collapsed_children, Children.time_spent,
      PrintCollapsedNode_conserved c_str max_depth _ child hc.1,
      PrintCollapsedLoop_conserved c_str max_depth path rest hc.2]
end

/-- C17 (folded sums). For every tree, every `max_depth` and every start path:
whenever `PrintCollapsedNode` returns (no assertion fails), the numbers of the
lines it wrote add up to the node's `time_spent` in nanoseconds, which is also
the value returned, and the lines are these: a node at depth `max_depth` or
deeper gives the single line with its full `time_spent` and nothing of its
descendants; any other node gives the lines of its children followed by its
own line with `time_spent(node)` minus the sum of its children's
`time_spent`.  On a tree that conserves time at every node the function does
return. -/
theorem folded_sums (c_str : BlockIdentity → String) (max_depth : Nat) (path : String)
    (node : Node) :
    (∀ (lines : List (String × Int)) (r : Int),
      PrintCollapsedNode c_str max_depth path node = some (lines, r) →
        (lines.map Prod.snd).sum = node.time_spent ∧ r = node.time_spent ∧
        lines = collapsed_lines c_str max_depth path node) ∧
    (max_depth ≤ node.depth →
      collapsed_lines c_str max_depth path node = [(path, node.time_spent)]) ∧
    (node.depth < max_depth →
      collapsed_lines c_str max_depth path node
        = collapsed_children c_str max_depth path node.children_view
          ++ [(path, node.time_spent - node.children_view.time_spent)]) ∧
    (node.conserved = true →
      PrintCollapsedNode c_str max_depth path node
        = some (collapsed_lines c_str max_depth path node, node.time_spent)) := by
  refine ⟨?_, ?_, ?_, ?_⟩
  · intro lines r h
    have hs := PrintCollapsedNode_spec c_str max_depth path node lines r h
    refine ⟨?_, hs.2, hs.1⟩
    rw [hs.1]
    exact collapsed_lines_sum c_str max_depth path node
  · intro hd
    obtain ⟨d, t, cs⟩ := node
    simp only [Node.depth] at hd
    simp [collapsed_lines, Node.time_spent, Nat.not_lt.mpr hd]
  · intro hd
    obtain ⟨d, t, cs⟩ := node
    simp only [Node.depth] at hd
    simp [collapsed_lines, Node.time_spent, Node.children_view, hd]
  · exact PrintCollapsedNode_conserved c_str max_depth path node

/-- The example tree printed in full gives `Measured;A;B 10000000`,
`Measured;A 5000000` and `Measured 0`, which add up to the root's 15 ms; cut at
depth 1 it gives `Measured;A 15000000` and `Measured 0`. -/
theorem folded_sums_witness :
    PrintCollapsedNode example_names 10 "Measured" example_tree
      = some ([("Measured;A;B", 10000000), ("Measured;A", 5000000), ("Measured", 0)],
          15000000) ∧
    PrintCollapsedNode example_names 1 "Measured" example_tree
      = some ([("Measured;A", 15000000), ("Measured", 0)], 15000000) ∧
    (([("Measured;A;B", 10000000), ("Measured;A", 5000000), ("Measured", 0)] :
        List (String × Int)).map Prod.snd).sum = example_tree.time_spent :=
  ⟨by decide, by decide,
    ((folded_sums example_names 10 "Measured" example_tree).1
      [("Measured;A;B", 10000000), ("Measured;A", 5000000), ("Measured", 0)] 15000000
      (by decide)).1⟩

/-! ## Overview from a call-stack snapshot -/

theorem keyed_sum_nil (f : Node → Int) (b : BlockIdentity) : keyed_sum f b [] = 0 := rfl

theorem keyed_sum_cons (f : Node → Int) (b : BlockIdentity) (p : BlockIdentity × Node)
    (l : List (BlockIdentity × Node)) :
    keyed_sum f b (p :: l) = (if b = p.1 then f p.2 else 0) + keyed_sum f b l := by
  simp only [keyed_sum, List.filter_cons]
  by_cases hb : b = p.1
  · subst hb; simp
  · have hk : ¬ p.1 = b := fun h => hb h.symm
    simp [hb, hk]

theorem keyed_sum_append (f : Node → Int) (b : BlockIdentity)
    (l1 l2 : List (BlockIdentity × Node)) :
    keyed_sum f b (l1 ++ l2) = keyed_sum f b l1 + keyed_sum f b l2 := by
  simp [keyed_sum, List.filter_append]

/-- The time a node contributes to its block in `CreateOverview`. -/
theorem attributed_eq (relative : Bool) (d : Nat) (t : Int) (cs : Children) :
    (if relative = true then t - cs.time_spent else t)
      = (if relative then Node.self_time else Node.time_spent) (Node.mk d t cs) := by
  cases relative <;> simp [Node.self_time, Node.time_spent, Node.children_view]

mutual
theorem CreateOverview_at (relative : Bool) (b : BlockIdentity) :
    ∀ (m : umap) (id : BlockIdentity) (node : Node),
      (CreateOverview relative m id node).1.at b
          = m.at b + keyed_sum (if relative then Node.self_time else Node.time_spent) b
              (keyed_nodes id node) ∧
        (CreateOverview relative m id node).1.total
          = m.total + (((keyed_nodes id node).map Prod.snd).map
              (if relative then Node.self_time else Node.time_spent)).sum ∧
        (CreateOverview relative m id node).2 = node.time_spent
  | m, id, Node.mk d t cs => by
    have hl := CreateOverviewLoop_at relative b m cs
    simp only [CreateOverview, keyed_nodes, Node.time_spent, umap.at_add, umap.total_add,
      hl.1, hl.2.1, hl.2.2, keyed_sum_cons, List.map_cons, List.sum_cons]
    rw [attributed_eq relative d t cs]
    refine ⟨?_, ?_, trivial⟩
    · by_cases hb : b = id
      · simp only [hb, if_true]; ring
      · simp only [hb, if_false]; ring
    · ring
theorem CreateOverviewLoop_at (relative : Bool) (b : BlockIdentity) :
    ∀ (m : umap) (cs : Children),
      (CreateOverviewLoop relative m cs).1.at b
          = m.at b + keyed_sum (if relative then Node.self_time else Node.time_spent) b
              (keyed_children cs) ∧
        (CreateOverviewLoop relative m cs).1.total
          = m.total + (((keyed_children cs).map Prod.snd).map
              (if relative then Node.self_time else Node.time_spent)).sum ∧
        (CreateOverviewLoop relative m cs).2 = cs.time_spent
  | m, Children.nil => by
    simp [CreateOverviewLoop, keyed_children, keyed_sum_nil, Children.time_spent]
  | m, Children.cons id child rest => by
    have h1 := CreateOverview_at relative b m id child
    have h2 := CreateOverviewLoop_at relative b (CreateOverview relative m id child).1 rest
    simp only [CreateOverviewLoop, keyed_children, Children.time_spent, h2.1, h2.2.1, h2.2.2,
      h1.1, h1.2.1, h1.2.2, keyed_sum_append, List.map_append, List.sum_append]
    refine ⟨?_, ?_, trivial⟩ <;> ring
end

mutual
theorem self_time_sum : ∀ (id : BlockIdentity) (node : Node),
    (((keyed_nodes id node).map Prod.snd).map Node.self_time).sum = node.time_spent
  | id, Node.mk d t cs => by
    simp only [keyed_nodes, List.map_cons, List.sum_cons, self_time_children_sum cs,
      Node.self_time, Node.time_spent, Node.children_view]
    ring
theorem self_time_children_sum : ∀ cs : Children,
    (((keyed_children cs).map Prod.snd).map Node.self_time).sum = cs.time_spent
  | Children.nil => by simp [keyed_children, Children.time_spent]
  | Children.cons id child rest => by
    simp only [keyed_children, List.map_append, List.sum_append, self_time_sum id child,
      self_time_children_sum rest, Children.time_spent]
end

theorem sort_before_iff (p1 p2 : Nat × Int) :
    sort_before p1 p2 = true ↔ (p2.2 < p1.2 ∨ (p1.2 = p2.2 ∧ p2.1 < p1.1)) := by
  simp [sort_before]

theorem sort_before_false_iff (p1 p2 : Nat × Int) :
    sort_before p1 p2 = false ↔ (p1.2 < p2.2 ∨ (p1.2 = p2.2 ∧ p1.1 ≤ p2.1)) := by
  rw [← Bool.not_eq_true, sort_before_iff]
  constructor
  · intro h
    by_cases h1 : p1.2 < p2.2
    · exact Or.inl h1
    · right
      have h2 : ¬ p2.2 < p1.2 := fun h3 => h (Or.inl h3)
      have he : p1.2 = p2.2 := by omega
      refine ⟨he, ?_⟩
      have h4 : ¬ p2.1 < p1.1 := fun h5 => h (Or.inr ⟨he, h5⟩)
      omega
  · rintro (h1 | ⟨he, hl⟩) (h2 | ⟨_, h3⟩) <;> omega

theorem no_inversion_total {α : Type} (key : α → Nat × Int) (a b : α) :
    sort_before (key b) (key a) = false ∨ sort_before (key a) (key b) = false := by
  simp only [sort_before_false_iff]
  by_cases h1 : (key b).2 < (key a).2
  · exact Or.inl (Or.inl h1)
  · by_cases h2 : (key a).2 < (key b).2
    · exact Or.inr (Or.inl h2)
    · have he : (key a).2 = (key b).2 := by omega
      by_cases h3 : (key b).1 ≤ (key a).1
      · exact Or.inl (Or.inr ⟨he.symm, h3⟩)
      · exact Or.inr (Or.inr ⟨he, by omega⟩)

theorem no_inversion_trans {α : Type} (key : α → Nat × Int) (a b c : α)
    (hab : sort_before (key b) (key a) = false) (hbc : sort_before (key c) (key b) = false) :
    sort_before (key c) (key a) = false := by
  simp only [sort_before_false_iff] at hab hbc ⊢
  rcases hab with h1 | ⟨h1, h2⟩ <;> rcases hbc with h3 | ⟨h3, h4⟩
  · exact Or.inl (by omega)
  · exact Or.inl (by omega)
  · exact Or.inl (by omega)
  · exact Or.inr ⟨by omega, by omega⟩

theorem no_inversion_antisymm (a b : Nat × Int)
    (hab : sort_before b a = false) (hba : sort_before a b = false) : a = b := by
  simp only [sort_before_false_iff] at hab hba
  obtain ⟨a1, a2⟩ := a
  obtain ⟨b1, b2⟩ := b
  simp only at hab hba
  have h2 : a2 = b2 := by omega
  have h1 : a1 = b1 := by omega
  rw [h1, h2]

theorem std_sort_perm {α : Type} (key : α → Nat × Int) (l : List α) :
    (std_sort key l).Perm l :=
  List.perm_insertionSort _ l

theorem std_sort_sorted {α : Type} (key : α → Nat × Int) (l : List α) :
    (std_sort key l).Pairwise (fun a b => sort_before (key b) (key a) = false) := by
  haveI : IsTotal α (fun a b => sort_before (key b) (key a) = false) :=
    ⟨fun a b => no_inversion_total key a b⟩
  haveI : IsTrans α (fun a b => sort_before (key b) (key a) = false) :=
    ⟨fun a b c => no_inversion_trans key a b c⟩
  exact List.sorted_insertionSort (fun a b => sort_before (key b) (key a) = false) l

theorem std_sort_map {α β : Type} (key : β → Nat × Int) (f : α → β) (l : List α) :
    (std_sort (fun a => key (f a)) l).map f = std_sort key (l.map f) :=
  List.map_insertionSort _ _ f l (fun _ _ _ _ => Iff.rfl)

theorem std_sort_strict {α : Type} (key : α → Nat × Int) (l : List α)
    (hn : (l.map (fun a => (key a).1)).Nodup) :
    (std_sort key l).Pairwise (fun a b => sort_before (key a) (key b) = true) := by
  have hs := std_sort_sorted key l
  have hp := std_sort_perm key l
  have hn1 : ((std_sort key l).map (fun a => (key a).1)).Nodup :=
    (hp.map _).nodup_iff.mpr hn
  have hn2 : (std_sort key l).Pairwise (fun a b => (key a).1 ≠ (key b).1) :=
    List.pairwise_map.mp hn1
  refine (hs.and hn2).imp ?_
  intro a b hab
  obtain ⟨h1, h2⟩ := hab
  rw [sort_before_false_iff] at h1
  rw [sort_before_iff]
  rcases h1 with h3 | ⟨h3, h4⟩
  · exact Or.inl h3
  · exact Or.inr ⟨h3.symm, by omega⟩

theorem std_sort_entries_unique (l1 l2 : List (Nat × Int)) (hp : l1.Perm l2) :
    std_sort id l1 = std_sort id l2 := by
  haveI : IsAntisymm (Nat × Int) (fun a b => sort_before (id b) (id a) = false) :=
    ⟨fun a b hab hba => no_inversion_antisymm a b hab hba⟩
  exact List.eq_of_perm_of_sorted
    (((std_sort_perm id l1).trans hp).trans (std_sort_perm id l2).symm)
    (std_sort_sorted id l1) (std_sort_sorted id l2)

theorem map_eq_of_inj {α β : Type} (f : α → β) :
    ∀ (l1 l2 : List α), l1.map f = l2.map f →
      (∀ a ∈ l1, ∀ b ∈ l2, f a = f b → a = b) → l1 = l2
  | [], [], _, _ => rfl
  | [], _ :: _, h, _ => by simp at h
  | _ :: _, [], h, _ => by simp at h
  | a :: l1, b :: l2, h, hinj => by
    simp only [List.map_cons, List.cons.injEq] at h
    have hab : a = b := hinj a (List.mem_cons_self a l1) b (List.mem_cons_self b l2) h.1
    have ht := map_eq_of_inj f l1 l2 h.2
      (fun x hx y hy => hinj x (List.mem_cons_of_mem a hx) y (List.mem_cons_of_mem b hy))
    rw [hab, ht]

theorem std_sort_unique {α : Type} (key : α → Nat × Int) (l1 l2 : List α)
    (hp : l1.Perm l2) (hn : (l1.map (fun a => (key a).1)).Nodup) :
    std_sort key l1 = std_sort key l2 := by
  have hk : (std_sort key l1).map key = (std_sort key l2).map key := by
    have e1 := std_sort_map id key l1
    have e2 := std_sort_map id key l2
    simp only [id] at e1 e2
    rw [e1, e2]
    exact std_sort_entries_unique _ _ (hp.map key)
  apply map_eq_of_inj key _ _ hk
  intro a ha b hb hab
  have ha1 : a ∈ l1 := (std_sort_perm key l1).subset ha
  have hb1 : b ∈ l1 := hp.symm.subset ((std_sort_perm key l2).subset hb)
  have hfst : (fun x => (key x).1) a = (fun x => (key x).1) b := by simp [hab]
  exact List.inj_on_of_nodup_map hn ha1 hb1 hfst

theorem PrintChildren_eq (c_str : BlockIdentity → String) (relative : Bool)
    (max_name_length max_depth : Nat) (depth : Nat) (parentns : Int) :
    ∀ cs : Children,
      PrintChildren c_str relative max_name_length max_depth depth parentns cs
        = cs.toList.map (fun p => (child_key p,
            PrintNode c_str relative max_name_length max_depth (c_str p.1) depth parentns p.2))
  | Children.nil => by simp [PrintChildren, Children.toList]
  | Children.cons id child rest => by
    simp [PrintChildren, Children.toList, child_key,
      PrintChildren_eq c_str relative max_name_length max_depth depth parentns rest]

theorem PrintNode_eq (c_str : BlockIdentity → String) (relative : Bool)
    (max_name_length max_depth : Nat) (name : String) (depth : Nat) (parentns : Int)
    (node : Node) :
    PrintNode c_str relative max_name_length max_depth name depth parentns node
      = node_line max_name_length max_depth name depth parentns node.time_spent
        :: (if depth < max_depth then
              ((std_sort child_key node.children_view.toList).map (fun p =>
                PrintNode c_str relative max_name_length max_depth (c_str p.1) (depth + 1)
                  (if relative then node.time_spent else parentns) p.2)).flatten
            else []) := by
  obtain ⟨d, t, cs⟩ := node
  simp only [PrintNode, Node.time_spent, Node.children_view]
  congr 1
  generalize (if relative = true then t else parentns) = P
  by_cases hd : depth < max_depth
  · rw [if_pos hd, if_pos hd, PrintChildren_eq]
    have h := std_sort_map Prod.fst
      (fun p : BlockIdentity × Node => (child_key p,
        PrintNode c_str relative max_name_length max_depth (c_str p.1) (depth + 1) P p.2))
      cs.toList
    simp only at h
    rw [← h, List.map_map]
    rfl
  · rw [if_neg hd, if_neg hd]

theorem top_entries_eq (n : Nat) (data : umap) :
    top_entries n data = (std_sort id data.entries).take n := by
  simp only [top_entries]
  split_ifs with h
  · rfl
  · exact (List.take_of_length_le (Nat.le_of_not_lt h)).symm

/-- C19 (report ordering). The comparator of the reports puts more time first
and, on equal time, the greater block address first; on entries of distinct
blocks this is a strict total order (irreflexive, transitive, asymmetric, and
any two entries of different blocks are ordered).  The entries listed by
`OverviewReport::str` and `CallstackReport::overview_str` are the first
`min(top_n, number of entries)` elements of the sorted entries of the map, the
sorted entries are a rearrangement of the map's entries in strictly descending
order, and they are the same for every iteration order of the map.  Every node
printed by `PrintNode` above `max_depth` is followed by the printed blocks of
its children in the sorted order of the children, which is strictly descending
and the same for every iteration order of the child map. -/
theorem report_order :
    ((∀ a : BlockIdentity × Int, sort_before a a = false) ∧
      (∀ a b c : BlockIdentity × Int,
        sort_before a b = true → sort_before b c = true → sort_before a c = true) ∧
      (∀ a b : BlockIdentity × Int, sort_before a b = true → sort_before b a = false) ∧
      (∀ a b : BlockIdentity × Int, a.1 ≠ b.1 →
        sort_before a b = true ∨ sort_before b a = true) ∧
      (∀ a b : BlockIdentity × Int,
        sort_before a b = true ↔ (b.2 < a.2 ∨ (a.2 = b.2 ∧ b.1 < a.1)))) ∧
    (∀ entries : List (BlockIdentity × Int), (entries.map Prod.fst).Nodup →
      (std_sort id entries).Perm entries ∧
      (std_sort id entries).Pairwise (fun a b => sort_before a b = true)) ∧
    (∀ l1 l2 : List (BlockIdentity × Int), l1.Perm l2 → std_sort id l1 = std_sort id l2) ∧
    (∀ (top_n : Nat) (data : umap),
      top_entries top_n data = (std_sort id data.entries).take top_n ∧
      (top_entries top_n data).length = min top_n data.entries.length) ∧
    (∀ (top_n : Nat) (now : Int) (r : ThreadOverviewReport),
      OverviewReport.str top_n now r = (std_sort id (r.as_of now).entries).take top_n) ∧
    (∀ (top_n : Nat) (relative : Bool) (top : BlockIdentity) (node : Node),
      CallstackReport.overview_str top_n relative top node
        = (std_sort id (CreateOverview relative umap.empty top node).1.entries).take top_n) ∧
    (∀ (c_str : BlockIdentity → String) (relative : Bool) (max_name_length max_depth : Nat)
        (name : String) (depth : Nat) (parentns : Int) (node : Node),
      PrintNode c_str relative max_name_length max_depth name depth parentns node
        = node_line max_name_length max_depth name depth parentns node.time_spent
          :: (if depth < max_depth then
                ((std_sort child_key node.children_view.toList).map (fun p =>
                  PrintNode c_str relative max_name_length max_depth (c_str p.1) (depth + 1)
                    (if relative then node.time_spent else parentns) p.2)).flatten
              else [])) ∧
    (∀ cs : List (BlockIdentity × Node), (cs.map Prod.fst).Nodup →
      (std_sort child_key cs).Perm cs ∧
      (std_sort child_key cs).Pairwise
        (fun a b => sort_before (child_key a) (child_key b) = true) ∧
      ∀ cs2 : List (BlockIdentity × Node), cs.Perm cs2 →
        std_sort child_key cs = std_sort child_key cs2) := by
  refine ⟨⟨?_, ?_, ?_, ?_, ?_⟩, ?_, ?_, ?_, ?_, ?_, ?_, ?_⟩
  · intro a
    rw [sort_before_false_iff]
    exact Or.inr ⟨rfl, le_refl _⟩
  · intro a b c hab hbc
    rw [sort_before_iff] at hab hbc ⊢
    rcases hab with h1 | ⟨h1, h2⟩ <;> rcases hbc with h3 | ⟨h3, h4⟩
    · exact Or.inl (lt_trans h3 h1)
    · exact Or.inl (h3 ▸ h1)
    · exact Or.inl (h1 ▸ h3)
    · exact Or.inr ⟨h1.trans h3, lt_trans h4 h2⟩
  · intro a b hab
    rw [sort_before_iff] at hab
    rw [sort_before_false_iff]
    rcases hab with h1 | ⟨h1, h2⟩
    · exact Or.inl h1
    · exact Or.inr ⟨h1.symm, le_of_lt h2⟩
  · intro a b hne
    simp only [sort_before_iff]
    rcases lt_trichotomy a.2 b.2 with h1 | h1 | h1
    · exact Or.inr (Or.inl h1)
    · rcases lt_trichotomy a.1 b.1 with h2 | h2 | h2
      · exact Or.inr (Or.inr ⟨h1.symm, h2⟩)
      · exact absurd h2 hne
      · exact Or.inl (Or.inr ⟨h1, h2⟩)
    · exact Or.inl (Or.inl h1)
  · exact sort_before_iff
  · intro entries hn
    exact ⟨std_sort_perm id entries, std_sort_strict id entries hn⟩
  · exact std_sort_entries_unique
  · intro top_n data
    refine ⟨top_entries_eq top_n data, ?_⟩
    rw [top_entries_eq, List.length_take, (std_sort_perm id data.entries).length_eq]
  · intro top_n now r
    exact top_entries_eq top_n _
  · intro top_n relative top node
    exact top_entries_eq top_n _
  · exact PrintNode_eq
  · intro cs hn
    have hn1 : (cs.map (fun a => (child_key a).1)).Nodup := hn
    exact ⟨std_sort_perm child_key cs, std_sort_strict child_key cs hn1,
      fun cs2 hp => std_sort_unique child_key cs cs2 hp hn1⟩

/-- Three entries, two of them with equal time: the block with more time comes
first, then of the two equal ones the one at the greater address; the top two
are the first two of that order, whatever the order in the map. -/
theorem report_order_witness :
    std_sort id [((1 : BlockIdentity), (5 : Int)), (2, 5), (3, 7)] = [(3, 7), (2, 5), (1, 5)] ∧
    top_entries 2 { entries := [(2, 5), (3, 7), (1, 5)] } = [(3, 7), (2, 5)] ∧
    (std_sort id [((1 : BlockIdentity), (5 : Int)), (2, 5), (3, 7)]).Perm
      [(1, 5), (2, 5), (3, 7)] ∧
    (std_sort id [((1 : BlockIdentity), (5 : Int)), (2, 5), (3, 7)]).Pairwise
      (fun a b => sort_before a b = true) :=
  ⟨by decide, by decide, report_order.2.1 [(1, 5), (2, 5), (3, 7)] (by decide)⟩

/-! ## Percentages of the tree print -/

mutual
theorem PrintNode_absolute (c_str : BlockIdentity → String) (max_name_length max_depth : Nat)
    (P : Int) :
    ∀ (name : String) (depth : Nat) (node : Node),
      ∀ l ∈ PrintNode c_str false max_name_length max_depth name depth P node,
        ∃ t : Int, l.duration = SplitDuration.ctor t ∧ l.percent = percent_of t P
  | name, depth, Node.mk d t cs => by
    intro l hl
    simp only [PrintNode, List.mem_cons, Bool.false_eq_true, if_false] at hl
    rcases hl with hl | hl
    · exact ⟨t, by rw [hl]; rfl, by rw [hl]; rfl⟩
    · by_cases hd : depth < max_depth
      · rw [if_pos hd] at hl
        simp only [List.mem_flatten, List.mem_map] at hl
        obtain ⟨block, ⟨b, hb, hb2⟩, hlb⟩ := hl
        have hb1 : b ∈ PrintChildren c_str false max_name_length max_depth (depth + 1) P cs :=
          (std_sort_perm Prod.fst _).subset hb
        exact PrintChildren_absolute c_str max_name_length max_depth P (depth + 1) cs b hb1 l
          (hb2 ▸ hlb)
      · rw [if_neg hd] at hl
        simp at hl
theorem PrintChildren_absolute (c_str : BlockIdentity → String)
    (max_name_length max_depth : Nat) (P : Int) :
    ∀ (depth : Nat) (cs : Children),
      ∀ b ∈ PrintChildren c_str false max_name_length max_depth depth P cs,
        ∀ l ∈ b.2, ∃ t : Int, l.duration = SplitDuration.ctor t ∧ l.percent = percent_of t P
  | _, Children.nil => by
    intro b hb
    simp [PrintChildren] at hb
  | depth, Children.cons id child rest => by
    intro b hb l hl
    simp only [PrintChildren, List.mem_cons] at hb
    rcases hb with hb | hb
    · rw [hb] at hl
      exact PrintNode_absolute c_str max_name_length max_depth P (c_str id) depth child l hl
    · exact PrintChildren_absolute c_str max_name_length max_depth P depth rest b hb l hl
end

/-- C20, as stated, fails: the percentages of `callstack_str` are not computed
against the root node's `time_spent`.  For the example tree (root 15 ms, `A`
15 ms, `B` 10 ms) in a report that started 20 ms before `now`, with
`relative == false`, every line is computed against the 20 ms: the root line
`Measured` shows 1 500 000 000 / 20 000 000, that is 75 %, not 100 %. -/
theorem percentage_root_counterexample :
    example_tree.time_spent = 15000000 ∧
    (CallstackReport.callstack_str example_names 10 false 20000000 0 example_tree).map
        tree_line.percent
      = [some (1500000000, 20000000), some (1500000000, 20000000),
          some (1000000000, 20000000)] ∧
    ¬ ((CallstackReport.callstack_str example_names 10 false 20000000 0 example_tree).map
        tree_line.percent
      = [percent_of 15000000 15000000, percent_of 15000000 15000000,
          percent_of 10000000 15000000]) := by
  decide

/-- C20 (percentage denominator, amended). In `callstack_str` the line of the
root, `Measured`, has its percentage computed against the report's elapsed time
`now − start`.  With `relative == false` every printed line is computed against
that same `now − start`.  With `relative == true` the printed block of every
child of a printed node above `max_depth` is the print of that child with the
parent's `time_spent` as denominator, so the child's own line is computed
against its parent's `time_spent`.  A line has no percentage exactly when its
denominator is zero; otherwise the percentage is the quotient of 100 times the
node's `time_spent`, a product formed in 64-bit arithmetic (it is the exact
product when that is a 64-bit value), by the denominator. -/
theorem percentage_denominator (c_str : BlockIdentity → String) (max_depth : Nat)
    (now start : Int) (root : Node) :
    (∀ relative : Bool, ∃ rest : List tree_line,
      CallstackReport.callstack_str c_str max_depth relative now start root
        = node_line (Nat.max (strlen "Measured") (max_child_values c_str root).1)
            (Nat.min max_depth (max_child_values c_str root).2) "Measured" 0 (now - start)
            root.time_spent :: rest) ∧
    (∀ l ∈ CallstackReport.callstack_str c_str max_depth false now start root,
      ∃ t : Int, l.duration = SplitDuration.ctor t ∧ l.percent = percent_of t (now - start)) ∧
    (∀ (max_name_length max_print_depth : Nat) (name : String) (depth : Nat) (parentns : Int)
        (node : Node), depth < max_print_depth →
      ∀ p ∈ node.children_view.toList,
        PrintNode c_str true max_name_length max_print_depth (c_str p.1) (depth + 1)
            node.time_spent p.2
          <:+: PrintNode c_str true max_name_length max_print_depth name depth parentns node) ∧
    (∀ (relative : Bool) (max_name_length max_print_depth : Nat) (name : String) (depth : Nat)
        (parentns : Int) (node : Node), ∃ rest : List tree_line,
      PrintNode c_str relative max_name_length max_print_depth name depth parentns node
        = node_line max_name_length max_print_depth name depth parentns node.time_spent
          :: rest ∧
      (node_line max_name_length max_print_depth name depth parentns node.time_spent).percent
        = percent_of node.time_spent parentns) ∧
    (∀ t parentns : Int,
      (percent_of t parentns = none ↔ parentns = 0) ∧
      (parentns ≠ 0 → percent_of t parentns = some (int64_t (t * 100), parentns)) ∧
      (in_int64 (t * 100) → int64_t (t * 100) = t * 100)) := by
  refine ⟨?_, ?_, ?_, ?_, ?_⟩
  · intro relative
    exact ⟨_, PrintNode_eq c_str relative _ _ "Measured" 0 (now - start) root⟩
  · intro l hl
    exact PrintNode_absolute c_str _ _ (now - start) "Measured" 0 root l hl
  · intro mnl md name depth parentns node hd p hp
    rw [PrintNode_eq c_str true mnl md name depth parentns node, if_pos hd]
    have hps : p ∈ std_sort child_key node.children_view.toList :=
      (std_sort_perm child_key _).symm.subset hp
    have hin := List.infix_of_mem_flatten
      (List.mem_map_of_mem (fun p : BlockIdentity × Node =>
        PrintNode c_str true mnl md (c_str p.1) (depth + 1)
          (if true = true then node.time_spent else parentns) p.2) hps)
    simp only [if_true] at hin ⊢
    exact hin.trans (List.suffix_cons _ _).isInfix
  · intro relative mnl md name depth parentns node
    exact ⟨_, PrintNode_eq c_str relative mnl md name depth parentns node, rfl⟩
  · intro t parentns
    refine ⟨?_, ?_, int64_t_of_in _⟩
    · by_cases h : parentns = 0
      · simp [percent_of, h]
      · simp [percent_of, h]
    · intro h
      simp [percent_of, h]

/-- The example tree (`A` 15 ms containing `B` 10 ms) in a report whose elapsed
time is the root's 15 ms: the three lines are computed against 15 ms and show
100, 100 and 1 000 000 000 / 15 000 000, which is 66.67 to two decimals.  A
`time_spent` of 92233720368547759 ns against itself has the numerator
-9223372036854775716, the 64-bit value of the product with 100. -/
theorem percentage_denominator_witness :
    (CallstackReport.callstack_str example_names 10 false 15000000 0 example_tree).map
        tree_line.percent
      = [some (1500000000, 15000000), some (1500000000, 15000000),
          some (1000000000, 15000000)] ∧
    (1500000000 : Int) = 100 * 15000000 ∧
    2 * |100 * (1000000000 : Int) - 6667 * 15000000| ≤ 15000000 ∧
    (CallstackReport.callstack_str example_names 10 true 15000000 0 example_tree).map
        tree_line.percent
      = [some (1500000000, 15000000), some (1500000000, 15000000),
          some (1000000000, 15000000)] ∧
    percent_of 92233720368547759 92233720368547759
      = some (-9223372036854775716, 92233720368547759) ∧
    ∃ t : Int,
      (node_line 8 2 "B" 2 15000000 10000000).duration = SplitDuration.ctor t ∧
      (node_line 8 2 "B" 2 15000000 10000000).percent = percent_of t (15000000 - 0) :=
  ⟨by decide, by decide, by decide, by decide, by decide,
    (percentage_denominator example_names 10 15000000 0 example_tree).2.1
      (node_line 8 2 "B" 2 15000000 10000000) (by decide)⟩

/-! ## Exact decomposition of a duration -/

theorem ctor_neg (d : Int) :
    SplitDuration.ctor (-d)
      = { h := -(SplitDuration.ctor d).h
          m := -(SplitDuration.ctor d).m
          s := -(SplitDuration.ctor d).s
          ms := -(SplitDuration.ctor d).ms
          us := -(SplitDuration.ctor d).us
          ns := -(SplitDuration.ctor d).ns } := by
  have key : ∀ a x k : Int, -a - -x * k = -(a - x * k) := by intros; ring
  simp only [SplitDuration.ctor, Int.neg_tdiv, key]

theorem ctor_sum (d : Int) :
    (SplitDuration.ctor d).h * 3600000000000 + (SplitDuration.ctor d).m * 60000000000
      + (SplitDuration.ctor d).s * 1000000000 + (SplitDuration.ctor d).ms * 1000000
      + (SplitDuration.ctor d).us * 1000 + (SplitDuration.ctor d).ns = d := by
  simp only [SplitDuration.ctor]
  ring

theorem ctor_steps_ofNat (n : Nat) :
    between_zero n ((SplitDuration.ctor n).h * 3600000000000) ∧
    between_zero n ((SplitDuration.ctor n).m * 60000000000) ∧
    between_zero n ((SplitDuration.ctor n).s * 1000000000) ∧
    between_zero n ((SplitDuration.ctor n).ms * 1000000) ∧
    between_zero n ((SplitDuration.ctor n).us * 1000) ∧
    between_zero n ((SplitDuration.ctor n).ns) ∧
    between_zero n (n - (SplitDuration.ctor n).h * 3600000000000) ∧
    between_zero n (n - (SplitDuration.ctor n).h * 3600000000000
      - (SplitDuration.ctor n).m * 60000000000) ∧
    between_zero n (n - (SplitDuration.ctor n).h * 3600000000000
      - (SplitDuration.ctor n).m * 60000000000 - (SplitDuration.ctor n).s * 1000000000) ∧
    between_zero n (n - (SplitDuration.ctor n).h * 3600000000000
      - (SplitDuration.ctor n).m * 60000000000 - (SplitDuration.ctor n).s * 1000000000
      - (SplitDuration.ctor n).ms * 1000000) := by
  rw [ctor_ofNat]
  simp only [between_zero]
  refine ⟨?_, ?_, ?_, ?_, ?_, ?_, ?_, ?_, ?_, ?_⟩ <;> constructor <;> intro _ <;> omega

theorem between_zero_neg (d x : Int) (h : between_zero d x) : between_zero (-d) (-x) := by
  simp only [between_zero] at h ⊢
  constructor <;> intro _ <;> omega

/-- C25 (exact decomposition). For every nanosecond duration `d`, the six
counts of `SplitDuration(d)` recombine to `d`:
`hours·3600e9 + minutes·60e9 + seconds·1e9 + millis·1e6 + micros·1e3 + nanos = d`.
For `d ≥ 0` the minutes and seconds lie in `[0, 60)`, the milliseconds,
microseconds and nanoseconds in `[0, 1000)`, and the hours are
`floor(d / 3600e9)`.  Every product and every remainder that the constructor
computes lies between 0 and `d`, so for a 64-bit `d` no step leaves the 64-bit
range. -/
theorem split_exact (d : Int) :
    ((SplitDuration.ctor d).h * 3600000000000 + (SplitDuration.ctor d).m * 60000000000
      + (SplitDuration.ctor d).s * 1000000000 + (SplitDuration.ctor d).ms * 1000000
      + (SplitDuration.ctor d).us * 1000 + (SplitDuration.ctor d).ns = d) ∧
    (0 ≤ d →
      0 ≤ (SplitDuration.ctor d).m ∧ (SplitDuration.ctor d).m < 60 ∧
      0 ≤ (SplitDuration.ctor d).s ∧ (SplitDuration.ctor d).s < 60 ∧
      0 ≤ (SplitDuration.ctor d).ms ∧ (SplitDuration.ctor d).ms < 1000 ∧
      0 ≤ (SplitDuration.ctor d).us ∧ (SplitDuration.ctor d).us < 1000 ∧
      0 ≤ (SplitDuration.ctor d).ns ∧ (SplitDuration.ctor d).ns < 1000 ∧
      (SplitDuration.ctor d).h = d / 3600000000000) ∧
    (between_zero d ((SplitDuration.ctor d).h * 3600000000000) ∧
      between_zero d ((SplitDuration.ctor d).m * 60000000000) ∧
      between_zero d ((SplitDuration.ctor d).s * 1000000000) ∧
      between_zero d ((SplitDuration.ctor d).ms * 1000000) ∧
      between_zero d ((SplitDuration.ctor d).us * 1000) ∧
      between_zero d ((SplitDuration.ctor d).ns) ∧
      between_zero d (d - (SplitDuration.ctor d).h * 3600000000000) ∧
      between_zero d (d - (SplitDuration.ctor d).h * 3600000000000
        - (SplitDuration.ctor d).m * 60000000000) ∧
      between_zero d (d - (SplitDuration.ctor d).h * 3600000000000
        - (SplitDuration.ctor d).m * 60000000000 - (SplitDuration.ctor d).s * 1000000000) ∧
      between_zero d (d - (SplitDuration.ctor d).h * 3600000000000
        - (SplitDuration.ctor d).m * 60000000000 - (SplitDuration.ctor d).s * 1000000000
        - (SplitDuration.ctor d).ms * 1000000)) ∧
    (∀ x : Int, between_zero d x → -9223372036854775808 ≤ d → d < 9223372036854775808 →
      -9223372036854775808 ≤ x ∧ x < 9223372036854775808) := by
  refine ⟨ctor_sum d, ?_, ?_, ?_⟩
  · intro hd
    obtain ⟨n, rfl⟩ := Int.eq_ofNat_of_zero_le hd
    rw [ctor_ofNat]
    simp only
    refine ⟨?_, ?_, ?_, ?_, ?_, ?_, ?_, ?_, ?_, ?_, ?_⟩ <;> omega
  · rcases Int.le_total 0 d with hd | hd
    · obtain ⟨n, rfl⟩ := Int.eq_ofNat_of_zero_le hd
      exact ctor_steps_ofNat n
    · obtain ⟨n, hn⟩ := Int.eq_ofNat_of_zero_le (Int.neg_nonneg.mpr hd)
      have hdn : d = -(n : Int) := by omega
      subst hdn
      have hs := ctor_steps_ofNat n
      rw [ctor_neg]
      simp only
      obtain ⟨h1, h2, h3, h4, h5, h6, h7, h8, h9, h10⟩ := hs
      refine ⟨?_, ?_, ?_, ?_, ?_, ?_, ?_, ?_, ?_, ?_⟩
      · have := between_zero_neg _ _ h1; rwa [← Int.neg_mul] at this
      · have := between_zero_neg _ _ h2; rwa [← Int.neg_mul] at this
      · have := between_zero_neg _ _ h3; rwa [← Int.neg_mul] at this
      · have := between_zero_neg _ _ h4; rwa [← Int.neg_mul] at this
      · have := between_zero_neg _ _ h5; rwa [← Int.neg_mul] at this
      · exact between_zero_neg _ _ h6
      · have := between_zero_neg _ _ h7
        have e : -((n : Int) - (SplitDuration.ctor n).h * 3600000000000)
            = -(n : Int) - -(SplitDuration.ctor n).h * 3600000000000 := by ring
        rwa [e] at this
      · have := between_zero_neg _ _ h8
        have e : -((n : Int) - (SplitDuration.ctor n).h * 3600000000000
              - (SplitDuration.ctor n).m * 60000000000)
            = -(n : Int) - -(SplitDuration.ctor n).h * 3600000000000
              - -(SplitDuration.ctor n).m * 60000000000 := by ring
        rwa [e] at this
      · have := between_zero_neg _ _ h9
        have e : -((n : Int) - (SplitDuration.ctor n).h * 3600000000000
              - (SplitDuration.ctor n).m * 60000000000 - (SplitDuration.ctor n).s * 1000000000)
            = -(n : Int) - -(SplitDuration.ctor n).h * 3600000000000
              - -(SplitDuration.ctor n).m * 60000000000
              - -(SplitDuration.ctor n).s * 1000000000 := by ring
        rwa [e] at this
      · have := between_zero_neg _ _ h10
        have e : -((n : Int) - (SplitDuration.ctor n).h * 3600000000000
              - (SplitDuration.ctor n).m * 60000000000 - (SplitDuration.ctor n).s * 1000000000
              - (SplitDuration.ctor n).ms * 1000000)
            = -(n : Int) - -(SplitDuration.ctor n).h * 3600000000000
              - -(SplitDuration.ctor n).m * 60000000000
              - -(SplitDuration.ctor n).s * 1000000000
              - -(SplitDuration.ctor n).ms * 1000000 := by ring
        rwa [e] at this
  · intro x hx hlo hhi
    simp only [between_zero] at hx
    constructor <;> omega

/-- The duration 3 723 456 789 000 ns splits into 1 h, 2 min, 3 s, 456 ms,
789 µs and 0 ns; its negation splits into the negated counts, and the
smallest 64-bit duration splits without leaving the 64-bit range. -/
theorem split_exact_witness :
    SplitDuration.ctor 3723456789000
      = { h := 1, m := 2, s := 3, ms := 456, us := 789, ns := 0 } ∧
    SplitDuration.ctor (-3723456789001)
      = { h := -1, m := -2, s := -3, ms := -456, us := -789, ns := -1 } ∧
    SplitDuration.ctor (-9223372036854775808)
      = { h := -2562047, m := -47, s := -16, ms := -854, us := -775, ns := -808 } ∧
    (0 ≤ (SplitDuration.ctor 3723456789000).m ∧ (SplitDuration.ctor 3723456789000).m < 60 ∧
      0 ≤ (SplitDuration.ctor 3723456789000).s ∧ (SplitDuration.ctor 3723456789000).s < 60 ∧
      0 ≤ (SplitDuration.ctor 3723456789000).ms ∧
      (SplitDuration.ctor 3723456789000).ms < 1000 ∧
      0 ≤ (SplitDuration.ctor 3723456789000).us ∧
      (SplitDuration.ctor 3723456789000).us < 1000 ∧
      0 ≤ (SplitDuration.ctor 3723456789000).ns ∧
      (SplitDuration.ctor 3723456789000).ns < 1000 ∧
      (SplitDuration.ctor 3723456789000).h = 3723456789000 / 3600000000000) :=
  ⟨by decide, by decide, by decide, (split_exact 3723456789000).2.1 (by decide)⟩

/-! ## Monotone snapshots -/

/-- C24, as stated, fails where the sum leaves the 64-bit range.  With block 7
open since the least 64-bit time point (the state after that one
`begin_event`) and nothing accumulated, `as_of(1)`
holds -9223372036854775807 at block 7, which is below `cul_time[7] = 0`; and
the snapshot at -1 holds 9223372036854775807 while the later snapshot at 0
holds -9223372036854775808. -/
theorem snapshot_overflow_counterexample :
    ThreadOverviewReport.empty.run
        [event.begin_event { source := 7, start := -9223372036854775808 }]
      = some { now := 0, stack := [{ source := 7, start := -9223372036854775808 }],
               cul_time := umap.empty } ∧
    (ThreadOverviewReport.as_of
        { now := 0, stack := [{ source := 7, start := -9223372036854775808 }],
          cul_time := umap.empty } 1).at 7 = -9223372036854775807 ∧
    umap.empty.at 7 = 0 ∧
    (ThreadOverviewReport.as_of
        { now := 0, stack := [{ source := 7, start := -9223372036854775808 }],
          cul_time := umap.empty } (-1)).at 7 = 9223372036854775807 ∧
    (ThreadOverviewReport.as_of
        { now := 0, stack := [{ source := 7, start := -9223372036854775808 }],
          cul_time := umap.empty } 0).at 7 = -9223372036854775808 := by
  decide

/-- C24 (snapshots are monotone in time, amended). For every recorder state,
block `b` and time points `t1 ≤ t2` such that `cul_time[b]` and `cul_time[b]`
plus the sum of `t2 − start` over the open events of `b` with `start ≤ t2` are
64-bit values: the value of `as_of(t1)` at `b` is at least `cul_time[b]` and at
most the value of `as_of(t2)` at `b`, and both snapshots hold the exact
sums. -/
theorem snapshot_monotone (r : ThreadOverviewReport) (b : BlockIdentity) (t1 t2 : Int)
    (h12 : t1 ≤ t2) (hcul : in_int64 (r.cul_time.at b))
    (hfit : in_int64 (r.cul_time.at b + open_time b t2 r.stack)) :
    r.cul_time.at b ≤ (r.as_of t1).at b ∧
    (r.as_of t1).at b ≤ (r.as_of t2).at b ∧
    (r.as_of t1).at b = r.cul_time.at b + open_time b t1 r.stack ∧
    (r.as_of t2).at b = r.cul_time.at b + open_time b t2 r.stack := by
  have hm := open_time_mono b t1 t2 h12 r.stack
  have hn := open_time_nonneg b t1 r.stack
  have hfit1 : in_int64 (r.cul_time.at b + open_time b t1 r.stack) := by
    unfold in_int64 at hcul hfit ⊢
    omega
  have e1 := as_of_exact r t1 b hcul hfit1
  have e2 := as_of_exact r t2 b hcul hfit
  refine ⟨?_, ?_, e1, e2⟩
  · omega
  · omega

/-- Block 7 closed once for 3 ms and open again since 5 ms: the snapshots at
4 ms, 7 ms and 12 ms show 3 ms, 5 ms and 10 ms. -/
theorem snapshot_monotone_witness :
    (ThreadOverviewReport.as_of
        { now := 0, stack := [{ source := 7, start := 5000000 }],
          cul_time := { entries := [(7, 3000000)] } } 4000000).at 7 = 3000000 ∧
    (ThreadOverviewReport.as_of
        { now := 0, stack := [{ source := 7, start := 5000000 }],
          cul_time := { entries := [(7, 3000000)] } } 7000000).at 7 = 5000000 ∧
    (ThreadOverviewReport.as_of
        { now := 0, stack := [{ source := 7, start := 5000000 }],
          cul_time := { entries := [(7, 3000000)] } } 12000000).at 7 = 10000000 ∧
    (in_int64 (umap.at { entries := [(7, 3000000)] } 7) ∧
      in_int64 (umap.at { entries := [(7, 3000000)] } 7
        + open_time 7 12000000 [{ source := 7, start := 5000000 }])) ∧
    (ThreadOverviewReport.as_of
        { now := 0, stack := [{ source := 7, start := 5000000 }],
          cul_time := { entries := [(7, 3000000)] } } 7000000).at 7
      ≤ (ThreadOverviewReport.as_of
        { now := 0, stack := [{ source := 7, start := 5000000 }],
          cul_time := { entries := [(7, 3000000)] } } 12000000).at 7 :=
  ⟨by decide, by decide, by decide,
    ⟨by unfold in_int64; decide, by unfold in_int64; decide⟩,
    (snapshot_monotone
      { now := 0, stack := [{ source := 7, start := 5000000 }],
        cul_time := { entries := [(7, 3000000)] } } 7 7000000 12000000 (by decide)
      (by unfold in_int64; decide) (by unfold in_int64; decide)).2.1⟩

/-! ## The assertion of the folded print -/

mutual
theorem PrintCollapsedNode_checks (c_str : BlockIdentity → String) (max_depth : Nat) :
    ∀ (path : String) (node : Node),
      (PrintCollapsedNode c_str max_depth path node).isSome = true ↔
        ∀ p ∈ collapsed_checks max_depth node, p.1 ≤ p.2
  | path, Node.mk depth t cs => by
    have ih := PrintCollapsedLoop_checks c_str max_depth path cs
    simp only [PrintCollapsedNode, collapsed_checks]
    by_cases hd : depth < max_depth
    · simp only [if_pos hd, List.mem_append, List.mem_singleton]
      cases hl : PrintCollapsedLoop c_str max_depth path cs with
      | none =>
        simp only [hl, Option.isSome_none, Bool.false_eq_true, false_iff] at ih ⊢
        intro hall
        exact ih (fun p hp => hall p (Or.inl hp))
      | some r =>
        obtain ⟨lines, child_time⟩ := r
        have hs := PrintCollapsedLoop_spec c_str max_depth path cs lines child_time hl
        simp only [hl, Option.isSome_some, true_iff] at ih
        simp only [hs.2]
        by_cases hle : cs.time_spent ≤ t
        · simp only [if_pos hle, Option.isSome_some, true_iff]
          rintro p (hp | hp)
          · exact ih p hp
          · rw [hp]; exact hle
        · simp only [if_neg hle, Option.isSome_none, Bool.false_eq_true, false_iff]
          intro hall
          exact hle (hall (cs.time_spent, t) (Or.inr rfl))
    · simp [if_neg hd]
theorem PrintCollapsedLoop_checks (c_str : BlockIdentity → String) (max_depth : Nat) :
    ∀ (path : String) (cs : Children),
      (PrintCollapsedLoop c_str max_depth path cs).isSome = true ↔
        ∀ p ∈ children_checks max_depth cs, p.1 ≤ p.2
  | _, Children.nil => by simp [PrintCollapsedLoop, children_checks]
  | path, Children.cons id child rest => by
    have ih1 := PrintCollapsedNode_checks c_str max_depth (path ++ ";" ++ c_str id) child
    have ih2 := PrintCollapsedLoop_checks c_str max_depth path rest
    simp only [PrintCollapsedLoop, children_checks, List.mem_append]
    cases h1 : PrintCollapsedNode c_str max_depth (path ++ ";" ++ c_str id) child with
    | none =>
      simp only [h1, Option.isSome_none, Bool.false_eq_true, false_iff] at ih1 ⊢
      intro hall
      exact ih1 (fun p hp => hall p (Or.inl hp))
    | some r1 =>
      simp only [h1, Option.isSome_some, true_iff] at ih1
      cases h2 : PrintCollapsedLoop c_str max_depth path rest with
      | none =>
        simp only [h2, Option.isSome_none, Bool.false_eq_true, false_iff] at ih2 ⊢
        intro hall
        exact ih2 (fun p hp => hall p (Or.inr hp))
      | some r2 =>
        simp only [h2, Option.isSome_some, true_iff] at ih2
        simp only [Option.isSome_some, true_iff]
        rintro p (hp | hp)
        · exact ih1 p hp
        · exact ih2 p hp
end

mutual
theorem conserved_nonneg : ∀ node : Node, node.conserved = true → 0 ≤ node.time_spent
  | Node.mk d t cs => by
    intro hc
    simp only [Node.conserved, Bool.and_eq_true, decide_eq_true_eq] at hc
    have := conserved_children_nonneg cs hc.2
    simp only [Node.time_spent]
    omega
theorem conserved_children_nonneg : ∀ cs : Children, cs.conserved = true → 0 ≤ cs.time_spent
  | Children.nil => by intro _; simp [Children.time_spent]
  | Children.cons id child rest => by
    intro hc
    simp only [Children.conserved, Bool.and_eq_true] at hc
    have h1 := conserved_nonneg child hc.1
    have h2 := conserved_children_nonneg rest hc.2
    simp only [Children.time_spent]
    omega
end

mutual
theorem conserved_lines_nonneg (c_str : BlockIdentity → String) (max_depth : Nat) :
    ∀ (path : String) (node : Node), node.conserved = true →
      ∀ l ∈ collapsed_lines c_str max_depth path node, 0 ≤ l.2
  | path, Node.mk d t cs => by
    intro hc l hl
    have ht := conserved_nonneg (Node.mk d t cs) hc
    simp only [Node.conserved, Bool.and_eq_true, decide_eq_true_eq] at hc
    simp only [Node.time_spent] at ht
    simp only [collapsed_lines] at hl
    by_cases hd : d < max_depth
    · rw [if_pos hd, List.mem_append, List.mem_singleton] at hl
      rcases hl with hl | hl
      · exact conserved_children_lines_nonneg c_str max_depth path cs hc.2 l hl
      · rw [hl]; simp only; omega
    · rw [if_neg hd, List.mem_singleton] at hl
      rw [hl]; exact ht
theorem conserved_children_lines_nonneg (c_str : BlockIdentity → String) (max_depth : Nat) :
    ∀ (path : String) (cs : Children), cs.conserved = true →
      ∀ l ∈ collapsed_children c_str max_depth path cs, 0 ≤ l.2
  | _, Children.nil => by
    intro _ l hl
    simp [collapsed_children] at hl
  | path, Children.cons id child rest => by
    intro hc l hl
    simp only [Children.conserved, Bool.and_eq_true] at hc
    simp only [collapsed_children, List.mem_append] at hl
    rcases hl with hl | hl
    · exact conserved_lines_nonneg c_str max_depth _ child hc.1 l hl
    · exact conserved_children_lines_nonneg c_str max_depth path rest hc.2 l hl
end

/-- C22 (the assertion of `PrintCollapsedNode`). `PrintCollapsedNode` returns
exactly when all its checks `child_time <= time_spent(node)` hold.  On a tree
in which every node satisfies `time_spent(node) ≥ Σ time_spent(children)`, for
every `max_depth` and start path, the check holds at every visited node, the
function returns, and every number it writes is non-negative. -/
theorem collapsed_assertion_valid (c_str : BlockIdentity → String) (max_depth : Nat)
    (path : String) (node : Node) (hc : node.conserved = true) :
    ((PrintCollapsedNode c_str max_depth path node).isSome = true ↔
      ∀ p ∈ collapsed_checks max_depth node, p.1 ≤ p.2) ∧
    (∀ p ∈ collapsed_checks max_depth node, p.1 ≤ p.2) ∧
    (∃ lines : List (String × Int),
      PrintCollapsedNode c_str max_depth path node = some (lines, node.time_spent) ∧
      ∀ l ∈ lines, 0 ≤ l.2) := by
  have hsome := PrintCollapsedNode_conserved c_str max_depth path node hc
  have hiff := PrintCollapsedNode_checks c_str max_depth path node
  refine ⟨hiff, ?_, ?_⟩
  · apply hiff.mp
    rw [hsome]
    rfl
  · exact ⟨_, hsome, conserved_lines_nonneg c_str max_depth path node hc⟩

/-- The example tree conserves time: its three checks are `0 ≤ 10 ms` at `B`,
`10 ms ≤ 15 ms` at `A` and `15 ms ≤ 15 ms` at the root, and the numbers
written are 10 000 000, 5 000 000 and 0. -/
theorem collapsed_assertion_valid_witness :
    collapsed_checks 10 example_tree
      = [(0, 10000000), (10000000, 15000000), (15000000, 15000000)] ∧
    (∀ p ∈ collapsed_checks 10 example_tree, p.1 ≤ p.2) ∧
    PrintCollapsedNode example_names 10 "Measured" example_tree
      = some ([("Measured;A;B", 10000000), ("Measured;A", 5000000), ("Measured", 0)],
          15000000) :=
  ⟨by decide,
    (collapsed_assertion_valid example_names 10 "Measured" example_tree (by decide)).2.1,
    by decide⟩

/-! ## Alignment of the tree print -/

mutual
theorem max_child_values_eq (c_str : BlockIdentity → String) :
    ∀ node : Node, max_child_values c_str node = (node.name_max c_str, node.deepest)
  | Node.mk d t cs => by
    simp only [max_child_values, max_child_loop_eq c_str (0, d) cs, Node.name_max,
      Node.deepest]
    simp
theorem max_child_loop_eq (c_str : BlockIdentity → String) :
    ∀ (acc : Nat × Nat) (cs : Children),
      max_child_loop c_str acc cs
        = (Nat.max acc.1 (cs.name_max c_str), Nat.max acc.2 cs.deepest)
  | acc, Children.nil => by
    simp [max_child_loop, Children.name_max, Children.deepest]
  | acc, Children.cons id child rest => by
    simp only [max_child_loop, max_child_values_eq c_str child,
      max_child_loop_eq c_str _ rest, Children.name_max, Children.deepest]
    simp only [Nat.max_def]
    refine Prod.ext ?_ ?_ <;> simp only <;> split_ifs <;> omega
end

mutual
theorem named_nodes_depth_ge (c_str : BlockIdentity → String) :
    ∀ (d : Nat) (name : String) (node : Node), Node.depths_from d node = true →
      ∀ p ∈ named_nodes c_str name node, d ≤ p.2.depth
  | d, name, Node.mk depth t cs => by
    intro h p hp
    simp only [Node.depths_from, Bool.and_eq_true, decide_eq_true_eq] at h
    simp only [named_nodes, List.mem_cons] at hp
    rcases hp with hp | hp
    · rw [hp]
      simp only [Node.depth]
      omega
    · have h1 := named_children_depth_ge c_str (d + 1) cs h.2 p hp
      omega
theorem named_children_depth_ge (c_str : BlockIdentity → String) :
    ∀ (d : Nat) (cs : Children), Children.depths_from d cs = true →
      ∀ p ∈ named_children c_str cs, d ≤ p.2.depth
  | _, Children.nil => by
    intro _ p hp
    simp [named_children] at hp
  | d, Children.cons id child rest => by
    intro h p hp
    simp only [Children.depths_from, Bool.and_eq_true] at h
    simp only [named_children, List.mem_append] at hp
    rcases hp with hp | hp
    · exact named_nodes_depth_ge c_str d (c_str id) child h.1 p hp
    · exact named_children_depth_ge c_str d rest h.2 p hp
end

mutual
theorem named_nodes_bound (c_str : BlockIdentity → String) :
    ∀ (name : String) (node : Node), ∀ p ∈ named_nodes c_str name node,
      p.2.depth ≤ node.deepest ∧ strlen p.1 ≤ Nat.max (strlen name) (node.name_max c_str)
  | name, Node.mk depth t cs => by
    intro p hp
    simp only [named_nodes, List.mem_cons] at hp
    simp only [Node.deepest, Node.name_max, Nat.max_def]
    rcases hp with hp | hp
    · rw [hp]
      simp only [Node.depth]
      constructor <;> split_ifs <;> omega
    · have h1 := named_children_bound c_str cs p hp
      constructor <;> split_ifs <;> omega
theorem named_children_bound (c_str : BlockIdentity → String) :
    ∀ (cs : Children), ∀ p ∈ named_children c_str cs,
      p.2.depth ≤ cs.deepest ∧ strlen p.1 ≤ cs.name_max c_str
  | Children.nil => by
    intro p hp
    simp [named_children] at hp
  | Children.cons id child rest => by
    intro p hp
    simp only [named_children, List.mem_append] at hp
    simp only [Children.deepest, Children.name_max, Nat.max_def]
    rcases hp with hp | hp
    · have h1 := named_nodes_bound c_str (c_str id) child p hp
      simp only [Nat.max_def] at h1
      constructor <;> split_ifs at h1 ⊢ <;> omega
    · have h1 := named_children_bound c_str rest p hp
      constructor <;> split_ifs <;> omega
end

mutual
theorem PrintNode_nodes (c_str : BlockIdentity → String) (relative : Bool)
    (max_name_length max_depth : Nat) :
    ∀ (name : String) (depth : Nat) (P : Int) (node : Node),
      Node.depths_from depth node = true → depth ≤ max_depth →
      ((PrintNode c_str relative max_name_length max_depth name depth P node).map
          line_key).Perm
        (((named_nodes c_str name node).filter
          (fun p => decide (p.2.depth ≤ max_depth))).map node_key)
  | name, depth, P, Node.mk d t cs => by
    intro h hle
    simp only [Node.depths_from, Bool.and_eq_true, decide_eq_true_eq] at h
    obtain ⟨hd, hcs⟩ := h
    subst hd
    have hhead : decide ((name, Node.mk d t cs).2.depth ≤ max_depth) = true := by
      simpa [Node.depth] using hle
    simp only [PrintNode, named_nodes, List.map_cons, List.filter_cons, hhead, if_true]
    have hk : line_key (node_line max_name_length max_depth name d P t)
        = node_key (name, Node.mk d t cs) := rfl
    rw [hk]
    refine List.Perm.cons _ ?_
    by_cases hlt : d < max_depth
    · rw [if_pos hlt]
      have h1 := PrintChildren_nodes c_str relative max_name_length max_depth (d + 1)
        (if relative = true then t else P) cs hcs hlt
      exact ((((std_sort_perm Prod.fst _).map Prod.snd).flatten).map line_key).trans h1
    · rw [if_neg hlt]
      have hnil : (named_children c_str cs).filter
          (fun p => decide (p.2.depth ≤ max_depth)) = [] := by
        rw [List.filter_eq_nil_iff]
        intro p hp
        have h1 := named_children_depth_ge c_str (d + 1) cs hcs p hp
        simp only [decide_eq_true_eq]
        omega
      rw [hnil]
      exact List.Perm.refl _
theorem PrintChildren_nodes (c_str : BlockIdentity → String) (relative : Bool)
    (max_name_length max_depth : Nat) :
    ∀ (depth : Nat) (P : Int) (cs : Children),
      Children.depths_from depth cs = true → depth ≤ max_depth →
      ((((PrintChildren c_str relative max_name_length max_depth depth P cs).map
          Prod.snd).flatten).map line_key).Perm
        (((named_children c_str cs).filter
          (fun p => decide (p.2.depth ≤ max_depth))).map node_key)
  | _, _, Children.nil => by
    intro _ _
    simp [PrintChildren, named_children]
  | depth, P, Children.cons id child rest => by
    intro h hle
    simp only [Children.depths_from, Bool.and_eq_true] at h
    simp only [PrintChildren, named_children, List.map_cons, List.flatten_cons,
      List.map_append, List.filter_append]
    exact List.Perm.append
      (PrintNode_nodes c_str relative max_name_length max_depth (c_str id) depth P child
        h.1 hle)
      (PrintChildren_nodes c_str relative max_name_length max_depth depth P rest h.2 hle)
end

mutual
theorem PrintNode_offset (c_str : BlockIdentity → String) (relative : Bool)
    (max_name_length max_depth : Nat) :
    ∀ (name : String) (depth : Nat) (P : Int) (node : Node),
      ∀ l ∈ PrintNode c_str relative max_name_length max_depth name depth P node,
        l.offset = (size_sub max_name_length (strlen l.name)
          + size_sub max_depth l.indent) % 2 ^ 64
  | name, depth, P, Node.mk d t cs => by
    intro l hl
    simp only [PrintNode, List.mem_cons] at hl
    rcases hl with hl | hl
    · rw [hl]
      rfl
    · by_cases hd : depth < max_depth
      · rw [if_pos hd] at hl
        simp only [List.mem_flatten, List.mem_map] at hl
        obtain ⟨block, ⟨b, hb, hb2⟩, hlb⟩ := hl
        exact PrintChildren_offset c_str relative max_name_length max_depth (depth + 1) _ cs b
          ((std_sort_perm Prod.fst _).subset hb) l (hb2 ▸ hlb)
      · rw [if_neg hd] at hl
        simp at hl
theorem PrintChildren_offset (c_str : BlockIdentity → String) (relative : Bool)
    (max_name_length max_depth : Nat) :
    ∀ (depth : Nat) (P : Int) (cs : Children),
      ∀ b ∈ PrintChildren c_str relative max_name_length max_depth depth P cs,
        ∀ l ∈ b.2, l.offset = (size_sub max_name_length (strlen l.name)
          + size_sub max_depth l.indent) % 2 ^ 64
  | _, _, Children.nil => by
    intro b hb
    simp [PrintChildren] at hb
  | depth, P, Children.cons id child rest => by
    intro b hb l hl
    simp only [PrintChildren, List.mem_cons] at hb
    rcases hb with hb | hb
    · rw [hb] at hl
      exact PrintNode_offset c_str relative max_name_length max_depth (c_str id) depth P child
        l hl
    · exact PrintChildren_offset c_str relative max_name_length max_depth depth P rest b hb
        l hl
end

theorem size_sub_le (a b : Nat) (h : b ≤ a) (ha : a < 2 ^ 64) : size_sub a b = a - b := by
  unfold size_sub
  rw [Nat.mod_eq_of_lt (by omega : b < 2 ^ 64)]
  omega

theorem lead_length (l : tree_line) :
    l.lead.length = l.indent + strlen l.name + 2 + l.offset := by
  have hs : l.name.toUTF8.data.toList.length = strlen l.name := by
    simp only [strlen, Array.length_toList]
    exact String.size_toUTF8 l.name
  simp only [tree_line.lead, put_str, List.length_append, List.length_replicate, hs,
    List.length_nil, List.length_cons]
  by_cases h : l.offset > 0
  · rw [if_pos h]
    simp only [List.length_cons, List.length_nil]
    omega
  · rw [if_neg h]
    simp only [List.length_nil]
    omega

theorem lead_eq (l : tree_line) :
    l.lead = List.replicate l.indent 32 ++ l.name.toUTF8.data.toList ++ [58, 32]
      ++ List.replicate (l.offset - 1) 45 ++ (if 0 < l.offset then [32] else []) := by
  simp only [tree_line.lead, put_str, List.length_nil, Nat.sub_zero, List.append_nil]
  by_cases h : l.offset > 0
  · simp [h]
  · have h0 : l.offset = 0 := by omega
    simp [h0]

mutual
theorem deepest_attained (c_str : BlockIdentity → String) :
    ∀ (name : String) (node : Node),
      ∃ p ∈ named_nodes c_str name node, p.2.depth = node.deepest
  | name, Node.mk depth t cs => by
    simp only [named_nodes, Node.deepest, Nat.max_def]
    by_cases h : depth ≤ cs.deepest
    · rw [if_pos h]
      rcases children_deepest_attained c_str cs with h0 | ⟨p, hp, hpd⟩
      · refine ⟨(name, Node.mk depth t cs), List.mem_cons_self _ _, ?_⟩
        simp only [Node.depth]
        omega
      · exact ⟨p, List.mem_cons_of_mem _ hp, hpd⟩
    · rw [if_neg h]
      exact ⟨(name, Node.mk depth t cs), List.mem_cons_self _ _, rfl⟩
theorem children_deepest_attained (c_str : BlockIdentity → String) :
    ∀ (cs : Children),
      cs.deepest = 0 ∨ ∃ p ∈ named_children c_str cs, p.2.depth = cs.deepest
  | Children.nil => Or.inl rfl
  | Children.cons id child rest => by
    simp only [named_children, Children.deepest, Nat.max_def]
    by_cases h : child.deepest ≤ rest.deepest
    · rw [if_pos h]
      rcases children_deepest_attained c_str rest with h0 | ⟨p, hp, hpd⟩
      · exact Or.inl h0
      · exact Or.inr ⟨p, List.mem_append_right _ hp, hpd⟩
    · rw [if_neg h]
      obtain ⟨p, hp, hpd⟩ := deepest_attained c_str (c_str id) child
      exact Or.inr ⟨p, List.mem_append_left _ hp, hpd⟩
end

/-- C21: alignment of the tree print.  For a snapshot tree whose node depths are
the distances from the root, any `max_depth` and either value of `relative`:
`max_child_values` returns the longest name length below the root and the
depth of the deepest node (a depth some node has and no node exceeds); the
lines of `callstack_str` are, up to their order, the lines of exactly the nodes
with depth at most `min(max_depth, deepest)`, each once, with the node's depth
as indentation; on every line the name is at most
`max(len("Measured"), max_name_length)` long and the indentation at most the
print depth, so neither subtraction of `offset` underflows; the line begins
with `indent` blanks, the name, `": "`, and `offset` bytes of padding; and, the
two maxima being `std::size_t` values whose sum is one too, `offset` is
`(max_name_length - len(name)) + (max_print_depth - depth)` and the duration
starts at column `max(len("Measured"), max_name_length) + max_print_depth + 2`. -/
theorem tree_alignment (c_str : BlockIdentity → String) (max_depth : Nat) (relative : Bool)
    (now start : Int) (root : Node) (hdepth : Node.depths_from 0 root = true) :
    max_child_values c_str root = (root.name_max c_str, root.deepest) ∧
    (∀ p ∈ named_nodes c_str "Measured" root, p.2.depth ≤ root.deepest) ∧
    (∃ p ∈ named_nodes c_str "Measured" root, p.2.depth = root.deepest) ∧
    ((CallstackReport.callstack_str c_str max_depth relative now start root).map
        line_key).Perm
      (((named_nodes c_str "Measured" root).filter
        (fun p => decide (p.2.depth ≤ Nat.min max_depth root.deepest))).map node_key) ∧
    (∀ l ∈ CallstackReport.callstack_str c_str max_depth relative now start root,
      strlen l.name ≤ Nat.max (strlen "Measured") (root.name_max c_str) ∧
      l.indent ≤ Nat.min max_depth root.deepest ∧
      l.lead = List.replicate l.indent 32 ++ l.name.toUTF8.data.toList ++ [58, 32]
        ++ List.replicate (l.offset - 1) 45 ++ (if 0 < l.offset then [32] else []) ∧
      (Nat.max (strlen "Measured") (root.name_max c_str)
          + Nat.min max_depth root.deepest < 2 ^ 64 →
        l.offset = (Nat.max (strlen "Measured") (root.name_max c_str) - strlen l.name)
          + (Nat.min max_depth root.deepest - l.indent) ∧
        l.lead.length = Nat.max (strlen "Measured") (root.name_max c_str)
          + Nat.min max_depth root.deepest + 2)) := by
  have hmv := max_child_values_eq c_str root
  have hperm := PrintNode_nodes c_str relative
    (Nat.max (strlen "Measured") (root.name_max c_str)) (Nat.min max_depth root.deepest)
    "Measured" 0 (now - start) root hdepth (Nat.zero_le _)
  have hcall : CallstackReport.callstack_str c_str max_depth relative now start root
      = PrintNode c_str relative (Nat.max (strlen "Measured") (root.name_max c_str))
          (Nat.min max_depth root.deepest) "Measured" 0 (now - start) root := by
    simp only [CallstackReport.callstack_str, hmv]
  rw [hcall]
  refine ⟨hmv, fun p hp => (named_nodes_bound c_str "Measured" root p hp).1,
    deepest_attained c_str "Measured" root, hperm, ?_⟩
  intro l hl
  have hmem : line_key l ∈ ((named_nodes c_str "Measured" root).filter
      (fun p => decide (p.2.depth ≤ Nat.min max_depth root.deepest))).map node_key :=
    hperm.subset (List.mem_map_of_mem line_key hl)
  obtain ⟨p, hp, hkey⟩ := List.mem_map.mp hmem
  obtain ⟨hp1, hp2⟩ := List.mem_filter.mp hp
  simp only [decide_eq_true_eq] at hp2
  simp only [node_key, line_key, Prod.mk.injEq] at hkey
  obtain ⟨hind, hname, -⟩ := hkey
  have hlen : strlen l.name ≤ Nat.max (strlen "Measured") (root.name_max c_str) := by
    rw [← hname]
    exact (named_nodes_bound c_str "Measured" root p hp1).2
  have hin : l.indent ≤ Nat.min max_depth root.deepest := by
    rw [← hind]
    exact hp2
  refine ⟨hlen, hin, lead_eq l, ?_⟩
  intro hfit
  have hoff := PrintNode_offset c_str relative _ _ "Measured" 0 (now - start) root l hl
  rw [size_sub_le _ _ hlen (by omega), size_sub_le _ _ hin (by omega)] at hoff
  have hoff2 : l.offset = (Nat.max (strlen "Measured") (root.name_max c_str) - strlen l.name)
      + (Nat.min max_depth root.deepest - l.indent) := by
    rw [hoff]
    exact Nat.mod_eq_of_lt (by omega)
  refine ⟨hoff2, ?_⟩
  rw [lead_length, hoff2]
  omega

/-- The example tree (root, `A` below it, `B` below `A`) printed with
`max_depth = 5`: the longest name is `Measured` with 8 bytes and the deepest
node stands at depth 2, so the three lines have the offsets 2, 8 and 7 and the
duration starts at column 8 + 2 + 2 = 12 on each; with `max_depth = 1` the
node `B` is not printed and the column is 8 + 1 + 2 = 11. -/
theorem tree_alignment_witness :
    Node.depths_from 0 example_tree = true ∧
    (CallstackReport.callstack_str example_names 5 false 20000000 0 example_tree).map
        (fun l => (l.indent, l.name, l.offset, l.lead.length))
      = [(0, "Measured", 2, 12), (1, "A", 8, 12), (2, "B", 7, 12)] ∧
    (CallstackReport.callstack_str example_names 1 false 20000000 0 example_tree).map
        (fun l => (l.indent, l.name, l.offset, l.lead.length))
      = [(0, "Measured", 1, 11), (1, "A", 7, 11)] ∧
    max_child_values example_names example_tree
      = (Node.name_max example_names example_tree, Node.deepest example_tree) ∧
    (Node.name_max example_names example_tree, Node.deepest example_tree) = (1, 2) :=
  ⟨by decide, by decide, by decide,
    (tree_alignment example_names 5 false 20000000 0 example_tree (by decide)).1,
    by decide⟩

end perf_report
